import Mathlib

/-!
# zfssnap: rolling ZFS snapshots under a daily / weekly / monthly retention policy

A shallow embedding of `main.go` and `zfs.go`.

* Go strings are embedded as `String`; the substring, split and parse helpers work on
  the character list of the string.  All separators used by the program are ASCII.
* The `zfs` binary is the environment.  Its state is a `World`: the records printed by
  `zfs list -t filesystem`, the records printed by `zfs list -t snapshot`, a schedule of
  command failures (one entry is consumed by every command that is executed) and the
  log of the `CreateSnapshot` / `DeleteSnapshot` calls issued so far.  The splitting of
  the command output into lines and columns is not modelled: a listing is the list of
  its six-column records.
* `time.Now()` is a parameter `now : Time` of the functions that read the clock.
* Go `int` values are `Int`; the only `uint64` in the program is the parsed period key,
  a `Nat` below `2 ^ 64`.
* A run-time panic (index out of range) is the result `Result.panic`.
* The `for numberOfSnapshots > ...` loop is executed with fuel; running out of fuel is
  the result `none`.
-/

namespace Zfssnap

/-! ## Strings -/

/-- Occurrence of `sub` as a contiguous block of `s`. -/
def containsChars (s sub : List Char) : Bool :=
  s.tails.any (fun t => sub.isPrefixOf t)

/-- Go `strings.Contains`. -/
def stringsContains (s sub : String) : Bool :=
  containsChars s.data sub.data

/-- Pieces of `s` between the occurrences of `sep`; never the empty list. -/
def splitChars (sep : Char) : List Char → List (List Char)
  | [] => [[]]
  | c :: cs =>
    if c = sep then [] :: splitChars sep cs
    else
      match splitChars sep cs with
      | [] => [[c]]
      | p :: ps => (c :: p) :: ps

/-- Go `strings.Split` with a one-character separator. -/
def stringsSplit (s : String) (sep : Char) : List String :=
  (splitChars sep s.data).map String.mk

/-- Digit loop of `strconv.ParseUint(s, 10, 64)`: a character that is not a decimal
digit is a syntax error, a value above `2 ^ 64 - 1` is a range error. -/
def parseUintLoop : List Char → Nat → Option Nat
  | [], n => some n
  | c :: cs, n =>
    if c.isDigit then
      if n * 10 + (c.toNat - 48) < 2 ^ 64 then parseUintLoop cs (n * 10 + (c.toNat - 48))
      else none
    else none

/-- Go `strconv.ParseUint(s, 10, 64)`; `none` stands for a non-nil error. -/
def strconvParseUint (s : String) : Option Nat :=
  if s.data = [] then none else parseUintLoop s.data 0

/-- The three alternatives of the group in `snapshotNamePattern`. -/
def tierWords : List String := ["daily", "weekly", "monthly"]

/-- Anchored match of `@auto_(daily|weekly|monthly)_[0-9]+$` against the whole of `t`. -/
def matchesHere (t : List Char) : Bool :=
  tierWords.any (fun tier =>
    let lead := "@auto_".data ++ tier.data ++ "_".data
    lead.isPrefixOf t && !(t.drop lead.length).isEmpty && (t.drop lead.length).all Char.isDigit)

/-- The call `snapshotNamePattern.MatchString(s)` for the pattern
`@auto_(daily|weekly|monthly)_[0-9]+$`: an unanchored search, so some suffix of `s`
matches in full. -/
def snapshotNamePatternMatchString (s : String) : Bool :=
  s.data.tails.any matchesHere

/-! ## Data model -/

/-- One entry of the configuration file. -/
structure FilesystemSnapshotConfig where
  Name : String
  NumberDaily : Int
  NumberWeekly : Int
  NumberMonthly : Int
  deriving DecidableEq, Repr

/-- One line of `zfs list` output, split into its six columns. -/
structure Filesystem where
  Name : String
  Creation : String
  Used : String
  Avail : String
  Refer : String
  Mountpoint : String
  deriving DecidableEq, Repr

/-- Outcome of a Go function returning `(value, error)`, or panicking. -/
inductive Result (α : Type) where
  | ok (a : α)
  | error (msg : String)
  | panic
  deriving DecidableEq, Repr

/-- Whether the outcome is a nil error. -/
def Result.isOk {α : Type} : Result α → Bool
  | .ok _ => true
  | _ => false

/-- A call of one of the two mutating provider operations, with its outcome. -/
inductive Call where
  | create (fsName ssName : String) (ok : Bool)
  | delete (fsName ssName : String) (ok : Bool)
  deriving DecidableEq, Repr

/-- State of the environment the program talks to. -/
structure World where
  filesystems : List Filesystem
  snapshots : List Filesystem
  faults : List Bool
  trace : List Call
  deriving DecidableEq, Repr

/-- Run one `zfs` command: consume the next entry of the failure schedule.  The flag is
`true` when the command exits with an error. -/
def World.command (w : World) : Bool × World :=
  match w.faults with
  | [] => (false, w)
  | b :: bs => (b, { w with faults := bs })

/-- Append a call to the log. -/
def World.log (w : World) (c : Call) : World :=
  { w with trace := w.trace ++ [c] }

/-- The snapshot record `zfs snapshot` adds; the columns other than the name are opaque. -/
def newSnapshot (name : String) : Filesystem :=
  { Name := name, Creation := "", Used := "", Avail := "", Refer := "", Mountpoint := "" }

/-! ## zfs.go -/

/-- Go `zfsList`: the parsed lines of `zfs list -t t`. -/
def zfsList (t : String) (w : World) : Result (List Filesystem) × World :=
  match w.command with
  | (true, w1) => (.error "zfs: list failed", w1)
  | (false, w1) =>
    (.ok (if t = "snapshot" then w1.snapshots
          else if t = "filesystem" then w1.filesystems else []), w1)

def ListSnapshots (w : World) : Result (List Filesystem) × World :=
  zfsList "snapshot" w

def ListFilesystems (w : World) : Result (List Filesystem) × World :=
  zfsList "filesystem" w

/-- The test a snapshot passes to be kept by `ListSnapshotsForFilesystem`. -/
def keepSnapshot (filesystemName : String) (snapshot : Filesystem) : Bool :=
  stringsContains snapshot.Name (filesystemName ++ "@") &&
    snapshotNamePatternMatchString snapshot.Name

def ListSnapshotsForFilesystem (filesystemName : String) (w : World) :
    Result (List Filesystem) × World :=
  match zfsList "snapshot" w with
  | (.ok allSnapshots, w1) => (.ok (allSnapshots.filter (keepSnapshot filesystemName)), w1)
  | (.error e, w1) => (.error e, w1)
  | (.panic, w1) => (.panic, w1)

/-- Body of `CreateSnapshot`, without the call log. -/
def createSnapshotBody (fsName ssName : String) (w : World) : Result Unit × World :=
  match ListFilesystems w with
  | (.error e, w1) => (.error e, w1)
  | (.panic, w1) => (.panic, w1)
  | (.ok filesystems, w1) =>
    match ListSnapshots w1 with
    | (.error e, w2) => (.error e, w2)
    | (.panic, w2) => (.panic, w2)
    | (.ok snapshots, w2) =>
      if !filesystems.any (fun filesystem => filesystem.Name == fsName) then
        (.error ("zfs: no filesystem with name " ++ fsName), w2)
      else if snapshots.any (fun snapshot => snapshot.Name == fsName ++ "@" ++ ssName) then
        (.error ("zfs: snapshot already exists " ++ fsName ++ "@" ++ ssName), w2)
      else
        match w2.command with
        | (true, w3) => (.error "zfs: snapshot failed", w3)
        | (false, w3) =>
          (.ok (), { w3 with snapshots := w3.snapshots ++ [newSnapshot (fsName ++ "@" ++ ssName)] })

def CreateSnapshot (fsName ssName : String) (w : World) : Result Unit × World :=
  let out := createSnapshotBody fsName ssName w
  (out.1, out.2.log (Call.create fsName ssName out.1.isOk))

/-- Body of `DeleteSnapshot`, without the call log.  `zfs destroy` fails when the failure
schedule says so or when no snapshot has the name; otherwise the snapshot is gone. -/
def deleteSnapshotBody (fsName ssName : String) (w : World) : Result Unit × World :=
  match w.command with
  | (true, w1) => (.error "zfs: destroy failed", w1)
  | (false, w1) =>
    if w1.snapshots.any (fun snapshot => snapshot.Name == fsName ++ "@" ++ ssName) then
      (.ok (), { w1 with
        snapshots := w1.snapshots.filter (fun snapshot => snapshot.Name != fsName ++ "@" ++ ssName) })
    else (.error "zfs: could not find any snapshots to destroy", w1)

def DeleteSnapshot (fsName ssName : String) (w : World) : Result Unit × World :=
  let out := deleteSnapshotBody fsName ssName w
  (out.1, out.2.log (Call.delete fsName ssName out.1.isOk))

/-! ## main.go: the clock and the canonical labels -/

/-- An instant, to the day: the number of days elapsed since 1 January of year 1 on the
local (proleptic Gregorian) calendar.  Day 0 is a Monday. -/
structure Time where
  absDay : Nat
  deriving DecidableEq, Repr

def isLeap (year : Nat) : Bool :=
  year % 4 == 0 && (year % 100 != 0 || year % 400 == 0)

/-- Go `absDate`, first half: the year and the zero-based day of the year, by cutting off
400-year, 100-year, 4-year and 1-year cycles. -/
def yearDay (d : Nat) : Nat × Nat :=
  let n400 := d / 146097
  let d1 := d - 146097 * n400
  let c100 := d1 / 36524
  let n100 := c100 - c100 / 4
  let d2 := d1 - 36524 * n100
  let n4 := d2 / 1461
  let d3 := d2 - 1461 * n4
  let c1 := d3 / 365
  let n1 := c1 - c1 / 4
  (400 * n400 + 100 * n100 + 4 * n4 + n1 + 1, d3 - 365 * n1)

/-- Go `daysBefore`: days of a non-leap year before the start of month `m + 1`. -/
def daysBefore : List Nat := [0, 31, 59, 90, 120, 151, 181, 212, 243, 273, 304, 334, 365]

/-- Go `absDate`, second half: month (1 to 12) and day of the month from the year and the
day of the year. -/
def monthDay (year yday : Nat) : Nat × Nat :=
  if isLeap year && yday == 59 then (2, 29)
  else
    let day := if isLeap year && yday > 59 then yday - 1 else yday
    let month := day / 31
    let fin := daysBefore.getD (month + 1) 0
    if day >= fin then (month + 2, day - fin + 1)
    else (month + 1, day - daysBefore.getD month 0 + 1)

def Time.year (t : Time) : Nat := (yearDay t.absDay).1

def Time.month (t : Time) : Nat := (monthDay (yearDay t.absDay).1 (yearDay t.absDay).2).1

def Time.day (t : Time) : Nat := (monthDay (yearDay t.absDay).1 (yearDay t.absDay).2).2

/-- Go `Time.ISOWeek`: move to the Thursday of the week (weeks start on Monday), then take
that day's year and its day of the year divided by seven, plus one. -/
def Time.ISOWeek (t : Time) : Nat × Nat :=
  let weekday := (t.absDay + 1) % 7
  let thursday := if weekday = 0 then t.absDay - 3 else t.absDay + 4 - weekday
  ((yearDay thursday).1, (yearDay thursday).2 / 7 + 1)

/-- Go `appendInt`: decimal digits, padded on the left with zeros to `width`. -/
def appendInt (x width : Nat) : String :=
  String.mk (List.replicate (width - (Nat.repr x).length) '0') ++ Nat.repr x

/-- The layout `2006`. -/
def Time.format2006 (t : Time) : String := appendInt t.year 4

/-- The layout `200601`. -/
def Time.format200601 (t : Time) : String := appendInt t.year 4 ++ appendInt t.month 2

/-- The layout `20060102`. -/
def Time.format20060102 (t : Time) : String :=
  appendInt t.year 4 ++ appendInt t.month 2 ++ appendInt t.day 2

/-- Go `getSnapshotNamesForFilesystem`; the four reads of the clock are one instant. -/
def getSnapshotNamesForFilesystem (now : Time) : String × String × String :=
  let dailySnapshotName := "auto_daily_" ++ now.format20060102
  let weekN := now.ISOWeek.2
  let weeklySnapshotName := "auto_weekly_" ++ now.format2006 ++ Nat.repr weekN
  let monthlySnapshotName := "auto_monthly_" ++ now.format200601
  (dailySnapshotName, weeklySnapshotName, monthlySnapshotName)

/-! ## main.go: retention -/

/-- The three variables the inner loop of a cleanup function updates. -/
structure Oldest where
  oldestName : String
  oldestDate : Nat
  oldestIdx : Int
  deriving DecidableEq, Repr

/-- The inner `for i, snapshot := range snapshots` loop of a cleanup function, from index
`i` on.  `tier` is the substring the function looks for (`_daily_`, `_weekly_` or
`_monthly_`). -/
def scanOldest (tier : String) : List Filesystem → Int → Oldest → Result Oldest
  | [], _, o => .ok o
  | snapshot :: rest, i, o =>
    if !stringsContains snapshot.Name tier then scanOldest tier rest (i + 1) o
    else
      match (stringsSplit snapshot.Name '_').getLast? with
      | none => .panic
      | some last =>
        match strconvParseUint last with
        | none => scanOldest tier rest (i + 1) o
        | some date =>
          if o.oldestDate > date then scanOldest tier rest (i + 1) ⟨snapshot.Name, date, i⟩
          else scanOldest tier rest (i + 1) o

/-- The `for numberOfSnapshots > number` loop of a cleanup function. -/
def cleanupLoop (tier : String) (number : Int) :
    Nat → Int → List Filesystem → World → Option (Result Unit × World)
  | 0, numberOfSnapshots, _, w =>
    if numberOfSnapshots > number then none else some (.ok (), w)
  | fuel + 1, numberOfSnapshots, snapshots, w =>
    if numberOfSnapshots > number then
      match scanOldest tier snapshots 0 ⟨"", 18446744073709551615, -1⟩ with
      | .panic => some (.panic, w)
      | .error e => some (.error e, w)
      | .ok o =>
        if o.oldestIdx = -1 then some (.ok (), w)
        else
          let n := stringsSplit o.oldestName '@'
          match n[0]?, n[1]? with
          | some n0, some n1 =>
            match DeleteSnapshot n0 n1 w with
            | (.error e, w1) => some (.error e, w1)
            | (.panic, w1) => some (.panic, w1)
            | (.ok (), w1) =>
              if 0 ≤ o.oldestIdx ∧ o.oldestIdx + 1 ≤ snapshots.length then
                cleanupLoop tier number fuel (numberOfSnapshots - 1)
                  (snapshots.take o.oldestIdx.toNat ++ snapshots.drop (o.oldestIdx.toNat + 1)) w1
              else some (.panic, w1)
          | _, _ => some (.panic, w)
    else some (.ok (), w)

/-- The common body of the three cleanup functions, which differ in the substring they
look for and in the configured number they compare with. -/
def cleanupSnapshotForFilesystem (tier : String) (number : Int) (name : String) (w : World) :
    Option (Result Unit × World) :=
  match ListSnapshotsForFilesystem name w with
  | (.error e, w1) => some (.error e, w1)
  | (.panic, w1) => some (.panic, w1)
  | (.ok snapshots, w1) =>
    let numberOfSnapshots : Int :=
      (snapshots.countP (fun snapshot => stringsContains snapshot.Name tier) : Nat)
    cleanupLoop tier number (snapshots.length + 1) numberOfSnapshots snapshots w1

def cleanupDailySnapshotForFilesystem (filesystemConfig : FilesystemSnapshotConfig) (w : World) :
    Option (Result Unit × World) :=
  cleanupSnapshotForFilesystem "_daily_" filesystemConfig.NumberDaily filesystemConfig.Name w

def cleanupWeeklySnapshotForFilesystem (filesystemConfig : FilesystemSnapshotConfig) (w : World) :
    Option (Result Unit × World) :=
  cleanupSnapshotForFilesystem "_weekly_" filesystemConfig.NumberWeekly filesystemConfig.Name w

def cleanupMonthlySnapshotForFilesystem (filesystemConfig : FilesystemSnapshotConfig) (w : World) :
    Option (Result Unit × World) :=
  cleanupSnapshotForFilesystem "_monthly_" filesystemConfig.NumberMonthly filesystemConfig.Name w

/-! ## main.go: processFilesystem -/

/-- The counters and flags set by the `for _, snapshot := range snapshots` loop of
`processFilesystem`. -/
structure Tally where
  numberOfDailySnapshots : Int
  createDailySnapshot : Bool
  numberOfWeeklySnapshots : Int
  createWeeklySnapshot : Bool
  numberOfMonthlySnapshots : Int
  createMonthlySnapshot : Bool
  deriving DecidableEq, Repr

/-- One iteration of that loop. -/
def tallyStep (name dailySnapshotName weeklySnapshotName monthlySnapshotName : String)
    (t : Tally) (snapshot : Filesystem) : Tally :=
  let t1 :=
    if stringsContains snapshot.Name "_daily_" then
      { t with
        numberOfDailySnapshots := t.numberOfDailySnapshots + 1
        createDailySnapshot :=
          if snapshot.Name == name ++ "@" ++ dailySnapshotName then false
          else t.createDailySnapshot }
    else t
  let t2 :=
    if stringsContains snapshot.Name "_weekly_" then
      { t1 with
        numberOfWeeklySnapshots := t1.numberOfWeeklySnapshots + 1
        createWeeklySnapshot :=
          if snapshot.Name == name ++ "@" ++ weeklySnapshotName then false
          else t1.createWeeklySnapshot }
    else t1
  if stringsContains snapshot.Name "_monthly_" then
    { t2 with
      numberOfMonthlySnapshots := t2.numberOfMonthlySnapshots + 1
      createMonthlySnapshot :=
        if snapshot.Name == name ++ "@" ++ monthlySnapshotName then false
        else t2.createMonthlySnapshot }
  else t2

/-- The whole loop, from the initial values of the six variables. -/
def tally (name dailySnapshotName weeklySnapshotName monthlySnapshotName : String)
    (snapshots : List Filesystem) : Tally :=
  snapshots.foldl (tallyStep name dailySnapshotName weeklySnapshotName monthlySnapshotName)
    ⟨0, true, 0, true, 0, true⟩

/-- Prefix an error message, as `fmt.Errorf("cleanup daily: %s", err.Error())` does. -/
def wrapError (label : String) : Result Unit → Result Unit
  | .error e => .error (label ++ e)
  | r => r

/-- The three cleanup calls at the end of `processFilesystem`. -/
def cleanupAll (filesystemConfig : FilesystemSnapshotConfig) (w : World) :
    Option (Result Unit × World) :=
  match cleanupDailySnapshotForFilesystem filesystemConfig w with
  | none => none
  | some (.ok (), w1) =>
    match cleanupWeeklySnapshotForFilesystem filesystemConfig w1 with
    | none => none
    | some (.ok (), w2) =>
      match cleanupMonthlySnapshotForFilesystem filesystemConfig w2 with
      | none => none
      | some (.ok (), w3) => some (.ok (), w3)
      | some (r, w3) => some (wrapError "cleanup monthly: " r, w3)
    | some (r, w2) => some (wrapError "cleanup weekly: " r, w2)
  | some (r, w1) => some (wrapError "cleanup daily: " r, w1)

/-- A guarded call of `processFilesystem`: `if create && number > 0` then `CreateSnapshot`.
The increment of the tier's counter after a successful call is left out: the counter is
not read again. -/
def createIfMissing (create : Bool) (number : Int) (fsName ssName : String) (w : World) :
    Result Unit × World :=
  if create && decide (number > 0) then CreateSnapshot fsName ssName w else (.ok (), w)

/-- The check `if err != nil` with its `return err` after a call, followed by the rest
`k` of the function. -/
def andThen (r : Result Unit × World) (k : World → Option (Result Unit × World)) :
    Option (Result Unit × World) :=
  match r with
  | (.error e, w1) => some (.error e, w1)
  | (.panic, w1) => some (.panic, w1)
  | (.ok (), w1) => k w1

/-- The three guarded `CreateSnapshot` calls of `processFilesystem`, then the cleanups. -/
def createAndCleanup (filesystemConfig : FilesystemSnapshotConfig)
    (dailySnapshotName weeklySnapshotName monthlySnapshotName : String) (t : Tally) (w : World) :
    Option (Result Unit × World) :=
  andThen (createIfMissing t.createDailySnapshot filesystemConfig.NumberDaily
      filesystemConfig.Name dailySnapshotName w) fun w1 =>
  andThen (createIfMissing t.createWeeklySnapshot filesystemConfig.NumberWeekly
      filesystemConfig.Name weeklySnapshotName w1) fun w2 =>
  andThen (createIfMissing t.createMonthlySnapshot filesystemConfig.NumberMonthly
      filesystemConfig.Name monthlySnapshotName w2) fun w3 =>
  cleanupAll filesystemConfig w3

def processFilesystem (now : Time) (filesystemConfig : FilesystemSnapshotConfig) (w : World) :
    Option (Result Unit × World) :=
  match ListFilesystems w with
  | (.error e, w1) => some (.error e, w1)
  | (.panic, w1) => some (.panic, w1)
  | (.ok filesystems, w1) =>
    if !filesystems.any (fun filesystem => filesystem.Name == filesystemConfig.Name) then
      some (.error ("no filesystem found with name " ++ filesystemConfig.Name), w1)
    else
      match ListSnapshotsForFilesystem filesystemConfig.Name w1 with
      | (.error e, w2) => some (.error e, w2)
      | (.panic, w2) => some (.panic, w2)
      | (.ok snapshots, w2) =>
        let names := getSnapshotNamesForFilesystem now
        createAndCleanup filesystemConfig names.1 names.2.1 names.2.2
          (tally filesystemConfig.Name names.1 names.2.1 names.2.2 snapshots) w2

/-! ## Observations used by the statements -/

/-- The calls logged between two states of the world. -/
def callsSince (w w' : World) : List Call := w'.trace.drop w.trace.length

/-- The trailing segment of a snapshot name (after the last `_`), parsed: the period key. -/
def periodKey (name : String) : Option Nat :=
  match (stringsSplit name '_').getLast? with
  | none => none
  | some last => strconvParseUint last

/-- The snapshots `ListSnapshotsForFilesystem name` returns that the cleanup for `tier`
counts. -/
def tierSnapshots (tier name : String) (w : World) : List Filesystem :=
  (w.snapshots.filter (keepSnapshot name)).filter (fun s => stringsContains s.Name tier)

/-- The three retention tiers. -/
inductive Tier where
  | daily
  | weekly
  | monthly
  deriving DecidableEq, Repr

/-- The substring the tier's cleanup function and `processFilesystem` look for. -/
def Tier.substring : Tier → String
  | .daily => "_daily_"
  | .weekly => "_weekly_"
  | .monthly => "_monthly_"

/-- The configured retention count of the tier. -/
def Tier.number (filesystemConfig : FilesystemSnapshotConfig) : Tier → Int
  | .daily => filesystemConfig.NumberDaily
  | .weekly => filesystemConfig.NumberWeekly
  | .monthly => filesystemConfig.NumberMonthly

/-- The canonical label of the tier at `now`. -/
def Tier.label (now : Time) : Tier → String
  | .daily => (getSnapshotNamesForFilesystem now).1
  | .weekly => (getSnapshotNamesForFilesystem now).2.1
  | .monthly => (getSnapshotNamesForFilesystem now).2.2

/-- The cleanup function of the tier. -/
def cleanupForTier (T : Tier) (filesystemConfig : FilesystemSnapshotConfig) (w : World) :
    Option (Result Unit × World) :=
  match T with
  | .daily => cleanupDailySnapshotForFilesystem filesystemConfig w
  | .weekly => cleanupWeeklySnapshotForFilesystem filesystemConfig w
  | .monthly => cleanupMonthlySnapshotForFilesystem filesystemConfig w

def Call.isDelete : Call → Bool
  | .delete _ _ _ => true
  | _ => false

def Call.isCreate : Call → Bool
  | .create _ _ _ => true
  | _ => false

/-- The full name `fsName@ssName` a call is about. -/
def Call.target : Call → String
  | .create fsName ssName _ => fsName ++ "@" ++ ssName
  | .delete fsName ssName _ => fsName ++ "@" ++ ssName

/-- Whether the call returned a nil error. -/
def Call.succeeded : Call → Bool
  | .create _ _ ok => ok
  | .delete _ _ ok => ok

/-- The full names of the snapshots destroyed by the calls, in order. -/
def deletedNames (calls : List Call) : List String :=
  (calls.filter (fun c => c.isDelete && c.succeeded)).map Call.target

/-- The naming rule of ZFS: `@` separates the dataset from the snapshot label and occurs
nowhere else, so a snapshot name has exactly one and a filesystem name has none. -/
def World.wellNamed (w : World) : Prop :=
  (∀ s ∈ w.snapshots, s.Name.data.count '@' = 1) ∧
    (∀ f ∈ w.filesystems, f.Name.data.count '@' = 0)

instance (w : World) : Decidable w.wellNamed := by
  unfold World.wellNamed
  infer_instance

/-- The `(fsName, ssName)` arguments of the `CreateSnapshot` calls, in order. -/
def createCalls (calls : List Call) : List (String × String) :=
  calls.filterMap (fun c =>
    match c with
    | .create fsName ssName _ => some (fsName, ssName)
    | .delete _ _ _ => none)

/-- A sequence of guarded `CreateSnapshot` calls followed by `k`, stopping at the first
call that fails: the shape of the second half of `processFilesystem`, used to reason
about it by induction. -/
def createStages (fsName : String) :
    List (Bool × String) → World → (World → Option (Result Unit × World)) →
      Option (Result Unit × World)
  | [], w, k => k w
  | (b, ssName) :: rest, w, k =>
    if b then andThen (CreateSnapshot fsName ssName w) (fun w1 => createStages fsName rest w1 k)
    else createStages fsName rest w k

/-- The guards and labels of the three `CreateSnapshot` calls of `processFilesystem`, as
computed from the listing of the volume in `w`. -/
def stagesOf (now : Time) (filesystemConfig : FilesystemSnapshotConfig) (w : World) :
    List (Bool × String) :=
  let names := getSnapshotNamesForFilesystem now
  let t := tally filesystemConfig.Name names.1 names.2.1 names.2.2
    (w.snapshots.filter (keepSnapshot filesystemConfig.Name))
  [(t.createDailySnapshot && decide (filesystemConfig.NumberDaily > 0), names.1),
    (t.createWeeklySnapshot && decide (filesystemConfig.NumberWeekly > 0), names.2.1),
    (t.createMonthlySnapshot && decide (filesystemConfig.NumberMonthly > 0), names.2.2)]

/-- The creation decision for a tier: its retention count is positive and no snapshot
listed for the volume is named `volume@label`. -/
def wanted (now : Time) (filesystemConfig : FilesystemSnapshotConfig) (w : World) (T : Tier) :
    Bool :=
  decide (T.number filesystemConfig > 0) &&
    !(w.snapshots.filter (keepSnapshot filesystemConfig.Name)).any
      (fun s => s.Name == filesystemConfig.Name ++ "@" ++ T.label now)

/-- The world without the snapshots whose name fails the pattern. -/
def World.withoutForeign (w : World) : World :=
  { w with snapshots := w.snapshots.filter (fun s => snapshotNamePatternMatchString s.Name) }

/-- The relation between the worlds before and after a part of a run that the statement
on foreign snapshots needs: the log grows, every `DeleteSnapshot` call added is for a
name that matches the pattern, and every snapshot whose name does not match is kept. -/
def Spares (a b : World) : Prop :=
  ∃ calls, b.trace = a.trace ++ calls ∧
    (∀ c ∈ calls, c.isDelete = true → snapshotNamePatternMatchString c.target = true) ∧
    (∀ s ∈ a.snapshots, snapshotNamePatternMatchString s.Name = false → s ∈ b.snapshots)

/-- A snapshot the cleanup for `tier` can order: it has the substring and its trailing
segment parses to `k`. -/
def Candidate (tier : String) (s : Filesystem) (k : Nat) : Prop :=
  stringsContains s.Name tier = true ∧ periodKey s.Name = some k

/-- The snapshot `s` at index `j` of `l`, with period key `k`, is the one an iteration of
the loop selects: the first one among those with the smallest key. -/
def Picked (tier : String) (l : List Filesystem) (j : Nat) (s : Filesystem) (k : Nat) : Prop :=
  l[j]? = some s ∧ Candidate tier s k ∧ k < 18446744073709551615 ∧
    (∀ s' ∈ l, ∀ k', Candidate tier s' k' → k ≤ k') ∧
    (∀ (j' : Nat) (s' : Filesystem) (k' : Nat),
      j' < j → l[j']? = some s' → Candidate tier s' k' → k < k')


/-- A snapshot an iteration of the cleanup for `tier` can select: it has the substring and
its trailing segment parses to a value below the starting value of `oldestDate`. -/
def selectable (tier : String) (s : Filesystem) : Bool :=
  stringsContains s.Name tier &&
    match periodKey s.Name with
    | some k => decide (k < 18446744073709551615)
    | none => false

/-- Fail-fast between two states of the world, for a part of a run that returned nil
(`ok = true`) or not: the command outcomes `used` were consumed and the calls `calls`
logged; no command but the last one run failed and no call but the last one issued
failed; and when the part returned nil no command and no call failed at all. -/
def FailFast (ok : Bool) (a b : World) : Prop :=
  ∃ (used : List Bool) (calls : List Call),
    a.faults = used ++ b.faults ∧ b.trace = a.trace ++ calls ∧
    (∀ x ∈ used.dropLast, x = false) ∧ (∀ c ∈ calls.dropLast, c.succeeded = true) ∧
    (ok = true → (∀ x ∈ used, x = false) ∧ ∀ c ∈ calls, c.succeeded = true)

/-- Destructions are not undone between two states of the world: the log grows by
`DeleteSnapshot` calls only, no snapshot appears, and no snapshot left has the name of a
successful call. -/
def NotUndone (a b : World) : Prop :=
  ∃ calls, b.trace = a.trace ++ calls ∧ (∀ c ∈ calls, c.isDelete = true) ∧
    (∀ s ∈ b.snapshots, s ∈ a.snapshots) ∧
    ∀ name ∈ deletedNames calls, ∀ s ∈ b.snapshots, s.Name ≠ name

/-- The last `width` decimal digits of `x`, most significant first: `x` written with
exactly `width` digits, padded with zeros on the left. -/
def specDigitList : Nat → Nat → List Char
  | 0, _ => []
  | width + 1, x => specDigitList width (x / 10) ++ [Nat.digitChar (x % 10)]

/-- The labels in the words of the specification: `auto_daily_` followed by the year on
four digits, the month on two and the day on two; `auto_weekly_` followed by the year on
four digits and the week number in decimal without padding; `auto_monthly_` followed by
the year on four digits and the month on two. -/
def specLabels (year month day week : Nat) : String × String × String :=
  ("auto_daily_" ++ String.mk (specDigitList 4 year) ++ String.mk (specDigitList 2 month) ++
      String.mk (specDigitList 2 day),
    "auto_weekly_" ++ String.mk (specDigitList 4 year) ++ Nat.repr week,
    "auto_monthly_" ++ String.mk (specDigitList 4 year) ++ String.mk (specDigitList 2 month))

/-- The step order of the part of a run that starts in `w` and ends with `out`: the log
grows by `CreateSnapshot` calls for the volume with labels taken in order from `labels`,
then by the `DeleteSnapshot` calls of the daily cleanup, of the weekly cleanup and of the
monthly cleanup; and a cleanup that issued a call was started in a state of the world
reached after all the `CreateSnapshot` calls and the cleanups before it. -/
def StepOrder (filesystemConfig : FilesystemSnapshotConfig) (labels : List String) (w : World)
    (out : Result Unit × World) : Prop :=
  ∃ (creates dD dW dM : List Call) (w0 w1 w2 : World),
    w0.trace = w.trace ++ creates ∧ w1.trace = w0.trace ++ dD ∧
    w2.trace = w1.trace ++ dW ∧ out.2.trace = w2.trace ++ dM ∧
    (∀ c ∈ creates, c.isCreate = true) ∧
    List.Sublist (createCalls creates) (labels.map fun l => (filesystemConfig.Name, l)) ∧
    (∀ c ∈ dD ++ (dW ++ dM), c.isDelete = true) ∧
    (dD ≠ [] → ∃ r, cleanupDailySnapshotForFilesystem filesystemConfig w0 = some (r, w1)) ∧
    (dW ≠ [] → ∃ r, cleanupWeeklySnapshotForFilesystem filesystemConfig w1 = some (r, w2)) ∧
    (dM ≠ [] → ∃ r, cleanupMonthlySnapshotForFilesystem filesystemConfig w2 = some (r, out.2))

/-- The label of a snapshot in the words of the specification, which identifies a
snapshot as `volumeName@label`: what follows the first `@` of the name. -/
def specLabelOf (name : String) : String :=
  String.mk ((name.data.dropWhile (fun c => c != '@')).drop 1)

/-- Tier membership in the words of the specification: a snapshot belongs to a tier if
its label contains `_<tier>_` and its name matches the pattern. -/
def specBelongsToTier (T : Tier) (s : Filesystem) : Bool :=
  stringsContains (specLabelOf s.Name) T.substring && snapshotNamePatternMatchString s.Name

/-! ## Lemmas on the string helpers -/

theorem splitChars_ne_nil (sep : Char) (l : List Char) : splitChars sep l ≠ [] := by
  induction l with
  | nil => simp [splitChars]
  | cons c cs ih =>
    unfold splitChars
    split
    · simp
    · split <;> simp

theorem splitChars_length (sep : Char) (l : List Char) :
    (splitChars sep l).length = l.count sep + 1 := by
  induction l with
  | nil => simp [splitChars]
  | cons c cs ih =>
    unfold splitChars
    by_cases h : c = sep
    · subst h
      simp [ih]
    · rw [if_neg h, List.count_cons_of_ne (Ne.symm h)]
      cases hs : splitChars sep cs with
      | nil => exact absurd hs (splitChars_ne_nil sep cs)
      | cons p ps => rw [hs] at ih; simpa using ih

theorem splitChars_two (sep : Char) (l a b : List Char) (hc : l.count sep = 1)
    (ha : (splitChars sep l)[0]? = some a) (hb : (splitChars sep l)[1]? = some b) :
    a ++ sep :: b = l := by
  induction l generalizing a with
  | nil => simp at hc
  | cons c cs ih =>
    unfold splitChars at ha hb
    by_cases h : c = sep
    · subst h
      rw [if_pos rfl] at ha hb
      simp only [List.count_cons_self, Nat.add_eq_right] at hc
      have hlen := splitChars_length c cs
      rw [hc] at hlen
      cases hs : splitChars c cs with
      | nil => exact absurd hs (splitChars_ne_nil c cs)
      | cons p ps =>
        rw [hs] at hlen hb
        have hps : ps = [] := by
          cases ps with
          | nil => rfl
          | cons q qs => simp at hlen
        subst hps
        have hcs : cs = p := by
          have hno : ∀ (m : List Char), m.count c = 0 → splitChars c m = [m] := by
            intro m
            induction m with
            | nil => intro _; simp [splitChars]
            | cons d ds ihd =>
              intro hm
              have hd : d ≠ c := by
                intro hdc
                subst hdc
                simp at hm
              rw [List.count_cons_of_ne (Ne.symm hd)] at hm
              unfold splitChars
              rw [if_neg hd, ihd hm]
          have := hno cs hc
          rw [hs] at this
          simpa using this.symm
        simp at ha hb
        subst ha hb
        simp [hcs]
    · rw [if_neg h] at ha hb
      rw [List.count_cons_of_ne (Ne.symm h)] at hc
      cases hs : splitChars sep cs with
      | nil => exact absurd hs (splitChars_ne_nil sep cs)
      | cons p ps =>
        rw [hs] at ha hb
        simp at ha
        subst ha
        have := ih p hc (by rw [hs]; simp) (by rw [hs]; simpa using hb)
        simp [← this]


theorem stringsSplit_two (name n0 n1 : String) (hc : name.data.count '@' = 1)
    (h0 : (stringsSplit name '@')[0]? = some n0)
    (h1 : (stringsSplit name '@')[1]? = some n1) : n0 ++ "@" ++ n1 = name := by
  unfold stringsSplit at h0 h1
  rw [List.getElem?_map] at h0 h1
  cases ha : (splitChars '@' name.data)[0]? with
  | none => rw [ha] at h0; simp at h0
  | some a =>
    cases hb : (splitChars '@' name.data)[1]? with
    | none => rw [hb] at h1; simp at h1
    | some b =>
      rw [ha] at h0
      rw [hb] at h1
      simp only [Option.map_some', Option.some.injEq] at h0 h1
      subst h0 h1
      have := splitChars_two '@' name.data a b hc ha hb
      apply String.ext
      simp [String.data_append, ← this]

theorem stringsSplit_getLast (name : String) (sep : Char) :
    ∃ last, (stringsSplit name sep).getLast? = some last := by
  unfold stringsSplit
  cases h : (splitChars sep name.data).map String.mk with
  | nil =>
    simp at h
    exact absurd h (splitChars_ne_nil sep name.data)
  | cons p ps => exact ⟨_, List.getLast?_eq_getLast _ (by simp)⟩

theorem scanOldest_cons (tier : String) (s : Filesystem) (rest : List Filesystem) (i : Int)
    (o : Oldest) :
    scanOldest tier (s :: rest) i o =
      if stringsContains s.Name tier = true then
        match periodKey s.Name with
        | none => scanOldest tier rest (i + 1) o
        | some date =>
          if o.oldestDate > date then scanOldest tier rest (i + 1) ⟨s.Name, date, i⟩
          else scanOldest tier rest (i + 1) o
      else scanOldest tier rest (i + 1) o := by
  obtain ⟨last, hl⟩ := stringsSplit_getLast s.Name '_'
  unfold periodKey
  rw [scanOldest, hl]
  by_cases hc : stringsContains s.Name tier = true
  · simp [hc]
  · simp [hc]

/-- What the inner loop computes: either nothing is below the starting date, or the
result is the first snapshot with the smallest period key. -/
theorem scanOldest_spec (tier : String) (l : List Filesystem) :
    ∀ (i : Int) (o : Oldest), ∃ o', scanOldest tier l i o = .ok o' ∧
      ((o' = o ∧ ∀ s ∈ l, ∀ k, Candidate tier s k → o.oldestDate ≤ k) ∨
       (∃ j : Nat, ∃ hj : j < l.length,
          o'.oldestIdx = i + j ∧ o'.oldestName = (l.get ⟨j, hj⟩).Name ∧
          Candidate tier (l.get ⟨j, hj⟩) o'.oldestDate ∧ o'.oldestDate < o.oldestDate ∧
          (∀ s ∈ l, ∀ k, Candidate tier s k → o'.oldestDate ≤ k) ∧
          (∀ j' : Nat, ∀ hj' : j' < l.length, j' < j →
            ∀ k, Candidate tier (l.get ⟨j', hj'⟩) k → o'.oldestDate < k))) := by
  induction l with
  | nil =>
    intro i o
    exact ⟨o, by simp [scanOldest], Or.inl ⟨rfl, by simp⟩⟩
  | cons s rest ih =>
    intro i o
    -- the three ways the head leaves the accumulator alone
    have skip : (∀ k, Candidate tier s k → o.oldestDate ≤ k) →
        scanOldest tier (s :: rest) i o = scanOldest tier rest (i + 1) o →
        ∃ o', scanOldest tier (s :: rest) i o = .ok o' ∧
      ((o' = o ∧ ∀ s' ∈ s :: rest, ∀ k, Candidate tier s' k → o.oldestDate ≤ k) ∨
       (∃ j : Nat, ∃ hj : j < (s :: rest).length,
          o'.oldestIdx = i + j ∧ o'.oldestName = ((s :: rest).get ⟨j, hj⟩).Name ∧
          Candidate tier ((s :: rest).get ⟨j, hj⟩) o'.oldestDate ∧
          o'.oldestDate < o.oldestDate ∧
          (∀ s' ∈ s :: rest, ∀ k, Candidate tier s' k → o'.oldestDate ≤ k) ∧
          (∀ j' : Nat, ∀ hj' : j' < (s :: rest).length, j' < j →
            ∀ k, Candidate tier ((s :: rest).get ⟨j', hj'⟩) k → o'.oldestDate < k))) := by
      intro hs heq
      obtain ⟨o', ho', hcase⟩ := ih (i + 1) o
      refine ⟨o', by rw [heq, ho'], ?_⟩
      rcases hcase with ⟨rfl, hall⟩ | ⟨j, hj, hidx, hname, hcand, hlt, hmin, hfirst⟩
      · left
        refine ⟨rfl, ?_⟩
        intro s' hs' k hk
        rcases List.mem_cons.1 hs' with rfl | hm
        · exact hs k hk
        · exact hall s' hm k hk
      · right
        refine ⟨j + 1, by simpa using hj, ?_, by simpa using hname, by simpa using hcand, hlt, ?_, ?_⟩
        · rw [hidx]; push_cast; ring
        · intro s' hs' k hk
          rcases List.mem_cons.1 hs' with rfl | hm
          · exact le_trans (le_of_lt hlt) (hs k hk)
          · exact hmin s' hm k hk
        · intro j' hj' hjj k hk
          cases j' with
          | zero => exact lt_of_lt_of_le hlt (hs k (by simpa using hk))
          | succ j'' =>
            exact hfirst j'' (by simpa using hj') (by omega) k (by simpa using hk)
    by_cases hc : stringsContains s.Name tier = true
    · cases hp : periodKey s.Name with
      | none =>
        exact skip (fun k hk => by rw [hk.2] at hp; cases hp)
          (by rw [scanOldest_cons, if_pos hc, hp])
      | some date =>
        by_cases hd : o.oldestDate > date
        · have heq : scanOldest tier (s :: rest) i o =
              scanOldest tier rest (i + 1) ⟨s.Name, date, i⟩ := by
            rw [scanOldest_cons, if_pos hc, hp]
            simp [hd]
          rw [heq]
          obtain ⟨o', ho', hcase⟩ := ih (i + 1) ⟨s.Name, date, i⟩
          refine ⟨o', ho', Or.inr ?_⟩
          rcases hcase with ⟨rfl, hall⟩ | ⟨j, hj, hidx, hname, hcand, hlt, hmin, hfirst⟩
          · refine ⟨0, by simp, by simp, by simp, ⟨hc, hp⟩, hd, ?_, ?_⟩
            · intro s' hs' k hk
              rcases List.mem_cons.1 hs' with rfl | hm
              · have := hk.2; rw [hp] at this; cases this; exact le_refl _
              · exact hall s' hm k hk
            · intro j' hj' hjj; omega
          · simp only at hlt
            refine ⟨j + 1, by simpa using hj, ?_, by simpa using hname, by simpa using hcand,
              lt_trans hlt hd, ?_, ?_⟩
            · rw [hidx]; push_cast; ring
            · intro s' hs' k hk
              rcases List.mem_cons.1 hs' with rfl | hm
              · have := hk.2; rw [hp] at this; cases this; exact le_of_lt hlt
              · exact hmin s' hm k hk
            · intro j' hj' hjj k hk
              cases j' with
              | zero =>
                have hk' : Candidate tier s k := by simpa using hk
                have := hk'.2; rw [hp] at this; cases this; exact hlt
              | succ j'' =>
                exact hfirst j'' (by simpa using hj') (by omega) k (by simpa using hk)
        · exact skip (fun k hk => by
              have := hk.2; rw [hp] at this; cases this; exact not_lt.1 hd)
            (by rw [scanOldest_cons, if_pos hc, hp]; simp [hd])
    · exact skip (fun k hk => absurd hk.1 hc) (by rw [scanOldest_cons, if_neg hc])


/-! ## Lemmas on the provider operations -/

theorem command_fields (w : World) :
    w.command.2.snapshots = w.snapshots ∧ w.command.2.filesystems = w.filesystems ∧
      w.command.2.trace = w.trace ∧ w.command.2.faults = w.faults.tail := by
  unfold World.command
  cases h : w.faults <;> simp [h]

theorem command_no_fault (w : World) (h : w.faults = []) : w.command = (false, w) := by
  unfold World.command
  rw [h]

theorem DeleteSnapshot_ok (fsName ssName : String) (w w1 : World)
    (h : DeleteSnapshot fsName ssName w = (.ok (), w1)) :
    w1.snapshots = w.snapshots.filter (fun s => s.Name != fsName ++ "@" ++ ssName) ∧
      w1.filesystems = w.filesystems ∧
      w1.trace = w.trace ++ [Call.delete fsName ssName true] ∧
      w1.faults = w.faults.tail ∧
      ∃ s ∈ w.snapshots, s.Name = fsName ++ "@" ++ ssName := by
  obtain ⟨h1, h2, h3, h4⟩ := command_fields w
  unfold DeleteSnapshot deleteSnapshotBody at h
  cases hc : w.command with
  | mk b w0 =>
    rw [hc] at h h1 h2 h3 h4
    cases b with
    | true => simp at h
    | false =>
      simp only at h h1 h2 h3 h4
      by_cases ha : (w0.snapshots.any fun snapshot => snapshot.Name == fsName ++ "@" ++ ssName) = true
      · rw [if_pos ha] at h
        simp only [Prod.mk.injEq, true_and] at h
        subst h
        simp only [World.log, Result.isOk]
        refine ⟨by rw [h1], h2, by rw [h3], h4, ?_⟩
        rw [List.any_eq_true] at ha
        obtain ⟨s, hs, he⟩ := ha
        exact ⟨s, by rw [← h1]; exact hs, by simpa using he⟩
      · rw [if_neg ha] at h
        simp at h

theorem DeleteSnapshot_error (fsName ssName e : String) (w w1 : World)
    (h : DeleteSnapshot fsName ssName w = (.error e, w1)) :
    w1.snapshots = w.snapshots ∧ w1.filesystems = w.filesystems ∧
      w1.trace = w.trace ++ [Call.delete fsName ssName false] ∧ w1.faults = w.faults.tail := by
  obtain ⟨h1, h2, h3, h4⟩ := command_fields w
  unfold DeleteSnapshot deleteSnapshotBody at h
  cases hc : w.command with
  | mk b w0 =>
    rw [hc] at h h1 h2 h3 h4
    cases b with
    | true =>
      simp only [Prod.mk.injEq] at h
      obtain ⟨_, h⟩ := h
      subst h
      simp only [World.log, Result.isOk]
      exact ⟨h1, h2, by rw [h3], h4⟩
    | false =>
      simp only at h h1 h2 h3 h4
      by_cases ha : (w0.snapshots.any fun snapshot => snapshot.Name == fsName ++ "@" ++ ssName) = true
      · rw [if_pos ha] at h
        simp at h
      · rw [if_neg ha] at h
        simp only [Prod.mk.injEq] at h
        obtain ⟨_, h⟩ := h
        subst h
        simp only [World.log, Result.isOk]
        exact ⟨h1, h2, by rw [h3], h4⟩

theorem DeleteSnapshot_ne_panic (fsName ssName : String) (w w1 : World) :
    DeleteSnapshot fsName ssName w ≠ (.panic, w1) := by
  unfold DeleteSnapshot deleteSnapshotBody
  cases hc : w.command with
  | mk b w0 =>
    cases b with
    | true => simp
    | false =>
      by_cases ha : (w0.snapshots.any fun snapshot => snapshot.Name == fsName ++ "@" ++ ssName) = true
      · simp [ha]
      · simp [ha]

/-! ## The eviction loop -/

/-- Induction over the iterations of the loop: with more fuel than the listing is long the
loop returns, and a property that holds for each way an iteration can end holds for the
result. -/
theorem cleanupLoop_induction (tier : String) (number : Int)
    (P : Int → List Filesystem → World → Result Unit × World → Prop)
    (stop : ∀ n l w, ¬ n > number → P n l w (.ok (), w))
    (nothing : ∀ n l w, n > number →
      (∀ s ∈ l, ∀ k, Candidate tier s k → 18446744073709551615 ≤ k) → P n l w (.ok (), w))
    (noAt : ∀ n l w j s k, n > number → Picked tier l j s k →
      ((stringsSplit s.Name '@')[0]? = none ∨ (stringsSplit s.Name '@')[1]? = none) →
      P n l w (.panic, w))
    (fail : ∀ n l w j s k n0 n1 e w1, n > number → Picked tier l j s k →
      (stringsSplit s.Name '@')[0]? = some n0 → (stringsSplit s.Name '@')[1]? = some n1 →
      DeleteSnapshot n0 n1 w = (.error e, w1) → P n l w (.error e, w1))
    (step : ∀ n l w j s k n0 n1 w1 out, n > number → Picked tier l j s k →
      (stringsSplit s.Name '@')[0]? = some n0 → (stringsSplit s.Name '@')[1]? = some n1 →
      DeleteSnapshot n0 n1 w = (.ok (), w1) →
      P (n - 1) (l.eraseIdx j) w1 out → P n l w out) :
    ∀ (fuel : Nat) (n : Int) (l : List Filesystem) (w : World), l.length < fuel →
      ∃ out, cleanupLoop tier number fuel n l w = some out ∧ P n l w out := by
  intro fuel
  induction fuel with
  | zero => intro n l w h; simp at h
  | succ fuel ih =>
    intro n l w hlen
    unfold cleanupLoop
    by_cases hn : n > number
    · rw [if_pos hn]
      obtain ⟨o', ho', hcase⟩ := scanOldest_spec tier l 0 ⟨"", 18446744073709551615, -1⟩
      rw [ho']
      rcases hcase with ⟨rfl, hall⟩ | ⟨j, hj, hidx, hname, hcand, hlt, hmin, hfirst⟩
      · exact ⟨_, by simp, nothing n l w hn hall⟩
      · have hpick : Picked tier l j (l.get ⟨j, hj⟩) o'.oldestDate := by
          refine ⟨by simp [List.getElem?_eq_getElem hj], hcand, hlt, hmin, ?_⟩
          intro j' s' k' hjj hs' hk'
          have hj' : j' < l.length := lt_trans hjj hj
          rw [List.getElem?_eq_getElem hj'] at hs'
          simp only [Option.some.injEq] at hs'
          subst hs'
          exact hfirst j' hj' hjj k' hk'
        have hne : ¬ o'.oldestIdx = -1 := by rw [hidx]; omega
        have hbound : 0 ≤ o'.oldestIdx ∧ o'.oldestIdx + 1 ≤ (l.length : Int) := by
          rw [hidx]; omega
        have htoNat : o'.oldestIdx.toNat = j := by rw [hidx]; simp
        simp only [hne, if_false]
        rw [hname]
        cases h0 : (stringsSplit (l.get ⟨j, hj⟩).Name '@')[0]? with
        | none => exact ⟨_, by simp, noAt n l w j _ _ hn hpick (Or.inl h0)⟩
        | some n0 =>
          cases h1 : (stringsSplit (l.get ⟨j, hj⟩).Name '@')[1]? with
          | none => exact ⟨_, by simp, noAt n l w j _ _ hn hpick (Or.inr h1)⟩
          | some n1 =>
            simp only
            cases hd : DeleteSnapshot n0 n1 w with
            | mk r w1 =>
              cases r with
              | panic => exact absurd hd (DeleteSnapshot_ne_panic n0 n1 w w1)
              | error e => exact ⟨_, by simp, fail n l w j _ _ n0 n1 e w1 hn hpick h0 h1 hd⟩
              | ok u =>
                cases u
                simp only [hbound, and_self, if_true, htoNat]
                rw [← List.eraseIdx_eq_take_drop_succ]
                have hlen' : (l.eraseIdx j).length < fuel := by
                  rw [List.length_eraseIdx, if_pos hj]
                  omega
                obtain ⟨out, hout, hP⟩ := ih (n - 1) (l.eraseIdx j) w1 hlen'
                exact ⟨out, hout, step n l w j _ _ n0 n1 w1 out hn hpick h0 h1 hd hP⟩
    · rw [if_neg hn]
      exact ⟨_, rfl, stop n l w hn⟩


theorem cleanupForTier_eq (T : Tier) (cfg : FilesystemSnapshotConfig) (w : World) :
    cleanupForTier T cfg w =
      cleanupSnapshotForFilesystem T.substring (T.number cfg) cfg.Name w := by
  cases T <;> rfl

theorem ListSnapshotsForFilesystem_eq (name : String) (w : World) :
    ListSnapshotsForFilesystem name w =
      if w.command.1 = true then (.error "zfs: list failed", w.command.2)
      else (.ok (w.snapshots.filter (keepSnapshot name)), w.command.2) := by
  obtain ⟨h1, _, _, _⟩ := command_fields w
  unfold ListSnapshotsForFilesystem zfsList
  cases hc : w.command with
  | mk b w0 =>
    rw [hc] at h1
    cases b with
    | true => simp
    | false => simp at h1 ⊢; rw [h1]

theorem cleanupSnapshotForFilesystem_eq (tier : String) (number : Int) (name : String)
    (w : World) :
    cleanupSnapshotForFilesystem tier number name w =
      if w.command.1 = true then some (.error "zfs: list failed", w.command.2)
      else cleanupLoop tier number ((w.snapshots.filter (keepSnapshot name)).length + 1)
        (((w.snapshots.filter (keepSnapshot name)).countP
          (fun snapshot => stringsContains snapshot.Name tier) : Nat) : Int)
        (w.snapshots.filter (keepSnapshot name)) w.command.2 := by
  unfold cleanupSnapshotForFilesystem
  rw [ListSnapshotsForFilesystem_eq]
  by_cases h : w.command.1 = true
  · simp [h]
  · simp [h]

theorem callsSince_append (w w' : World) (calls : List Call)
    (h : w'.trace = w.trace ++ calls) : callsSince w w' = calls := by
  unfold callsSince
  rw [h, List.drop_left]

/-- What every run of the loop does to the world, whatever the names look like. -/
theorem cleanupLoop_frame (tier : String) (number : Int) (fuel : Nat) (n : Int)
    (l : List Filesystem) (w : World) (hfuel : l.length < fuel) :
    ∃ out, cleanupLoop tier number fuel n l w = some out ∧
      ∃ calls, out.2.trace = w.trace ++ calls ∧
        (calls.length : Int) ≤ max 0 (n - number) ∧
        (∀ c ∈ calls, c.isDelete = true) ∧
        out.2.filesystems = w.filesystems ∧
        (calls = [] → out.2.snapshots = w.snapshots) ∧
        (∀ s ∈ out.2.snapshots, s ∈ w.snapshots) := by
  refine cleanupLoop_induction tier number
    (fun n _ w out => ∃ calls, out.2.trace = w.trace ++ calls ∧
        (calls.length : Int) ≤ max 0 (n - number) ∧
        (∀ c ∈ calls, c.isDelete = true) ∧
        out.2.filesystems = w.filesystems ∧
        (calls = [] → out.2.snapshots = w.snapshots) ∧
        (∀ s ∈ out.2.snapshots, s ∈ w.snapshots))
    ?_ ?_ ?_ ?_ ?_ fuel n l w hfuel
  · intro n l w _
    exact ⟨[], by simp⟩
  · intro n l w _ _
    exact ⟨[], by simp⟩
  · intro n l w j s k _ _ _
    exact ⟨[], by simp⟩
  · intro n l w j s k n0 n1 e w1 hn _ _ _ hd
    obtain ⟨hs, hf, ht, _⟩ := DeleteSnapshot_error n0 n1 e w w1 hd
    refine ⟨[Call.delete n0 n1 false], ht, ?_, by simp [Call.isDelete], hf, by simp, ?_⟩
    · simp only [List.length_singleton, Nat.cast_one]
      have : 1 ≤ n - number := by omega
      exact le_max_of_le_right this
    · intro s hs'; rw [hs] at hs'; exact hs'
  · intro n l w j s k n0 n1 w1 out hn _ _ _ hd hP
    obtain ⟨hs, hf, ht, _, _⟩ := DeleteSnapshot_ok n0 n1 w w1 hd
    obtain ⟨calls, htr, hlen, hdel, hfs, _, hsub⟩ := hP
    refine ⟨Call.delete n0 n1 true :: calls, ?_, ?_, ?_, by rw [hfs, hf], by simp, ?_⟩
    · rw [htr, ht]; simp
    · simp only [List.length_cons, Nat.cast_add, Nat.cast_one]
      have h1 : 1 ≤ n - number := by omega
      rcases le_max_iff.1 hlen with h0 | h0
      · exact le_max_of_le_right (by omega)
      · exact le_max_of_le_right (by omega)
    · intro c hc
      rcases List.mem_cons.1 hc with rfl | hc
      · rfl
      · exact hdel c hc
    · intro s hs'
      have := hsub s hs'
      rw [hs] at this
      exact (List.mem_filter.1 this).1


theorem Picked.mem {tier : String} {l : List Filesystem} {j : Nat} {s : Filesystem} {k : Nat}
    (h : Picked tier l j s k) : s ∈ l :=
  List.getElem?_mem h.1

theorem filter_sublist_eraseIdx {α : Type} (p : α → Bool) (l : List α) (j : Nat) (a : α)
    (hj : l[j]? = some a) (hp : p a = false) : List.Sublist (l.filter p) (l.eraseIdx j) := by
  induction l generalizing j with
  | nil => simp
  | cons x xs ih =>
    cases j with
    | zero =>
      simp only [List.getElem?_cons_zero, Option.some.injEq] at hj
      subst hj
      simp [List.filter_cons, hp]
    | succ j' =>
      simp only [List.getElem?_cons_succ] at hj
      have := ih j' hj
      simp only [List.eraseIdx_cons_succ, List.filter_cons]
      split
      · exact this.cons₂ x
      · exact this.cons x

theorem countP_eraseIdx_of_pos {α : Type} (p : α → Bool) (l : List α) (j : Nat) (a : α)
    (hj : l[j]? = some a) (hp : p a = true) :
    (l.eraseIdx j).countP p + 1 = l.countP p := by
  induction l generalizing j with
  | nil => simp at hj
  | cons x xs ih =>
    cases j with
    | zero =>
      simp only [List.getElem?_cons_zero, Option.some.injEq] at hj
      subst hj
      simp [List.countP_cons, hp]
    | succ j' =>
      simp only [List.getElem?_cons_succ] at hj
      have := ih j' hj
      simp only [List.eraseIdx_cons_succ, List.countP_cons]
      omega

/-- The invariant of the loop that ties the working listing to the world survives an
iteration: what the provider still lists for the volume is a sublist of the working
listing. -/
theorem step_sublist (name : String) (l : List Filesystem) (w w1 : World) (j : Nat)
    (s : Filesystem) (target : String) (hj : l[j]? = some s) (ht : target = s.Name)
    (hsub : List.Sublist (w.snapshots.filter (keepSnapshot name)) l)
    (hw1 : w1.snapshots = w.snapshots.filter (fun x => x.Name != target)) :
    List.Sublist (w1.snapshots.filter (keepSnapshot name)) (l.eraseIdx j) := by
  rw [hw1, List.filter_comm]
  refine List.Sublist.trans (List.Sublist.filter _ hsub) ?_
  exact filter_sublist_eraseIdx _ l j s hj (by simp [ht])

/-- With well-formed names the loop asks for the destruction of exactly the snapshots it
selected, and touches no snapshot whose name is not in its listing. -/
theorem cleanupLoop_targets (tier : String) (number : Int) (fuel : Nat) (n : Int)
    (l : List Filesystem) (w : World) (hfuel : l.length < fuel)
    (hat : ∀ s ∈ l, s.Name.data.count '@' = 1) :
    ∃ out, cleanupLoop tier number fuel n l w = some out ∧
      ∃ calls, out.2.trace = w.trace ++ calls ∧
        (∀ c ∈ calls, c.isDelete = true ∧
          ∃ s ∈ l, c.target = s.Name ∧ stringsContains s.Name tier = true) ∧
        (∀ s ∈ w.snapshots, (∀ s' ∈ l, s'.Name ≠ s.Name) → s ∈ out.2.snapshots) ∧
        out.1 ≠ .panic := by
  have key := cleanupLoop_induction tier number
    (fun _ l w out => (∀ s ∈ l, s.Name.data.count '@' = 1) →
      ∃ calls, out.2.trace = w.trace ++ calls ∧
        (∀ c ∈ calls, c.isDelete = true ∧
          ∃ s ∈ l, c.target = s.Name ∧ stringsContains s.Name tier = true) ∧
        (∀ s ∈ w.snapshots, (∀ s' ∈ l, s'.Name ≠ s.Name) → s ∈ out.2.snapshots) ∧
        out.1 ≠ .panic)
    ?_ ?_ ?_ ?_ ?_ fuel n l w hfuel
  · obtain ⟨out, ho, hP⟩ := key
    exact ⟨out, ho, hP hat⟩
  · intro n l w _ _
    exact ⟨[], by simp, by simp, fun s hs _ => hs, by simp⟩
  · intro n l w _ _ _
    exact ⟨[], by simp, by simp, fun s hs _ => hs, by simp⟩
  · intro n l w j s k _ hp hsplit hat
    exfalso
    have hc := hat s hp.mem
    have hlen : (stringsSplit s.Name '@').length = 2 := by
      unfold stringsSplit
      rw [List.length_map, splitChars_length, hc]
    rcases hsplit with h | h
    · rw [List.getElem?_eq_none_iff] at h; omega
    · rw [List.getElem?_eq_none_iff] at h; omega
  · intro n l w j s k n0 n1 e w1 hn hp h0 h1 hd hat
    obtain ⟨hs, hf, ht, _⟩ := DeleteSnapshot_error n0 n1 e w w1 hd
    have hname := stringsSplit_two s.Name n0 n1 (hat s hp.mem) h0 h1
    refine ⟨[Call.delete n0 n1 false], ht, ?_, ?_, by simp⟩
    · intro c hc
      simp only [List.mem_singleton] at hc
      subst hc
      exact ⟨rfl, s, hp.mem, hname, hp.2.1.1⟩
    · intro x hx _
      rw [hs]; exact hx
  · intro n l w j s k n0 n1 w1 out hn hp h0 h1 hd hP hat
    obtain ⟨hs, hf, ht, _, _⟩ := DeleteSnapshot_ok n0 n1 w w1 hd
    have hname := stringsSplit_two s.Name n0 n1 (hat s hp.mem) h0 h1
    obtain ⟨calls, htr, hcalls, hkeep, hnp⟩ :=
      hP (fun x hx => hat x (List.mem_of_mem_eraseIdx hx))
    refine ⟨Call.delete n0 n1 true :: calls, ?_, ?_, ?_, hnp⟩
    · rw [htr, ht]; simp
    · intro c hc
      rcases List.mem_cons.1 hc with rfl | hc
      · exact ⟨rfl, s, hp.mem, hname, hp.2.1.1⟩
      · obtain ⟨hdel, x, hx, hxt, hxc⟩ := hcalls c hc
        exact ⟨hdel, x, List.mem_of_mem_eraseIdx hx, hxt, hxc⟩
    · intro x hx hno
      apply hkeep x
      · rw [hs, List.mem_filter]
        refine ⟨hx, ?_⟩
        have := hno s hp.mem
        rw [hname]
        simpa using Ne.symm this
      · intro s' hs'
        exact hno s' (List.mem_of_mem_eraseIdx hs')


/-- With well-formed names, no failing call and every counted snapshot orderable below
the largest 64-bit value, the loop ends with at most `number` counted snapshots. -/
theorem cleanupLoop_bound (tier : String) (number : Int) (name : String) (fuel : Nat) (n : Int)
    (l : List Filesystem) (w : World) (hfuel : l.length < fuel)
    (hat : ∀ s ∈ l, s.Name.data.count '@' = 1)
    (hsub : List.Sublist (w.snapshots.filter (keepSnapshot name)) l)
    (hparse : ∀ s ∈ l, stringsContains s.Name tier = true →
      ∃ k, periodKey s.Name = some k ∧ k < 18446744073709551615)
    (hcount : ((l.countP (fun s => stringsContains s.Name tier) : Nat) : Int) ≤ n)
    (hnum : 0 ≤ number) :
    ∃ out, cleanupLoop tier number fuel n l w = some out ∧
      (out.1 = .ok () →
        (((out.2.snapshots.filter (keepSnapshot name)).countP
          (fun s => stringsContains s.Name tier) : Nat) : Int) ≤ number) := by
  have key := cleanupLoop_induction tier number
    (fun n l w out => (∀ s ∈ l, s.Name.data.count '@' = 1) →
      List.Sublist (w.snapshots.filter (keepSnapshot name)) l →
      (∀ s ∈ l, stringsContains s.Name tier = true →
        ∃ k, periodKey s.Name = some k ∧ k < 18446744073709551615) →
      ((l.countP (fun s => stringsContains s.Name tier) : Nat) : Int) ≤ n →
      (out.1 = .ok () →
        (((out.2.snapshots.filter (keepSnapshot name)).countP
          (fun s => stringsContains s.Name tier) : Nat) : Int) ≤ number))
    ?_ ?_ ?_ ?_ ?_ fuel n l w hfuel
  · obtain ⟨out, ho, hP⟩ := key
    exact ⟨out, ho, hP hat hsub hparse hcount⟩
  · intro n l w hn _ hsub _ hcount _
    have := hsub.countP_le (fun s => stringsContains s.Name tier)
    simp only
    omega
  · intro n l w _ hall _ hsub hparse _ _
    have hzero : l.countP (fun s => stringsContains s.Name tier) = 0 := by
      rw [List.countP_eq_zero]
      intro s hs hc
      obtain ⟨k, hk, hlt⟩ := hparse s hs hc
      have := hall s hs k ⟨hc, hk⟩
      omega
    have := hsub.countP_le (fun s => stringsContains s.Name tier)
    simp only
    omega
  · intro n l w j s k _ _ _ _ _ _ _ h
    simp at h
  · intro n l w j s k n0 n1 e w1 _ _ _ _ _ _ _ _ _ h
    simp at h
  · intro n l w j s k n0 n1 w1 out hn hp h0 h1 hd hP hat hsub hparse hcount hok
    obtain ⟨hs, _, _, _, _⟩ := DeleteSnapshot_ok n0 n1 w w1 hd
    have hname := stringsSplit_two s.Name n0 n1 (hat s hp.mem) h0 h1
    refine hP (fun x hx => hat x (List.mem_of_mem_eraseIdx hx))
      (step_sublist name l w w1 j s _ hp.1 hname hsub hs)
      (fun x hx => hparse x (List.mem_of_mem_eraseIdx hx)) ?_ hok
    have := countP_eraseIdx_of_pos (fun s => stringsContains s.Name tier) l j s hp.1 hp.2.1.1
    omega

/-- With well-formed names the period keys of the snapshots the loop destroys never
decrease, and none of them is above the key of a snapshot the loop leaves behind. -/
theorem cleanupLoop_ordered (tier : String) (number : Int) (name : String) (fuel : Nat)
    (n : Int) (l : List Filesystem) (w : World) (hfuel : l.length < fuel)
    (hat : ∀ s ∈ l, s.Name.data.count '@' = 1)
    (hsub : List.Sublist (w.snapshots.filter (keepSnapshot name)) l) :
    ∃ out, cleanupLoop tier number fuel n l w = some out ∧
      ∃ calls, out.2.trace = w.trace ++ calls ∧
        ∃ ks : List Nat, (deletedNames calls).map periodKey = ks.map some ∧
          ks.Sorted (· ≤ ·) ∧
          (∀ k ∈ ks, ∃ s ∈ l, Candidate tier s k) ∧
          (∀ k ∈ ks, ∀ s ∈ out.2.snapshots, keepSnapshot name s = true →
            ∀ k', Candidate tier s k' → k ≤ k') ∧
          List.Sublist (out.2.snapshots.filter (keepSnapshot name)) l := by
  have key := cleanupLoop_induction tier number
    (fun _ l w out => (∀ s ∈ l, s.Name.data.count '@' = 1) →
      List.Sublist (w.snapshots.filter (keepSnapshot name)) l →
      ∃ calls, out.2.trace = w.trace ++ calls ∧
        ∃ ks : List Nat, (deletedNames calls).map periodKey = ks.map some ∧
          ks.Sorted (· ≤ ·) ∧
          (∀ k ∈ ks, ∃ s ∈ l, Candidate tier s k) ∧
          (∀ k ∈ ks, ∀ s ∈ out.2.snapshots, keepSnapshot name s = true →
            ∀ k', Candidate tier s k' → k ≤ k') ∧
          List.Sublist (out.2.snapshots.filter (keepSnapshot name)) l)
    ?_ ?_ ?_ ?_ ?_ fuel n l w hfuel
  · obtain ⟨out, ho, hP⟩ := key
    exact ⟨out, ho, hP hat hsub⟩
  · intro n l w _ _ hsub
    exact ⟨[], by simp, [], by simp [deletedNames], by simp, by simp, by simp, hsub⟩
  · intro n l w _ _ _ hsub
    exact ⟨[], by simp, [], by simp [deletedNames], by simp, by simp, by simp, hsub⟩
  · intro n l w j s k _ _ _ _ hsub
    exact ⟨[], by simp, [], by simp [deletedNames], by simp, by simp, by simp, hsub⟩
  · intro n l w j s k n0 n1 e w1 _ _ _ _ hd _ hsub
    obtain ⟨hs, _, ht, _⟩ := DeleteSnapshot_error n0 n1 e w w1 hd
    refine ⟨[Call.delete n0 n1 false], ht, [], ?_, by simp, by simp, by simp, ?_⟩
    · simp [deletedNames, Call.isDelete, Call.succeeded]
    · simp only; rw [hs]; exact hsub
  · intro n l w j s k n0 n1 w1 out hn hp h0 h1 hd hP hat hsub
    obtain ⟨hs, _, ht, _, _⟩ := DeleteSnapshot_ok n0 n1 w w1 hd
    have hname := stringsSplit_two s.Name n0 n1 (hat s hp.mem) h0 h1
    obtain ⟨calls, htr, ks, hks, hsorted, horigin, hsurv, hfinal⟩ :=
      hP (fun x hx => hat x (List.mem_of_mem_eraseIdx hx))
        (step_sublist name l w w1 j s _ hp.1 hname hsub hs)
    have herase : ∀ x, x ∈ l.eraseIdx j → x ∈ l := fun x hx => List.mem_of_mem_eraseIdx hx
    refine ⟨Call.delete n0 n1 true :: calls, ?_, k :: ks, ?_, ?_, ?_, ?_, ?_⟩
    · rw [htr, ht]; simp
    · have : deletedNames (Call.delete n0 n1 true :: calls) =
          (n0 ++ "@" ++ n1) :: deletedNames calls := by
        simp [deletedNames, Call.isDelete, Call.succeeded, Call.target]
      rw [this, List.map_cons, List.map_cons, hks, hname, hp.2.1.2]
    · rw [List.sorted_cons]
      refine ⟨?_, hsorted⟩
      intro k' hk'
      obtain ⟨x, hx, hxc⟩ := horigin k' hk'
      exact hp.2.2.2.1 x (herase x hx) k' hxc
    · intro k' hk'
      rcases List.mem_cons.1 hk' with rfl | hk'
      · exact ⟨s, hp.mem, hp.2.1⟩
      · obtain ⟨x, hx, hxc⟩ := horigin k' hk'
        exact ⟨x, herase x hx, hxc⟩
    · intro k0 hk0 x hx hkeep k' hxc
      rcases List.mem_cons.1 hk0 with rfl | hk0
      · have hxl : x ∈ l := by
          apply herase
          exact hfinal.subset (List.mem_filter.2 ⟨hx, hkeep⟩)
        exact hp.2.2.2.1 x hxl k' hxc
      · exact hsurv k0 hk0 x hx hkeep k' hxc
    · exact hfinal.trans (List.eraseIdx_sublist l j)


theorem tierSnapshots_length (tier name : String) (w : World) :
    (tierSnapshots tier name w).length =
      (w.snapshots.filter (keepSnapshot name)).countP (fun s => stringsContains s.Name tier) := by
  unfold tierSnapshots
  rw [List.countP_eq_length_filter]

theorem command_trace (w : World) : callsSince w w.command.2 = [] := by
  apply callsSince_append
  rw [(command_fields w).2.2.1]
  simp

/-- What a cleanup function does to the world, whatever the names look like. -/
theorem cleanupSnapshotForFilesystem_frame (tier : String) (number : Int) (name : String)
    (w : World) :
    ∃ out, cleanupSnapshotForFilesystem tier number name w = some out ∧
      ∃ calls, out.2.trace = w.trace ++ calls ∧
        (calls.length : Int) ≤ max 0 (((tierSnapshots tier name w).length : Int) - number) ∧
        (∀ c ∈ calls, c.isDelete = true) ∧
        out.2.filesystems = w.filesystems ∧
        (calls = [] → out.2.snapshots = w.snapshots) ∧
        (∀ s ∈ out.2.snapshots, s ∈ w.snapshots) := by
  obtain ⟨hs, hf, ht, _⟩ := command_fields w
  rw [cleanupSnapshotForFilesystem_eq, tierSnapshots_length]
  by_cases h : w.command.1 = true
  · rw [if_pos h]
    refine ⟨_, rfl, [], by simp [ht], ?_, by simp, hf, fun _ => hs, fun s hx => by rwa [← hs]⟩
    simp
  · rw [if_neg h]
    obtain ⟨out, ho, calls, h1, h2, h3, h4, h5, h6⟩ :=
      cleanupLoop_frame tier number ((w.snapshots.filter (keepSnapshot name)).length + 1)
        (((w.snapshots.filter (keepSnapshot name)).countP
          (fun snapshot => stringsContains snapshot.Name tier) : Nat) : Int)
        (w.snapshots.filter (keepSnapshot name)) w.command.2 (Nat.lt_succ_self _)
    refine ⟨out, ho, calls, by rw [h1, ht], h2, h3, by rw [h4, hf], ?_, ?_⟩
    · intro hc; rw [h5 hc, hs]
    · intro s hx; rw [← hs]; exact h6 s hx


theorem keepSnapshot_congr (name : String) (s s' : Filesystem) (h : s'.Name = s.Name) :
    keepSnapshot name s' = keepSnapshot name s := by
  unfold keepSnapshot
  rw [h]

/-- With well-formed names a cleanup function asks for the destruction of snapshots of
its own listing only and leaves every snapshot outside the listing in place. -/
theorem cleanupSnapshotForFilesystem_targets (tier : String) (number : Int) (name : String)
    (w : World) (hw : ∀ s ∈ w.snapshots, s.Name.data.count '@' = 1) :
    ∃ out, cleanupSnapshotForFilesystem tier number name w = some out ∧
      ∃ calls, out.2.trace = w.trace ++ calls ∧
        (∀ c ∈ calls, c.isDelete = true ∧ ∃ s ∈ w.snapshots,
          keepSnapshot name s = true ∧ c.target = s.Name ∧
            stringsContains s.Name tier = true) ∧
        (∀ s ∈ w.snapshots, keepSnapshot name s = false → s ∈ out.2.snapshots) ∧
        out.1 ≠ .panic := by
  obtain ⟨hs, hf, ht, _⟩ := command_fields w
  rw [cleanupSnapshotForFilesystem_eq]
  by_cases h : w.command.1 = true
  · rw [if_pos h]
    exact ⟨_, rfl, [], by simp [ht], by simp, fun s hx _ => by rwa [hs], by simp⟩
  · rw [if_neg h]
    obtain ⟨out, ho, calls, h1, h2, h3, h4⟩ :=
      cleanupLoop_targets tier number ((w.snapshots.filter (keepSnapshot name)).length + 1)
        (((w.snapshots.filter (keepSnapshot name)).countP
          (fun snapshot => stringsContains snapshot.Name tier) : Nat) : Int)
        (w.snapshots.filter (keepSnapshot name)) w.command.2 (Nat.lt_succ_self _)
        (fun s hx => hw s (List.mem_filter.1 hx).1)
    refine ⟨out, ho, calls, by rw [h1, ht], ?_, ?_, h4⟩
    · intro c hc
      obtain ⟨hd, s, hsl, hst, hsc⟩ := h2 c hc
      exact ⟨hd, s, (List.mem_filter.1 hsl).1, (List.mem_filter.1 hsl).2, hst, hsc⟩
    · intro s hx hk
      apply h3 s (by rwa [hs])
      intro s' hs' heq
      have := keepSnapshot_congr name s s' heq
      rw [(List.mem_filter.1 hs').2, hk] at this
      cases this

/-- The retention bound of a cleanup function. -/
theorem cleanupSnapshotForFilesystem_bound (tier : String) (number : Int) (name : String)
    (w : World) (hw : ∀ s ∈ w.snapshots, s.Name.data.count '@' = 1)
    (hparse : ∀ s ∈ tierSnapshots tier name w,
      ∃ k, periodKey s.Name = some k ∧ k < 18446744073709551615)
    (hnum : 0 ≤ number) :
    ∃ out, cleanupSnapshotForFilesystem tier number name w = some out ∧
      (out.1 = .ok () → ((tierSnapshots tier name out.2).length : Int) ≤ number) := by
  obtain ⟨hs, hf, ht, _⟩ := command_fields w
  rw [cleanupSnapshotForFilesystem_eq]
  by_cases h : w.command.1 = true
  · rw [if_pos h]
    exact ⟨_, rfl, by simp⟩
  · rw [if_neg h]
    obtain ⟨out, ho, hb⟩ :=
      cleanupLoop_bound tier number name ((w.snapshots.filter (keepSnapshot name)).length + 1)
        (((w.snapshots.filter (keepSnapshot name)).countP
          (fun snapshot => stringsContains snapshot.Name tier) : Nat) : Int)
        (w.snapshots.filter (keepSnapshot name)) w.command.2 (Nat.lt_succ_self _)
        (fun s hx => hw s (List.mem_filter.1 hx).1)
        (by rw [hs])
        (fun s hx hc => hparse s (by
          unfold tierSnapshots
          exact List.mem_filter.2 ⟨hx, hc⟩))
        (le_refl _) hnum
    refine ⟨out, ho, ?_⟩
    intro hok
    rw [tierSnapshots_length]
    exact hb hok

/-- The eviction order of a cleanup function. -/
theorem cleanupSnapshotForFilesystem_ordered (tier : String) (number : Int) (name : String)
    (w : World) (hw : ∀ s ∈ w.snapshots, s.Name.data.count '@' = 1) :
    ∃ out, cleanupSnapshotForFilesystem tier number name w = some out ∧
      ∃ ks : List Nat, (deletedNames (callsSince w out.2)).map periodKey = ks.map some ∧
        ks.Sorted (· ≤ ·) ∧
        ∀ k ∈ ks, ∀ s ∈ tierSnapshots tier name out.2,
          ∀ k', periodKey s.Name = some k' → k ≤ k' := by
  obtain ⟨hs, hf, ht, _⟩ := command_fields w
  rw [cleanupSnapshotForFilesystem_eq]
  by_cases h : w.command.1 = true
  · rw [if_pos h]
    refine ⟨_, rfl, [], ?_, by simp, by simp⟩
    rw [command_trace]
    simp [deletedNames]
  · rw [if_neg h]
    obtain ⟨out, ho, calls, h1, ks, h2, h3, _, h5, _⟩ :=
      cleanupLoop_ordered tier number name ((w.snapshots.filter (keepSnapshot name)).length + 1)
        (((w.snapshots.filter (keepSnapshot name)).countP
          (fun snapshot => stringsContains snapshot.Name tier) : Nat) : Int)
        (w.snapshots.filter (keepSnapshot name)) w.command.2 (Nat.lt_succ_self _)
        (fun s hx => hw s (List.mem_filter.1 hx).1)
        (by rw [hs])
    refine ⟨out, ho, ks, ?_, h3, ?_⟩
    · rw [callsSince_append w out.2 calls (by rw [h1, ht])]
      exact h2
    · intro k hk s hx k' hk'
      unfold tierSnapshots at hx
      obtain ⟨hx1, hx2⟩ := List.mem_filter.1 hx
      obtain ⟨hx3, hx4⟩ := List.mem_filter.1 hx1
      exact h5 k hk s hx3 hx4 k' ⟨hx2, hk'⟩

/-! ## The claims -/

/-- C1, at a failing input.  The volume `tank` has the single daily snapshot
`tank@auto_daily_18446744073709551615`, whose trailing segment parses as the unsigned
64-bit integer `2 ^ 64 - 1`, and the daily retention count is 0.  No command fails, the
daily cleanup issues no `DeleteSnapshot` call and returns nil, and the snapshot is still
there: one daily snapshot is left where at most zero are allowed. -/
theorem cleanupDaily_leaves_largest_key :
    periodKey "tank@auto_daily_18446744073709551615" = some (2 ^ 64 - 1) ∧
      cleanupDailySnapshotForFilesystem ⟨"tank", 0, 0, 0⟩
          ⟨[newSnapshot "tank"], [newSnapshot "tank@auto_daily_18446744073709551615"], [], []⟩ =
        some (.ok (),
          ⟨[newSnapshot "tank"], [newSnapshot "tank@auto_daily_18446744073709551615"], [], []⟩) ∧
      (tierSnapshots "_daily_" "tank"
          ⟨[newSnapshot "tank"], [newSnapshot "tank@auto_daily_18446744073709551615"], [], []⟩).length
        = 1 := by
  decide


/-- C2.  In one cleanup pass of any tier over a well-named provider state, the period
keys of the snapshots destroyed, in the order of their destruction, never decrease, and
each of them is at most the period key of every snapshot of the tier that parses and is
still listed for the volume after the pass. -/
theorem eviction_oldest_first (T : Tier) (cfg : FilesystemSnapshotConfig) (w : World)
    (hw : w.wellNamed) :
    ∃ out, cleanupForTier T cfg w = some out ∧
      ∃ ks : List Nat, (deletedNames (callsSince w out.2)).map periodKey = ks.map some ∧
        ks.Sorted (· ≤ ·) ∧
        ∀ k ∈ ks, ∀ s ∈ tierSnapshots T.substring cfg.Name out.2,
          ∀ k', periodKey s.Name = some k' → k ≤ k' := by
  rw [cleanupForTier_eq]
  exact cleanupSnapshotForFilesystem_ordered T.substring (T.number cfg) cfg.Name w hw.1

/-- C2 on the keys 20240101, 20240103, 20240105 with retention 1: the pass destroys
20240101, then 20240103, and leaves only 20240105. -/
theorem eviction_oldest_first_witness :
    (∃ out, cleanupForTier .daily ⟨"tank", 1, 0, 0⟩
        ⟨[newSnapshot "tank"],
          [newSnapshot "tank@auto_daily_20240101", newSnapshot "tank@auto_daily_20240103",
            newSnapshot "tank@auto_daily_20240105"], [], []⟩ = some out ∧
      ∃ ks : List Nat,
        (deletedNames (callsSince
          ⟨[newSnapshot "tank"],
            [newSnapshot "tank@auto_daily_20240101", newSnapshot "tank@auto_daily_20240103",
              newSnapshot "tank@auto_daily_20240105"], [], []⟩ out.2)).map periodKey =
          ks.map some ∧
        ks.Sorted (· ≤ ·) ∧
        ∀ k ∈ ks, ∀ s ∈ tierSnapshots Tier.daily.substring "tank" out.2,
          ∀ k', periodKey s.Name = some k' → k ≤ k') ∧
    cleanupForTier .daily ⟨"tank", 1, 0, 0⟩
        ⟨[newSnapshot "tank"],
          [newSnapshot "tank@auto_daily_20240101", newSnapshot "tank@auto_daily_20240103",
            newSnapshot "tank@auto_daily_20240105"], [], []⟩ =
      some (.ok (), ⟨[newSnapshot "tank"], [newSnapshot "tank@auto_daily_20240105"], [],
        [Call.delete "tank" "auto_daily_20240101" true,
          Call.delete "tank" "auto_daily_20240103" true]⟩) :=
  ⟨eviction_oldest_first .daily ⟨"tank", 1, 0, 0⟩
      ⟨[newSnapshot "tank"],
        [newSnapshot "tank@auto_daily_20240101", newSnapshot "tank@auto_daily_20240103",
          newSnapshot "tank@auto_daily_20240105"], [], []⟩ (by decide),
    by decide⟩

/-- C3, at a failing input.  The volume `tank/my_daily_vol` keeps 1 daily and 4 weekly
snapshots and has one of each.  The weekly snapshot's name contains `_daily_` (in the
volume part), so the daily cleanup counts two daily snapshots and destroys the one with
the smaller trailing number: the weekly snapshot `auto_weekly_20243`. -/
theorem cleanupDaily_destroys_weekly :
    cleanupDailySnapshotForFilesystem ⟨"tank/my_daily_vol", 1, 4, 0⟩
        ⟨[newSnapshot "tank/my_daily_vol"],
          [newSnapshot "tank/my_daily_vol@auto_daily_20240115",
            newSnapshot "tank/my_daily_vol@auto_weekly_20243"], [], []⟩ =
      some (.ok (), ⟨[newSnapshot "tank/my_daily_vol"],
        [newSnapshot "tank/my_daily_vol@auto_daily_20240115"], [],
        [Call.delete "tank/my_daily_vol" "auto_weekly_20243" true]⟩) := by
  decide

/-- C4, at a failing input.  With the two volumes `data` and `tank/data`, the listing for
`data` returns the snapshot `tank/data@auto_daily_20240101`, because its name contains
`data@`, and the daily cleanup of `data` with retention 0 destroys it. -/
theorem listing_for_data_returns_tank_data :
    ListSnapshotsForFilesystem "data"
        ⟨[newSnapshot "data", newSnapshot "tank/data"],
          [newSnapshot "tank/data@auto_daily_20240101"], [], []⟩ =
      (.ok [newSnapshot "tank/data@auto_daily_20240101"],
        ⟨[newSnapshot "data", newSnapshot "tank/data"],
          [newSnapshot "tank/data@auto_daily_20240101"], [], []⟩) ∧
    cleanupDailySnapshotForFilesystem ⟨"data", 0, 0, 0⟩
        ⟨[newSnapshot "data", newSnapshot "tank/data"],
          [newSnapshot "tank/data@auto_daily_20240101"], [], []⟩ =
      some (.ok (), ⟨[newSnapshot "data", newSnapshot "tank/data"], [], [],
        [Call.delete "tank/data" "auto_daily_20240101" true]⟩) := by
  decide

/-- Minimal deletion with respect to the count the code makes.  With `n` the number of
listed snapshots whose full name contains the substring of the tier (the loop counter of
the cleanup function, not the number of snapshots whose label is of the tier) and
retention count `r`, one cleanup pass issues at most `max 0 (n - r)` `DeleteSnapshot`
calls and no other call; when `n ≤ r` it issues none and the provider's snapshots are
unchanged. -/
theorem cleanup_deletions_within_counter (T : Tier) (cfg : FilesystemSnapshotConfig) (w : World) :
    ∃ out, cleanupForTier T cfg w = some out ∧
      (∀ c ∈ callsSince w out.2, c.isDelete = true) ∧
      ((callsSince w out.2).length : Int) ≤
        max 0 (((tierSnapshots T.substring cfg.Name w).length : Int) - T.number cfg) ∧
      (((tierSnapshots T.substring cfg.Name w).length : Int) ≤ T.number cfg →
        callsSince w out.2 = [] ∧ out.2.snapshots = w.snapshots) := by
  rw [cleanupForTier_eq]
  obtain ⟨out, ho, calls, h1, h2, h3, _, h5, _⟩ :=
    cleanupSnapshotForFilesystem_frame T.substring (T.number cfg) cfg.Name w
  have hc := callsSince_append w out.2 calls h1
  refine ⟨out, ho, by rwa [hc], by rwa [hc], ?_⟩
  intro hle
  have hnil : calls = [] := by
    have h0 : max 0 (((tierSnapshots T.substring cfg.Name w).length : Int) - T.number cfg) = 0 :=
      max_eq_left (by omega)
    rw [h0] at h2
    exact List.length_eq_zero.1 (by omega)
  exact ⟨by rw [hc, hnil], h5 hnil⟩


theorem zfsList_snapshot (w : World) :
    zfsList "snapshot" w =
      if w.command.1 = true then (.error "zfs: list failed", w.command.2)
      else (.ok w.snapshots, w.command.2) := by
  obtain ⟨h1, _, _, _⟩ := command_fields w
  unfold zfsList
  cases hc : w.command with
  | mk b w0 =>
    rw [hc] at h1
    cases b with
    | true => simp
    | false => simp at h1 ⊢; rw [h1]

theorem zfsList_filesystem (w : World) :
    zfsList "filesystem" w =
      if w.command.1 = true then (.error "zfs: list failed", w.command.2)
      else (.ok w.filesystems, w.command.2) := by
  obtain ⟨_, h1, _, _⟩ := command_fields w
  unfold zfsList
  cases hc : w.command with
  | mk b w0 =>
    rw [hc] at h1
    cases b with
    | true => simp
    | false =>
      have hne : ¬ ("filesystem" = "snapshot") := by decide
      simp only [hne, if_false, if_true] at h1 ⊢
      simp at h1 ⊢
      rw [h1]

/-- What `CreateSnapshot` does: it logs the call; on success the snapshot is new, its
volume exists and the record is added; otherwise the snapshots are unchanged. -/
theorem CreateSnapshot_spec (fsName ssName : String) (w : World) :
    ∃ r w1, CreateSnapshot fsName ssName w = (r, w1) ∧ r ≠ .panic ∧
      w1.filesystems = w.filesystems ∧
      w1.trace = w.trace ++ [Call.create fsName ssName r.isOk] ∧
      ((r = .ok () ∧ w1.snapshots = w.snapshots ++ [newSnapshot (fsName ++ "@" ++ ssName)] ∧
          (∃ f ∈ w.filesystems, f.Name = fsName) ∧
          ∀ s ∈ w.snapshots, s.Name ≠ fsName ++ "@" ++ ssName) ∨
        (r.isOk = false ∧ w1.snapshots = w.snapshots)) := by
  obtain ⟨a1, a2, a3, _⟩ := command_fields w
  obtain ⟨b1, b2, b3, _⟩ := command_fields w.command.2
  obtain ⟨c1, c2, c3, _⟩ := command_fields w.command.2.command.2
  unfold CreateSnapshot createSnapshotBody ListFilesystems ListSnapshots
  rw [zfsList_filesystem]
  by_cases h1 : w.command.1 = true
  · rw [if_pos h1]
    exact ⟨_, _, rfl, by simp, by simp [World.log, a2], by simp [World.log, a3, Result.isOk],
      Or.inr ⟨rfl, by simp [World.log, a1]⟩⟩
  · rw [if_neg h1]
    simp only
    rw [zfsList_snapshot]
    by_cases h2 : w.command.2.command.1 = true
    · rw [if_pos h2]
      exact ⟨_, _, rfl, by simp, by simp [World.log, a2, b2],
        by simp [World.log, a3, b3, Result.isOk], Or.inr ⟨rfl, by simp [World.log, a1, b1]⟩⟩
    · rw [if_neg h2]
      simp only
      by_cases h3 : (w.filesystems.any fun filesystem => filesystem.Name == fsName) = true
      · simp only [h3, Bool.not_true, Bool.false_eq_true, if_false]
        by_cases h4 : (w.command.2.snapshots.any
            fun snapshot => snapshot.Name == fsName ++ "@" ++ ssName) = true
        · rw [if_pos h4]
          exact ⟨_, _, rfl, by simp, by simp [World.log, a2, b2],
            by simp [World.log, a3, b3, Result.isOk], Or.inr ⟨rfl, by simp [World.log, a1, b1]⟩⟩
        · rw [if_neg h4]
          cases h5 : w.command.2.command.2.command with
          | mk b w3 =>
            rw [h5] at c1 c2 c3
            simp only at c1 c2 c3
            cases b with
            | true =>
              exact ⟨_, _, rfl, by simp, by simp [World.log, a2, b2, c2],
                by simp [World.log, a3, b3, c3, Result.isOk],
                Or.inr ⟨rfl, by simp [World.log, a1, b1, c1]⟩⟩
            | false =>
              refine ⟨_, _, rfl, by simp, by simp [World.log, a2, b2, c2],
                by simp [World.log, a3, b3, c3, Result.isOk],
                Or.inl ⟨rfl, by simp [World.log, a1, b1, c1], ?_, ?_⟩⟩
              · rw [List.any_eq_true] at h3
                obtain ⟨f, hf, he⟩ := h3
                exact ⟨f, hf, by simpa using he⟩
              · intro s hs he
                apply h4
                rw [List.any_eq_true]
                exact ⟨s, by rw [a1]; exact hs, by simpa using he⟩
      · simp only [h3, Bool.not_false, if_true]
        exact ⟨_, _, rfl, by simp, by simp [World.log, a2, b2],
          by simp [World.log, a3, b3, Result.isOk], Or.inr ⟨rfl, by simp [World.log, a1, b1]⟩⟩


theorem createAndCleanup_eq (cfg : FilesystemSnapshotConfig) (d wk m : String) (t : Tally)
    (w : World) :
    createAndCleanup cfg d wk m t w =
      createStages cfg.Name
        [(t.createDailySnapshot && decide (cfg.NumberDaily > 0), d),
          (t.createWeeklySnapshot && decide (cfg.NumberWeekly > 0), wk),
          (t.createMonthlySnapshot && decide (cfg.NumberMonthly > 0), m)] w (cleanupAll cfg) := by
  unfold createAndCleanup createIfMissing
  simp only [createStages]
  by_cases h1 : (t.createDailySnapshot && decide (cfg.NumberDaily > 0)) = true <;>
  by_cases h2 : (t.createWeeklySnapshot && decide (cfg.NumberWeekly > 0)) = true <;>
  by_cases h3 : (t.createMonthlySnapshot && decide (cfg.NumberMonthly > 0)) = true <;>
  simp only [h1, h2, h3, if_true, if_false, andThen, Bool.false_eq_true]

/-- Induction over the guarded `CreateSnapshot` calls. -/
theorem createStages_induction (fsName : String) (k : World → Option (Result Unit × World))
    (I : World → Prop) (L : String → Prop)
    (Q : List (Bool × String) → World → Result Unit × World → Prop)
    (hk : ∀ w, I w → ∃ out, k w = some out ∧ Q [] w out)
    (hskip : ∀ ss rest w out, Q rest w out → Q ((false, ss) :: rest) w out)
    (hfail : ∀ ss rest w e w1, I w → L ss → CreateSnapshot fsName ss w = (.error e, w1) →
      Q ((true, ss) :: rest) w (.error e, w1))
    (hstep : ∀ ss rest w w1, I w → L ss → CreateSnapshot fsName ss w = (.ok (), w1) →
      I w1 ∧ ∀ out, Q rest w1 out → Q ((true, ss) :: rest) w out) :
    ∀ (stages : List (Bool × String)) (w : World), I w → (∀ p ∈ stages, L p.2) →
      ∃ out, createStages fsName stages w k = some out ∧ Q stages w out := by
  intro stages
  induction stages with
  | nil =>
    intro w hI _
    exact hk w hI
  | cons p rest ih =>
    intro w hI hL
    obtain ⟨b, ss⟩ := p
    have hLss : L ss := hL (b, ss) (List.mem_cons_self _ _)
    have hLrest : ∀ p ∈ rest, L p.2 := fun p hp => hL p (List.mem_cons_of_mem _ hp)
    cases b with
    | false =>
      obtain ⟨out, ho, hQ⟩ := ih w hI hLrest
      exact ⟨out, by simpa [createStages] using ho, hskip ss rest w out hQ⟩
    | true =>
      obtain ⟨r, w1, hc, hnp, _⟩ := CreateSnapshot_spec fsName ss w
      cases r with
      | panic => exact absurd rfl hnp
      | error e =>
        exact ⟨_, by simp [createStages, andThen, hc], hfail ss rest w e w1 hI hLss hc⟩
      | ok u =>
        cases u
        obtain ⟨hI1, hQ1⟩ := hstep ss rest w w1 hI hLss hc
        obtain ⟨out, ho, hQ⟩ := ih w1 hI1 hLrest
        exact ⟨out, by simpa [createStages, andThen, hc] using ho, hQ1 out hQ⟩


theorem processFilesystem_eq (now : Time) (cfg : FilesystemSnapshotConfig) (w : World) :
    processFilesystem now cfg w =
      if w.command.1 = true then some (.error "zfs: list failed", w.command.2)
      else if (w.filesystems.any fun filesystem => filesystem.Name == cfg.Name) = false then
        some (.error ("no filesystem found with name " ++ cfg.Name), w.command.2)
      else if w.command.2.command.1 = true then
        some (.error "zfs: list failed", w.command.2.command.2)
      else createStages cfg.Name (stagesOf now cfg w) w.command.2.command.2 (cleanupAll cfg) := by
  obtain ⟨a1, _, _, _⟩ := command_fields w
  unfold processFilesystem ListFilesystems
  rw [zfsList_filesystem]
  by_cases h1 : w.command.1 = true
  · simp [h1]
  · simp only [h1, if_false]
    by_cases h2 : (w.filesystems.any fun filesystem => filesystem.Name == cfg.Name) = false
    · simp [h2]
    · simp only [h2, if_false]
      simp only [Bool.not_eq_false] at h2
      simp only [h2, Bool.not_true, Bool.false_eq_true, if_false]
      rw [ListSnapshotsForFilesystem_eq]
      by_cases h3 : w.command.2.command.1 = true
      · simp [h3]
      · simp only [h3, if_false, Bool.false_eq_true, Bool.true_eq_false]
        rw [createAndCleanup_eq, a1]
        rfl

/-- A property of the world that every cleanup function keeps, and a transitive relation
between the worlds before and after that every cleanup function establishes, hold across
the three cleanup calls at the end of `processFilesystem`. -/
theorem cleanupAll_lift (cfg : FilesystemSnapshotConfig) (I : World → Prop)
    (R : World → World → Prop)
    (htrans : ∀ a b c, R a b → R b c → R a c)
    (h : ∀ tier number w, I w →
      ∃ out, cleanupSnapshotForFilesystem tier number cfg.Name w = some out ∧
        I out.2 ∧ R w out.2) :
    ∀ w, I w → ∃ out, cleanupAll cfg w = some out ∧ I out.2 ∧ R w out.2 := by
  intro w hI
  unfold cleanupAll cleanupDailySnapshotForFilesystem cleanupWeeklySnapshotForFilesystem
    cleanupMonthlySnapshotForFilesystem
  obtain ⟨⟨r1, w1⟩, ho1, hI1, hR1⟩ := h "_daily_" cfg.NumberDaily w hI
  rw [ho1]
  cases r1 with
  | error e => exact ⟨_, rfl, hI1, hR1⟩
  | panic => exact ⟨_, rfl, hI1, hR1⟩
  | ok u =>
    cases u
    simp only
    obtain ⟨⟨r2, w2⟩, ho2, hI2, hR2⟩ := h "_weekly_" cfg.NumberWeekly w1 hI1
    rw [ho2]
    cases r2 with
    | error e => exact ⟨_, rfl, hI2, htrans _ _ _ hR1 hR2⟩
    | panic => exact ⟨_, rfl, hI2, htrans _ _ _ hR1 hR2⟩
    | ok u =>
      cases u
      simp only
      obtain ⟨⟨r3, w3⟩, ho3, hI3, hR3⟩ := h "_monthly_" cfg.NumberMonthly w2 hI2
      rw [ho3]
      cases r3 with
      | error e => exact ⟨_, rfl, hI3, htrans _ _ _ hR1 (htrans _ _ _ hR2 hR3)⟩
      | panic => exact ⟨_, rfl, hI3, htrans _ _ _ hR1 (htrans _ _ _ hR2 hR3)⟩
      | ok u => cases u; exact ⟨_, rfl, hI3, htrans _ _ _ hR1 (htrans _ _ _ hR2 hR3)⟩

/-- The cleanup calls add only `DeleteSnapshot` calls to the log. -/
theorem cleanupAll_frame (cfg : FilesystemSnapshotConfig) (w : World) :
    ∃ out, cleanupAll cfg w = some out ∧
      ∃ calls, out.2.trace = w.trace ++ calls ∧ (∀ c ∈ calls, c.isDelete = true) ∧
        (∀ s ∈ out.2.snapshots, s ∈ w.snapshots) := by
  obtain ⟨out, ho, _, hR⟩ := cleanupAll_lift cfg (fun _ => True)
    (fun a b => ∃ calls, b.trace = a.trace ++ calls ∧ (∀ c ∈ calls, c.isDelete = true) ∧
      (∀ s ∈ b.snapshots, s ∈ a.snapshots))
    (by
      rintro a b c ⟨c1, h1, h2, h3⟩ ⟨c2, h4, h5, h6⟩
      refine ⟨c1 ++ c2, by rw [h4, h1, List.append_assoc], ?_, fun s hs => h3 s (h6 s hs)⟩
      intro x hx
      rcases List.mem_append.1 hx with hx | hx
      · exact h2 x hx
      · exact h5 x hx)
    (by
      intro tier number w _
      obtain ⟨out, ho, calls, h1, _, h3, _, _, h6⟩ :=
        cleanupSnapshotForFilesystem_frame tier number cfg.Name w
      exact ⟨out, ho, trivial, calls, h1, h3, h6⟩)
    w trivial
  exact ⟨out, ho, hR⟩


theorem containsChars_middle (a sub b : List Char) : containsChars (a ++ sub ++ b) sub = true := by
  unfold containsChars
  rw [List.any_eq_true]
  refine ⟨sub ++ b, ?_, ?_⟩
  · rw [List.mem_tails, List.append_assoc]
    exact List.suffix_append a (sub ++ b)
  · rw [List.isPrefixOf_iff_prefix]
    exact List.prefix_append sub b

theorem label_contains (now : Time) (name : String) (T : Tier) :
    stringsContains (name ++ "@" ++ T.label now) T.substring = true := by
  unfold stringsContains
  cases T
  · have : (name ++ "@" ++ Tier.daily.label now).data =
        (name.data ++ "@auto".data) ++ "_daily_".data ++ now.format20060102.data := by
      simp [Tier.label, getSnapshotNamesForFilesystem, String.data_append]
    rw [this]
    exact containsChars_middle _ _ _
  · have : (name ++ "@" ++ Tier.weekly.label now).data =
        (name.data ++ "@auto".data) ++ "_weekly_".data ++
          (now.format2006 ++ Nat.repr now.ISOWeek.2).data := by
      simp [Tier.label, getSnapshotNamesForFilesystem, String.data_append]
    rw [this]
    exact containsChars_middle _ _ _
  · have : (name ++ "@" ++ Tier.monthly.label now).data =
        (name.data ++ "@auto".data) ++ "_monthly_".data ++ now.format200601.data := by
      simp [Tier.label, getSnapshotNamesForFilesystem, String.data_append]
    rw [this]
    exact containsChars_middle _ _ _

theorem label_injective (now : Time) (T T' : Tier) (h : T.label now = T'.label now) : T = T' := by
  have h' := congrArg String.data h
  cases T <;> cases T' <;> first
    | rfl
    | (exfalso
       simp [Tier.label, getSnapshotNamesForFilesystem, String.data_append] at h')

theorem tallyStep_flags (name d wk m : String) (t : Tally) (s : Filesystem) :
    (tallyStep name d wk m t s).createDailySnapshot =
        (t.createDailySnapshot &&
          !(stringsContains s.Name "_daily_" && s.Name == name ++ "@" ++ d)) ∧
      (tallyStep name d wk m t s).createWeeklySnapshot =
        (t.createWeeklySnapshot &&
          !(stringsContains s.Name "_weekly_" && s.Name == name ++ "@" ++ wk)) ∧
      (tallyStep name d wk m t s).createMonthlySnapshot =
        (t.createMonthlySnapshot &&
          !(stringsContains s.Name "_monthly_" && s.Name == name ++ "@" ++ m)) := by
  unfold tallyStep
  generalize stringsContains s.Name "_daily_" = c1
  generalize stringsContains s.Name "_weekly_" = c2
  generalize stringsContains s.Name "_monthly_" = c3
  generalize (s.Name == name ++ "@" ++ d) = e1
  generalize (s.Name == name ++ "@" ++ wk) = e2
  generalize (s.Name == name ++ "@" ++ m) = e3
  cases c1 <;> cases c2 <;> cases c3 <;> cases e1 <;> cases e2 <;> cases e3 <;> simp

theorem foldl_tallyStep_flags (name d wk m : String) (l : List Filesystem) :
    ∀ t : Tally,
      (l.foldl (tallyStep name d wk m) t).createDailySnapshot =
          (t.createDailySnapshot && !l.any (fun s =>
            stringsContains s.Name "_daily_" && s.Name == name ++ "@" ++ d)) ∧
        (l.foldl (tallyStep name d wk m) t).createWeeklySnapshot =
          (t.createWeeklySnapshot && !l.any (fun s =>
            stringsContains s.Name "_weekly_" && s.Name == name ++ "@" ++ wk)) ∧
        (l.foldl (tallyStep name d wk m) t).createMonthlySnapshot =
          (t.createMonthlySnapshot && !l.any (fun s =>
            stringsContains s.Name "_monthly_" && s.Name == name ++ "@" ++ m)) := by
  induction l with
  | nil => intro t; simp
  | cons s rest ih =>
    intro t
    obtain ⟨h1, h2, h3⟩ := tallyStep_flags name d wk m t s
    obtain ⟨i1, i2, i3⟩ := ih (tallyStep name d wk m t s)
    simp only [List.foldl_cons, List.any_cons, i1, i2, i3, h1, h2, h3, Bool.not_or,
      Bool.and_assoc, and_self]

theorem any_name_eq (l : List Filesystem) (target sub : String)
    (h : stringsContains target sub = true) :
    l.any (fun s => stringsContains s.Name sub && s.Name == target) =
      l.any (fun s => s.Name == target) := by
  induction l with
  | nil => rfl
  | cons s rest ih =>
    simp only [List.any_cons, ih]
    congr 1
    by_cases hs : s.Name = target
    · simp [hs, h]
    · simp [hs]

theorem stagesOf_eq (now : Time) (cfg : FilesystemSnapshotConfig) (w : World) :
    stagesOf now cfg w =
      [Tier.daily, Tier.weekly, Tier.monthly].map (fun T => (wanted now cfg w T, T.label now)) := by
  obtain ⟨h1, h2, h3⟩ := foldl_tallyStep_flags cfg.Name (getSnapshotNamesForFilesystem now).1
    (getSnapshotNamesForFilesystem now).2.1 (getSnapshotNamesForFilesystem now).2.2
    (w.snapshots.filter (keepSnapshot cfg.Name)) ⟨0, true, 0, true, 0, true⟩
  have c1 := label_contains now cfg.Name Tier.daily
  have c2 := label_contains now cfg.Name Tier.weekly
  have c3 := label_contains now cfg.Name Tier.monthly
  simp only [Tier.label, Tier.substring] at c1 c2 c3
  rw [any_name_eq _ _ _ c1] at h1
  rw [any_name_eq _ _ _ c2] at h2
  rw [any_name_eq _ _ _ c3] at h3
  unfold stagesOf tally wanted
  simp only [h1, h2, h3, List.map_cons, List.map_nil, Tier.label, Tier.number, Bool.true_and]
  simp only [Bool.and_comm]


theorem createCalls_of_deletes (calls : List Call) (h : ∀ c ∈ calls, c.isDelete = true) :
    createCalls calls = [] := by
  unfold createCalls
  rw [List.filterMap_eq_nil_iff]
  intro c hc
  have := h c hc
  cases c <;> simp [Call.isDelete] at this ⊢

/-- The `CreateSnapshot` calls of a run of guarded calls: an initial part of the calls
whose guard is true, and all of them when no call fails. -/
theorem createStages_creates (fsName : String) (k : World → Option (Result Unit × World))
    (hk : ∀ w, ∃ out, k w = some out ∧
      ∃ calls, out.2.trace = w.trace ++ calls ∧ ∀ c ∈ calls, c.isDelete = true)
    (stages : List (Bool × String)) (w : World) :
    ∃ out, createStages fsName stages w k = some out ∧
      ∃ calls, out.2.trace = w.trace ++ calls ∧
        createCalls calls <+: (stages.filter (·.1)).map (fun p => (fsName, p.2)) ∧
        ((∀ c ∈ calls, c.isCreate = true → c.succeeded = true) →
          createCalls calls = (stages.filter (·.1)).map (fun p => (fsName, p.2))) := by
  refine createStages_induction fsName k (fun _ => True) (fun _ => True)
    (fun stages w out => ∃ calls, out.2.trace = w.trace ++ calls ∧
        createCalls calls <+: (stages.filter (·.1)).map (fun p => (fsName, p.2)) ∧
        ((∀ c ∈ calls, c.isCreate = true → c.succeeded = true) →
          createCalls calls = (stages.filter (·.1)).map (fun p => (fsName, p.2))))
    ?_ ?_ ?_ ?_ stages w trivial (fun _ _ => trivial)
  · intro w _
    obtain ⟨out, ho, calls, h1, h2⟩ := hk w
    refine ⟨out, ho, calls, h1, ?_, ?_⟩
    · rw [createCalls_of_deletes calls h2]; simp
    · intro _; rw [createCalls_of_deletes calls h2]; simp
  · intro ss rest w out hQ
    simpa using hQ
  · intro ss rest w e w1 _ _ hc
    obtain ⟨r, w1', hc', _, _, ht, _⟩ := CreateSnapshot_spec fsName ss w
    rw [hc] at hc'
    simp only [Prod.mk.injEq] at hc'
    obtain ⟨rfl, rfl⟩ := hc'
    refine ⟨[Call.create fsName ss false], ht, ?_, ?_⟩
    · simp [createCalls]
    · intro hall
      have := hall (Call.create fsName ss false) (by simp) rfl
      simp [Call.succeeded] at this
  · intro ss rest w w1 _ _ hc
    refine ⟨trivial, ?_⟩
    rintro out ⟨calls, h1, h2, h3⟩
    obtain ⟨r, w1', hc', _, _, ht, _⟩ := CreateSnapshot_spec fsName ss w
    rw [hc] at hc'
    simp only [Prod.mk.injEq] at hc'
    obtain ⟨rfl, rfl⟩ := hc'
    refine ⟨Call.create fsName ss true :: calls, ?_, ?_, ?_⟩
    · rw [h1, ht]; simp [Result.isOk]
    · simpa [createCalls] using h2
    · intro hall
      have := h3 (fun c hc => hall c (List.mem_cons_of_mem _ hc))
      simpa [createCalls] using this

/-- C10.  When the configured name is the name of no listed filesystem,
`processFilesystem` returns an error, issues no `CreateSnapshot` and no `DeleteSnapshot`
call, and leaves the provider's snapshots as they were. -/
theorem missing_volume (now : Time) (cfg : FilesystemSnapshotConfig) (w : World)
    (h : ∀ f ∈ w.filesystems, f.Name ≠ cfg.Name) :
    ∃ e w', processFilesystem now cfg w = some (.error e, w') ∧
      callsSince w w' = [] ∧ w'.snapshots = w.snapshots := by
  have hany : (w.filesystems.any fun filesystem => filesystem.Name == cfg.Name) = false := by
    rw [List.any_eq_false]
    intro f hf
    simpa using h f hf
  rw [processFilesystem_eq]
  by_cases h1 : w.command.1 = true
  · rw [if_pos h1]
    exact ⟨_, _, rfl, command_trace w, (command_fields w).1⟩
  · rw [if_neg h1, if_pos hany]
    exact ⟨_, _, rfl, command_trace w, (command_fields w).1⟩

/-- C10 on the volume `tank/gone`, which the provider does not list. -/
theorem missing_volume_witness :
    ∃ e w', processFilesystem ⟨738887⟩ ⟨"tank/gone", 2, 1, 1⟩
        ⟨[newSnapshot "tank", newSnapshot "tank/data"],
          [newSnapshot "tank/data@auto_daily_20240101"], [], []⟩ = some (.error e, w') ∧
      callsSince ⟨[newSnapshot "tank", newSnapshot "tank/data"],
          [newSnapshot "tank/data@auto_daily_20240101"], [], []⟩ w' = [] ∧
      w'.snapshots = [newSnapshot "tank/data@auto_daily_20240101"] :=
  missing_volume ⟨738887⟩ ⟨"tank/gone", 2, 1, 1⟩
    ⟨[newSnapshot "tank", newSnapshot "tank/data"],
      [newSnapshot "tank/data@auto_daily_20240101"], [], []⟩ (by decide)


theorem wanted_iff (now : Time) (cfg : FilesystemSnapshotConfig) (w : World) (T : Tier) :
    wanted now cfg w T = true ↔
      T.number cfg > 0 ∧ ∀ s ∈ w.snapshots, keepSnapshot cfg.Name s = true →
        s.Name ≠ cfg.Name ++ "@" ++ T.label now := by
  unfold wanted
  simp only [Bool.and_eq_true, decide_eq_true_eq, Bool.not_eq_true', List.any_eq_false,
    List.mem_filter, beq_iff_eq, and_imp]

theorem expected_eq (now : Time) (cfg : FilesystemSnapshotConfig) (w : World) :
    ((stagesOf now cfg w).filter (·.1)).map (fun p => (cfg.Name, p.2)) =
      ([Tier.daily, Tier.weekly, Tier.monthly].filter (wanted now cfg w)).map
        (fun T => (cfg.Name, T.label now)) := by
  rw [stagesOf_eq, List.filter_map, List.map_map]
  rfl

theorem expected_nodup (now : Time) (cfg : FilesystemSnapshotConfig) (w : World) :
    (([Tier.daily, Tier.weekly, Tier.monthly].filter (wanted now cfg w)).map
        (fun T => (cfg.Name, T.label now))).Nodup := by
  apply List.Nodup.map
  · intro T T' h
    simp only [Prod.mk.injEq, true_and] at h
    exact label_injective now T T' h
  · exact List.Nodup.filter _ (by decide)

/-- The `CreateSnapshot` calls of `processFilesystem`: an initial part of the calls for
the tiers that want one, in the order daily, weekly, monthly, and all of them when the
run gets past the two listings and no `CreateSnapshot` call fails. -/
theorem processFilesystem_creates (now : Time) (cfg : FilesystemSnapshotConfig) (w : World) :
    ∃ out, processFilesystem now cfg w = some out ∧
      createCalls (callsSince w out.2) <+:
        ([Tier.daily, Tier.weekly, Tier.monthly].filter (wanted now cfg w)).map
          (fun T => (cfg.Name, T.label now)) ∧
      (w.command.1 = false → (∃ f ∈ w.filesystems, f.Name = cfg.Name) →
        w.command.2.command.1 = false →
        (∀ c ∈ callsSince w out.2, c.isCreate = true → c.succeeded = true) →
        createCalls (callsSince w out.2) =
          ([Tier.daily, Tier.weekly, Tier.monthly].filter (wanted now cfg w)).map
            (fun T => (cfg.Name, T.label now))) := by
  have t1 := (command_fields w).2.2.1
  have t2 := (command_fields w.command.2).2.2.1
  rw [processFilesystem_eq]
  by_cases h1 : w.command.1 = true
  · rw [if_pos h1]
    refine ⟨_, rfl, ?_, fun h => by rw [h1] at h; cases h⟩
    simp only
    rw [command_trace]
    simp [createCalls]
  · rw [if_neg h1]
    by_cases h2 : (w.filesystems.any fun filesystem => filesystem.Name == cfg.Name) = false
    · rw [if_pos h2]
      refine ⟨_, rfl, ?_, fun _ hf => ?_⟩
      · simp only
        rw [command_trace]
        simp [createCalls]
      exfalso
      obtain ⟨f, hf, he⟩ := hf
      rw [List.any_eq_false] at h2
      exact h2 f hf (by simpa using he)
    · rw [if_neg h2]
      by_cases h3 : w.command.2.command.1 = true
      · rw [if_pos h3]
        have : callsSince w w.command.2.command.2 = [] :=
          callsSince_append _ _ _ (by rw [t2, t1]; simp)
        refine ⟨_, rfl, ?_, fun _ _ h => by rw [h3] at h; cases h⟩
        simp only
        rw [this]
        simp [createCalls]
      · rw [if_neg h3]
        obtain ⟨out, ho, calls, h4, h5, h6⟩ := createStages_creates cfg.Name (cleanupAll cfg)
          (fun w => by
            obtain ⟨out, ho, calls, c1, c2, _⟩ := cleanupAll_frame cfg w
            exact ⟨out, ho, calls, c1, c2⟩)
          (stagesOf now cfg w) w.command.2.command.2
        rw [t2, t1] at h4
        rw [expected_eq] at h5 h6
        refine ⟨out, ho, ?_, ?_⟩
        · rw [callsSince_append w out.2 calls h4]; exact h5
        · intro _ _ _
          rw [callsSince_append w out.2 calls h4]
          exact h6

/-- C7.  In a run of `processFilesystem` that gets past the two listings at its start
(neither `zfs list` command fails and the volume is listed): a `CreateSnapshot` call for
the canonical label of a tier is issued only if the tier's retention count is positive
and no listed snapshot of the volume is named `volume@label`; if no `CreateSnapshot` call
of the run fails, the call is issued for every such tier; every `CreateSnapshot` call is
for the volume and the canonical label of some tier; and no two calls have the same
arguments, so there is at most one call per tier. -/
theorem create_decision (now : Time) (cfg : FilesystemSnapshotConfig) (w : World)
    (hfs : w.command.1 = false) (hfound : ∃ f ∈ w.filesystems, f.Name = cfg.Name)
    (hss : w.command.2.command.1 = false) :
    ∃ out, processFilesystem now cfg w = some out ∧
      (∀ T : Tier, (cfg.Name, T.label now) ∈ createCalls (callsSince w out.2) →
        T.number cfg > 0 ∧ ∀ s ∈ w.snapshots, keepSnapshot cfg.Name s = true →
          s.Name ≠ cfg.Name ++ "@" ++ T.label now) ∧
      ((∀ c ∈ callsSince w out.2, c.isCreate = true → c.succeeded = true) →
        ∀ T : Tier, T.number cfg > 0 →
          (∀ s ∈ w.snapshots, keepSnapshot cfg.Name s = true →
            s.Name ≠ cfg.Name ++ "@" ++ T.label now) →
          (cfg.Name, T.label now) ∈ createCalls (callsSince w out.2)) ∧
      (∀ p ∈ createCalls (callsSince w out.2), ∃ T : Tier, p = (cfg.Name, T.label now)) ∧
      (createCalls (callsSince w out.2)).Nodup := by
  obtain ⟨out, ho, hpre, hall⟩ := processFilesystem_creates now cfg w
  have hmem : ∀ p, p ∈ ([Tier.daily, Tier.weekly, Tier.monthly].filter (wanted now cfg w)).map
      (fun T => (cfg.Name, T.label now)) ↔
      ∃ T, wanted now cfg w T = true ∧ (cfg.Name, T.label now) = p := by
    intro p
    rw [List.mem_map]
    constructor
    · rintro ⟨T, hT, rfl⟩
      exact ⟨T, (List.mem_filter.1 hT).2, rfl⟩
    · rintro ⟨T, hT, rfl⟩
      exact ⟨T, List.mem_filter.2 ⟨by cases T <;> simp, hT⟩, rfl⟩
  refine ⟨out, ho, ?_, ?_, ?_, ?_⟩
  · intro T hT
    obtain ⟨T', hw', he⟩ := (hmem _).1 (hpre.subset hT)
    simp only [Prod.mk.injEq, true_and] at he
    have := label_injective now T' T he
    subst this
    exact (wanted_iff now cfg w T').1 hw'
  · intro hok T hn hs
    rw [hall hfs hfound hss hok, hmem]
    exact ⟨T, (wanted_iff now cfg w T).2 ⟨hn, hs⟩, rfl⟩
  · intro p hp
    obtain ⟨T, _, he⟩ := (hmem _).1 (hpre.subset hp)
    exact ⟨T, he.symm⟩
  · exact (expected_nodup now cfg w).sublist hpre.sublist


/-- C7 on the volume `tank/data` with policy 2 daily, 1 weekly, 0 monthly on 3 January
2024, when the daily snapshots of 1 and 2 January exist: the run creates the daily
snapshot of the day and the weekly snapshot of the week, and no monthly snapshot. -/
theorem create_decision_witness :
    (∃ out, processFilesystem ⟨738887⟩ ⟨"tank/data", 2, 1, 0⟩
        ⟨[newSnapshot "tank/data"],
          [newSnapshot "tank/data@auto_daily_20240101",
            newSnapshot "tank/data@auto_daily_20240102"], [], []⟩ = some out ∧
      createCalls (callsSince ⟨[newSnapshot "tank/data"],
          [newSnapshot "tank/data@auto_daily_20240101",
            newSnapshot "tank/data@auto_daily_20240102"], [], []⟩ out.2) =
        [("tank/data", "auto_daily_20240103"), ("tank/data", "auto_weekly_20241")]) ∧
    ∃ out, processFilesystem ⟨738887⟩ ⟨"tank/data", 2, 1, 0⟩
        ⟨[newSnapshot "tank/data"],
          [newSnapshot "tank/data@auto_daily_20240101",
            newSnapshot "tank/data@auto_daily_20240102"], [], []⟩ = some out ∧
      (∀ T : Tier, ("tank/data", T.label ⟨738887⟩) ∈ createCalls (callsSince
          ⟨[newSnapshot "tank/data"],
            [newSnapshot "tank/data@auto_daily_20240101",
              newSnapshot "tank/data@auto_daily_20240102"], [], []⟩ out.2) →
        T.number ⟨"tank/data", 2, 1, 0⟩ > 0 ∧
          ∀ s ∈ [newSnapshot "tank/data@auto_daily_20240101",
              newSnapshot "tank/data@auto_daily_20240102"],
            keepSnapshot "tank/data" s = true →
              s.Name ≠ "tank/data" ++ "@" ++ T.label ⟨738887⟩) ∧
      ((∀ c ∈ callsSince ⟨[newSnapshot "tank/data"],
            [newSnapshot "tank/data@auto_daily_20240101",
              newSnapshot "tank/data@auto_daily_20240102"], [], []⟩ out.2,
          c.isCreate = true → c.succeeded = true) →
        ∀ T : Tier, T.number ⟨"tank/data", 2, 1, 0⟩ > 0 →
          (∀ s ∈ [newSnapshot "tank/data@auto_daily_20240101",
              newSnapshot "tank/data@auto_daily_20240102"],
            keepSnapshot "tank/data" s = true →
              s.Name ≠ "tank/data" ++ "@" ++ T.label ⟨738887⟩) →
          ("tank/data", T.label ⟨738887⟩) ∈ createCalls (callsSince
            ⟨[newSnapshot "tank/data"],
              [newSnapshot "tank/data@auto_daily_20240101",
                newSnapshot "tank/data@auto_daily_20240102"], [], []⟩ out.2)) ∧
      (∀ p ∈ createCalls (callsSince ⟨[newSnapshot "tank/data"],
            [newSnapshot "tank/data@auto_daily_20240101",
              newSnapshot "tank/data@auto_daily_20240102"], [], []⟩ out.2),
          ∃ T : Tier, p = ("tank/data", T.label ⟨738887⟩)) ∧
      (createCalls (callsSince ⟨[newSnapshot "tank/data"],
            [newSnapshot "tank/data@auto_daily_20240101",
              newSnapshot "tank/data@auto_daily_20240102"], [], []⟩ out.2)).Nodup :=
  ⟨⟨_, rfl, by decide⟩,
    create_decision ⟨738887⟩ ⟨"tank/data", 2, 1, 0⟩
      ⟨[newSnapshot "tank/data"],
        [newSnapshot "tank/data@auto_daily_20240101",
          newSnapshot "tank/data@auto_daily_20240102"], [], []⟩
      (by decide) (by decide) (by decide)⟩


theorem digitChar_isDigit : ∀ m, m < 10 → (Nat.digitChar m).isDigit = true := by
  decide

theorem toDigitsCore_isDigit (fuel : Nat) :
    ∀ (n : Nat) (acc : List Char), (∀ c ∈ acc, c.isDigit = true) →
      ∀ c ∈ Nat.toDigitsCore 10 fuel n acc, c.isDigit = true := by
  induction fuel with
  | zero => intro n acc h; simpa [Nat.toDigitsCore] using h
  | succ fuel ih =>
    intro n acc h
    have hd : (Nat.digitChar (n % 10)).isDigit = true :=
      digitChar_isDigit _ (Nat.mod_lt _ (by decide))
    have hacc : ∀ c ∈ Nat.digitChar (n % 10) :: acc, c.isDigit = true := by
      intro c hc
      rcases List.mem_cons.1 hc with rfl | hc
      · exact hd
      · exact h c hc
    unfold Nat.toDigitsCore
    simp only
    split
    · exact hacc
    · exact ih _ _ hacc

theorem repr_isDigit (n : Nat) : ∀ c ∈ (Nat.repr n).data, c.isDigit = true := by
  unfold Nat.repr Nat.toDigits
  simpa [List.asString] using toDigitsCore_isDigit (n + 1) n [] (by simp)

theorem appendInt_isDigit (x width : Nat) : ∀ c ∈ (appendInt x width).data, c.isDigit = true := by
  unfold appendInt
  intro c hc
  simp only [String.data_append, List.mem_append, List.mem_replicate] at hc
  rcases hc with ⟨_, rfl⟩ | hc
  · decide
  · exact repr_isDigit x c hc

theorem count_at_of_digits (l : List Char) (h : ∀ c ∈ l, c.isDigit = true) : l.count '@' = 0 := by
  rw [List.count_eq_zero]
  intro hm
  have := h '@' hm
  revert this
  decide

theorem label_no_at (now : Time) (T : Tier) : (T.label now).data.count '@' = 0 := by
  have h1 := count_at_of_digits _ (appendInt_isDigit now.year 4)
  have h2 := count_at_of_digits _ (appendInt_isDigit now.month 2)
  have h3 := count_at_of_digits _ (appendInt_isDigit now.day 2)
  have h4 := count_at_of_digits _ (repr_isDigit now.ISOWeek.2)
  have a1 : "auto_daily_".data.count '@' = 0 := by decide
  have a2 : "auto_weekly_".data.count '@' = 0 := by decide
  have a3 : "auto_monthly_".data.count '@' = 0 := by decide
  cases T
  · simp only [Tier.label, getSnapshotNamesForFilesystem, Time.format20060102,
      String.data_append, List.count_append, h1, h2, h3, a1]
  · simp only [Tier.label, getSnapshotNamesForFilesystem, Time.format2006,
      String.data_append, List.count_append, h1, h4, a2]
  · simp only [Tier.label, getSnapshotNamesForFilesystem, Time.format200601,
      String.data_append, List.count_append, h1, h2, a3]

theorem mem_createCalls (calls : List Call) (fsName ssName : String) (ok : Bool)
    (h : Call.create fsName ssName ok ∈ calls) : (fsName, ssName) ∈ createCalls calls := by
  unfold createCalls
  rw [List.mem_filterMap]
  exact ⟨_, h, rfl⟩

theorem tierSnapshots_nil_of_length (tier name : String) (w : World)
    (h : ((tierSnapshots tier name w).length : Int) ≤ 0) : tierSnapshots tier name w = [] := by
  apply List.length_eq_zero.1
  omega

/-- C9, as the claim states it, fails: the volume `tank` has the single daily snapshot
`tank@auto_daily_18446744073709551616`, whose trailing segment is not an unsigned 64-bit
integer, and the daily retention count is 0.  No command fails, the daily cleanup returns
nil, and the snapshot is left. -/
theorem retention_zero_keeps_unparseable :
    periodKey "tank@auto_daily_18446744073709551616" = none ∧
      cleanupDailySnapshotForFilesystem ⟨"tank", 0, 0, 0⟩
          ⟨[newSnapshot "tank"], [newSnapshot "tank@auto_daily_18446744073709551616"], [], []⟩ =
        some (.ok (),
          ⟨[newSnapshot "tank"], [newSnapshot "tank@auto_daily_18446744073709551616"], [], []⟩) ∧
      tierSnapshots "_daily_" "tank"
          ⟨[newSnapshot "tank"], [newSnapshot "tank@auto_daily_18446744073709551616"], [], []⟩ ≠
        [] := by
  decide

/-- C9, amended.  Over a well-named provider state, for a tier whose retention count is 0
and whose listed snapshots all have a period key that parses to a value below
`2 ^ 64 - 1`: the tier's cleanup returns, and when it returns nil (neither the listing nor
a `DeleteSnapshot` call failed) no snapshot of the tier is listed for the volume any more;
and `processFilesystem` issues no `CreateSnapshot` call for the tier's canonical label. -/
theorem retention_zero (T : Tier) (now : Time) (cfg : FilesystemSnapshotConfig) (w : World)
    (hw : w.wellNamed) (hzero : T.number cfg = 0)
    (hparse : ∀ s ∈ tierSnapshots T.substring cfg.Name w,
      ∃ k, periodKey s.Name = some k ∧ k < 18446744073709551615) :
    (∃ out, cleanupForTier T cfg w = some out ∧
      (out.1 = .ok () → tierSnapshots T.substring cfg.Name out.2 = [])) ∧
    (∃ out, processFilesystem now cfg w = some out ∧
      ∀ ok, Call.create cfg.Name (T.label now) ok ∉ callsSince w out.2) := by
  constructor
  · rw [cleanupForTier_eq, hzero]
    obtain ⟨out, ho, hb⟩ :=
      cleanupSnapshotForFilesystem_bound T.substring 0 cfg.Name w hw.1 hparse (le_refl _)
    exact ⟨out, ho, fun hok => tierSnapshots_nil_of_length _ _ _ (hb hok)⟩
  · obtain ⟨out, ho, hpre, _⟩ := processFilesystem_creates now cfg w
    refine ⟨out, ho, ?_⟩
    intro ok hmem
    have := hpre.subset (mem_createCalls _ _ _ _ hmem)
    rw [List.mem_map] at this
    obtain ⟨T', hT', he⟩ := this
    simp only [Prod.mk.injEq, true_and] at he
    have := label_injective now T' T he
    subst this
    have hwant := (wanted_iff now cfg w T').1 (List.mem_filter.1 hT').2
    omega


/-- C9, amended, on the volume `tank` with two daily snapshots, one weekly snapshot and
daily retention 0: the daily cleanup destroys both daily snapshots and nothing else. -/
theorem retention_zero_witness :
    ((∃ out, cleanupForTier .daily ⟨"tank", 0, 1, 0⟩
        ⟨[newSnapshot "tank"],
          [newSnapshot "tank@auto_daily_20240101", newSnapshot "tank@auto_daily_20240102",
            newSnapshot "tank@auto_weekly_20241"], [], []⟩ = some out ∧
        (out.1 = .ok () → tierSnapshots Tier.daily.substring "tank" out.2 = [])) ∧
      (∃ out, processFilesystem ⟨738887⟩ ⟨"tank", 0, 1, 0⟩
        ⟨[newSnapshot "tank"],
          [newSnapshot "tank@auto_daily_20240101", newSnapshot "tank@auto_daily_20240102",
            newSnapshot "tank@auto_weekly_20241"], [], []⟩ = some out ∧
        ∀ ok, Call.create "tank" (Tier.daily.label ⟨738887⟩) ok ∉ callsSince
          ⟨[newSnapshot "tank"],
            [newSnapshot "tank@auto_daily_20240101", newSnapshot "tank@auto_daily_20240102",
              newSnapshot "tank@auto_weekly_20241"], [], []⟩ out.2)) ∧
    cleanupForTier .daily ⟨"tank", 0, 1, 0⟩
        ⟨[newSnapshot "tank"],
          [newSnapshot "tank@auto_daily_20240101", newSnapshot "tank@auto_daily_20240102",
            newSnapshot "tank@auto_weekly_20241"], [], []⟩ =
      some (.ok (), ⟨[newSnapshot "tank"], [newSnapshot "tank@auto_weekly_20241"], [],
        [Call.delete "tank" "auto_daily_20240101" true,
          Call.delete "tank" "auto_daily_20240102" true]⟩) :=
  ⟨retention_zero .daily ⟨738887⟩ ⟨"tank", 0, 1, 0⟩
      ⟨[newSnapshot "tank"],
        [newSnapshot "tank@auto_daily_20240101", newSnapshot "tank@auto_daily_20240102",
          newSnapshot "tank@auto_weekly_20241"], [], []⟩
      (by decide) rfl
      (by
        have hl : tierSnapshots Tier.daily.substring "tank"
            ⟨[newSnapshot "tank"],
              [newSnapshot "tank@auto_daily_20240101", newSnapshot "tank@auto_daily_20240102",
                newSnapshot "tank@auto_weekly_20241"], [], []⟩ =
            [newSnapshot "tank@auto_daily_20240101", newSnapshot "tank@auto_daily_20240102"] := by
          decide
        intro s hs
        rw [hl] at hs
        rcases List.mem_cons.1 hs with rfl | hs
        · exact ⟨20240101, by decide, by decide⟩
        · rcases List.mem_cons.1 hs with rfl | hs
          · exact ⟨20240102, by decide, by decide⟩
          · cases hs),
    by decide⟩

theorem keepSnapshot_pattern (name : String) (s : Filesystem) (h : keepSnapshot name s = true) :
    snapshotNamePatternMatchString s.Name = true := by
  unfold keepSnapshot at h
  exact (Bool.and_eq_true _ _ ▸ h).2

theorem Spares.refl_of (a b : World) (ht : b.trace = a.trace) (hs : b.snapshots = a.snapshots) :
    Spares a b :=
  ⟨[], by simp [ht], by simp, fun s h _ => by rw [hs]; exact h⟩

theorem Spares.trans {a b c : World} (h1 : Spares a b) (h2 : Spares b c) : Spares a c := by
  obtain ⟨c1, t1, d1, k1⟩ := h1
  obtain ⟨c2, t2, d2, k2⟩ := h2
  refine ⟨c1 ++ c2, by rw [t2, t1, List.append_assoc], ?_, fun s hs hp => k2 s (k1 s hs hp) hp⟩
  intro x hx
  rcases List.mem_append.1 hx with hx | hx
  · exact d1 x hx
  · exact d2 x hx

theorem cleanupSnapshotForFilesystem_spares (tier : String) (number : Int) (name : String)
    (w : World) (hw : w.wellNamed) :
    ∃ out, cleanupSnapshotForFilesystem tier number name w = some out ∧
      out.2.wellNamed ∧ Spares w out.2 := by
  obtain ⟨out, ho, calls, h1, h2, h3, _⟩ :=
    cleanupSnapshotForFilesystem_targets tier number name w hw.1
  obtain ⟨out', ho', _, _, _, _, f4, _, f6⟩ :=
    cleanupSnapshotForFilesystem_frame tier number name w
  rw [ho] at ho'
  cases ho'
  refine ⟨out, ho, ⟨fun s hs => hw.1 s (f6 s hs), fun f hf => hw.2 f (by rwa [← f4])⟩,
    calls, h1, ?_, ?_⟩
  · intro c hc _
    obtain ⟨_, s, _, hk, ht, _⟩ := h2 c hc
    rw [ht]
    exact keepSnapshot_pattern name s hk
  · intro s hs hp
    apply h3 s hs
    unfold keepSnapshot
    rw [hp, Bool.and_false]

theorem cleanupAll_spares (cfg : FilesystemSnapshotConfig) (w : World) (hw : w.wellNamed) :
    ∃ out, cleanupAll cfg w = some out ∧ out.2.wellNamed ∧ Spares w out.2 :=
  cleanupAll_lift cfg World.wellNamed Spares (fun _ _ _ h1 h2 => h1.trans h2)
    (fun tier number w hw => cleanupSnapshotForFilesystem_spares tier number cfg.Name w hw) w hw

theorem createStages_spares (fsName : String) (k : World → Option (Result Unit × World))
    (hk : ∀ w, w.wellNamed → ∃ out, k w = some out ∧ out.2.wellNamed ∧ Spares w out.2)
    (stages : List (Bool × String)) (w : World) (hw : w.wellNamed)
    (hL : ∀ p ∈ stages, p.2.data.count '@' = 0) :
    ∃ out, createStages fsName stages w k = some out ∧ Spares w out.2 := by
  refine createStages_induction fsName k World.wellNamed (fun ss => ss.data.count '@' = 0)
    (fun _ w out => Spares w out.2) ?_ ?_ ?_ ?_ stages w hw hL
  · intro w hw
    obtain ⟨out, ho, _, hS⟩ := hk w hw
    exact ⟨out, ho, hS⟩
  · intro ss rest w out hQ
    exact hQ
  · intro ss rest w e w1 _ _ hc
    obtain ⟨r, w1', hc', _, _, ht, hcase⟩ := CreateSnapshot_spec fsName ss w
    rw [hc] at hc'
    simp only [Prod.mk.injEq] at hc'
    obtain ⟨rfl, rfl⟩ := hc'
    rcases hcase with ⟨h, _⟩ | ⟨_, hs⟩
    · cases h
    · refine ⟨_, ht, ?_, fun s h _ => by rw [hs]; exact h⟩
      intro c hc hd
      simp only [List.mem_singleton] at hc
      subst hc
      simp [Call.isDelete] at hd
  · intro ss rest w w1 hw hss hc
    obtain ⟨r, w1', hc', _, hf, ht, hcase⟩ := CreateSnapshot_spec fsName ss w
    rw [hc] at hc'
    simp only [Prod.mk.injEq] at hc'
    obtain ⟨rfl, rfl⟩ := hc'
    rcases hcase with ⟨_, hs, ⟨f, hfm, hfn⟩, _⟩ | ⟨h, _⟩
    · have hstep : Spares w w1 := by
        refine ⟨_, ht, ?_, fun s h _ => by rw [hs]; exact List.mem_append_left _ h⟩
        intro c hc hd
        simp only [List.mem_singleton] at hc
        subst hc
        simp [Call.isDelete] at hd
      refine ⟨⟨?_, fun f hf' => hw.2 f (by rwa [← hf])⟩, fun out hQ => hstep.trans hQ⟩
      intro s hsm
      rw [hs] at hsm
      rcases List.mem_append.1 hsm with hsm | hsm
      · exact hw.1 s hsm
      · simp only [List.mem_singleton] at hsm
        subst hsm
        have h0 := hw.2 f hfm
        rw [hfn] at h0
        simp only [newSnapshot, String.data_append, List.count_append, h0, hss]
        decide
    · simp [Result.isOk] at h

/-- C5.  Over a well-named provider state: every snapshot in the list
`ListSnapshotsForFilesystem` returns, which is the list the totals of `processFilesystem`
and of the cleanup functions are counted over, has a name that matches the pattern, and
the list would be the same if the provider held no snapshot whose name fails the pattern;
every name passed to `DeleteSnapshot` during `processFilesystem` matches the pattern;
and every snapshot whose name fails the pattern is still there after the run. -/
theorem foreign_snapshots_invisible (now : Time) (cfg : FilesystemSnapshotConfig) (w : World)
    (hw : w.wellNamed) :
    (∀ s ∈ w.snapshots.filter (keepSnapshot cfg.Name),
      snapshotNamePatternMatchString s.Name = true) ∧
    (ListSnapshotsForFilesystem cfg.Name w).1 =
      (ListSnapshotsForFilesystem cfg.Name w.withoutForeign).1 ∧
    ∃ out, processFilesystem now cfg w = some out ∧
      (∀ c ∈ callsSince w out.2, c.isDelete = true →
        snapshotNamePatternMatchString c.target = true) ∧
      (∀ s ∈ w.snapshots, snapshotNamePatternMatchString s.Name = false →
        s ∈ out.2.snapshots) := by
  refine ⟨fun s hs => keepSnapshot_pattern cfg.Name s (List.mem_filter.1 hs).2, ?_, ?_⟩
  · rw [ListSnapshotsForFilesystem_eq, ListSnapshotsForFilesystem_eq]
    have hcmd : ∀ (v : World), v.faults = w.faults → v.command.1 = w.command.1 := by
      intro v hv
      unfold World.command
      rw [hv]
      cases w.faults <;> rfl
    rw [hcmd w.withoutForeign rfl]
    by_cases h : w.command.1 = true
    · simp [h]
    · have hf : w.command.1 = false := by simpa using h
      simp only [hf, Bool.false_eq_true, if_false, World.withoutForeign]
      rw [List.filter_filter]
      congr 2
      funext s
      unfold keepSnapshot
      cases stringsContains s.Name (cfg.Name ++ "@") <;>
        cases snapshotNamePatternMatchString s.Name <;> rfl
  · have key : ∃ out, processFilesystem now cfg w = some out ∧ Spares w out.2 := by
      obtain ⟨a1, a2, a3, _⟩ := command_fields w
      obtain ⟨b1, b2, b3, _⟩ := command_fields w.command.2
      rw [processFilesystem_eq]
      by_cases h1 : w.command.1 = true
      · rw [if_pos h1]
        exact ⟨_, rfl, Spares.refl_of _ _ a3 a1⟩
      · rw [if_neg h1]
        by_cases h2 : (w.filesystems.any fun filesystem => filesystem.Name == cfg.Name) = false
        · rw [if_pos h2]
          exact ⟨_, rfl, Spares.refl_of _ _ a3 a1⟩
        · rw [if_neg h2]
          by_cases h3 : w.command.2.command.1 = true
          · rw [if_pos h3]
            exact ⟨_, rfl, Spares.refl_of _ _ (by rw [b3, a3]) (by rw [b1, a1])⟩
          · rw [if_neg h3]
            have hw2 : w.command.2.command.2.wellNamed :=
              ⟨fun s hs => hw.1 s (by rwa [b1, a1] at hs),
                fun f hf => hw.2 f (by rwa [b2, a2] at hf)⟩
            obtain ⟨out, ho, hS⟩ := createStages_spares cfg.Name (cleanupAll cfg)
              (fun v hv => cleanupAll_spares cfg v hv) (stagesOf now cfg w)
              w.command.2.command.2 hw2
              (by
                rw [stagesOf_eq]
                intro p hp
                rw [List.mem_map] at hp
                obtain ⟨T, _, rfl⟩ := hp
                exact label_no_at now T)
            exact ⟨out, ho,
              (Spares.refl_of w w.command.2.command.2 (by rw [b3, a3]) (by rw [b1, a1])).trans hS⟩
    obtain ⟨out, ho, calls, ht, hd, hk⟩ := key
    refine ⟨out, ho, ?_, hk⟩
    rw [callsSince_append w out.2 calls ht]
    exact hd


/-- C5 on the volume `tank/data` with the hand-made snapshot `tank/data@manual-backup`
and two daily snapshots, daily retention 1, on 3 January 2024: the run creates the daily
snapshot of the day, destroys the two older daily snapshots and keeps the hand-made one. -/
theorem foreign_snapshots_invisible_witness :
    ((∀ s ∈ [newSnapshot "tank/data@manual-backup", newSnapshot "tank/data@auto_daily_20240101",
          newSnapshot "tank/data@auto_daily_20240102"].filter (keepSnapshot "tank/data"),
        snapshotNamePatternMatchString s.Name = true) ∧
      (ListSnapshotsForFilesystem "tank/data"
          ⟨[newSnapshot "tank/data"],
            [newSnapshot "tank/data@manual-backup", newSnapshot "tank/data@auto_daily_20240101",
              newSnapshot "tank/data@auto_daily_20240102"], [], []⟩).1 =
        (ListSnapshotsForFilesystem "tank/data"
          (World.withoutForeign ⟨[newSnapshot "tank/data"],
            [newSnapshot "tank/data@manual-backup", newSnapshot "tank/data@auto_daily_20240101",
              newSnapshot "tank/data@auto_daily_20240102"], [], []⟩)).1 ∧
      ∃ out, processFilesystem ⟨738887⟩ ⟨"tank/data", 1, 0, 0⟩
          ⟨[newSnapshot "tank/data"],
            [newSnapshot "tank/data@manual-backup", newSnapshot "tank/data@auto_daily_20240101",
              newSnapshot "tank/data@auto_daily_20240102"], [], []⟩ = some out ∧
        (∀ c ∈ callsSince ⟨[newSnapshot "tank/data"],
            [newSnapshot "tank/data@manual-backup", newSnapshot "tank/data@auto_daily_20240101",
              newSnapshot "tank/data@auto_daily_20240102"], [], []⟩ out.2,
          c.isDelete = true → snapshotNamePatternMatchString c.target = true) ∧
        (∀ s ∈ [newSnapshot "tank/data@manual-backup",
            newSnapshot "tank/data@auto_daily_20240101",
            newSnapshot "tank/data@auto_daily_20240102"],
          snapshotNamePatternMatchString s.Name = false → s ∈ out.2.snapshots)) ∧
    processFilesystem ⟨738887⟩ ⟨"tank/data", 1, 0, 0⟩
        ⟨[newSnapshot "tank/data"],
          [newSnapshot "tank/data@manual-backup", newSnapshot "tank/data@auto_daily_20240101",
            newSnapshot "tank/data@auto_daily_20240102"], [], []⟩ =
      some (.ok (), ⟨[newSnapshot "tank/data"],
        [newSnapshot "tank/data@manual-backup", newSnapshot "tank/data@auto_daily_20240103"], [],
        [Call.create "tank/data" "auto_daily_20240103" true,
          Call.delete "tank/data" "auto_daily_20240101" true,
          Call.delete "tank/data" "auto_daily_20240102" true]⟩) :=
  ⟨foreign_snapshots_invisible ⟨738887⟩ ⟨"tank/data", 1, 0, 0⟩
      ⟨[newSnapshot "tank/data"],
        [newSnapshot "tank/data@manual-backup", newSnapshot "tank/data@auto_daily_20240101",
          newSnapshot "tank/data@auto_daily_20240102"], [], []⟩ (by decide),
    by decide⟩

/-- C8, at a failing input.  The volume `tank` keeps 3 weekly snapshots and has those of
weeks 50, 51 and 52 of 2023, with the labels `auto_weekly_202350` to `auto_weekly_202352`.
On 3 January 2024, in week 1, the canonical weekly label is `auto_weekly_20241`.  The run
creates that snapshot; the weekly cleanup then counts four, and destroys the one with the
smallest trailing number, which is the one just created, since 20241 is below 202350.  The
run returns nil.  A second run at the same instant on the resulting state issues the same
`CreateSnapshot` call again. -/
theorem second_run_creates_again :
    (getSnapshotNamesForFilesystem ⟨738887⟩ =
      ("auto_daily_20240103", "auto_weekly_20241", "auto_monthly_202401")) ∧
    processFilesystem ⟨738887⟩ ⟨"tank", 0, 3, 0⟩
        ⟨[newSnapshot "tank"],
          [newSnapshot "tank@auto_weekly_202350", newSnapshot "tank@auto_weekly_202351",
            newSnapshot "tank@auto_weekly_202352"], [], []⟩ =
      some (.ok (), ⟨[newSnapshot "tank"],
        [newSnapshot "tank@auto_weekly_202350", newSnapshot "tank@auto_weekly_202351",
          newSnapshot "tank@auto_weekly_202352"], [],
        [Call.create "tank" "auto_weekly_20241" true,
          Call.delete "tank" "auto_weekly_20241" true]⟩) ∧
    processFilesystem ⟨738887⟩ ⟨"tank", 0, 3, 0⟩
        ⟨[newSnapshot "tank"],
          [newSnapshot "tank@auto_weekly_202350", newSnapshot "tank@auto_weekly_202351",
            newSnapshot "tank@auto_weekly_202352"], [],
          [Call.create "tank" "auto_weekly_20241" true,
            Call.delete "tank" "auto_weekly_20241" true]⟩ =
      some (.ok (), ⟨[newSnapshot "tank"],
        [newSnapshot "tank@auto_weekly_202350", newSnapshot "tank@auto_weekly_202351",
          newSnapshot "tank@auto_weekly_202352"], [],
        [Call.create "tank" "auto_weekly_20241" true,
          Call.delete "tank" "auto_weekly_20241" true,
          Call.create "tank" "auto_weekly_20241" true,
          Call.delete "tank" "auto_weekly_20241" true]⟩) := by
  decide

/-- C13.  With the volume `tank/data` listed, the policy 2 daily, 0 weekly, 0 monthly, the
provider's snapshots exactly `tank/data@auto_daily_20240101` and
`tank/data@auto_daily_20240102`, no failing command, and the clock at 3 January 2024:
the labels of the day are as expected, `processFilesystem` returns nil, the calls it
issues are the creation of `tank/data@auto_daily_20240103` followed by the destruction of
`tank/data@auto_daily_20240101`, and the snapshots left are those of 2 and 3 January. -/
theorem scenario_tank_data :
    (⟨738887⟩ : Time).format20060102 = "20240103" ∧
    processFilesystem ⟨738887⟩ ⟨"tank/data", 2, 0, 0⟩
        ⟨[newSnapshot "tank/data"],
          [newSnapshot "tank/data@auto_daily_20240101",
            newSnapshot "tank/data@auto_daily_20240102"], [], []⟩ =
      some (.ok (), ⟨[newSnapshot "tank/data"],
        [newSnapshot "tank/data@auto_daily_20240102",
          newSnapshot "tank/data@auto_daily_20240103"], [],
        [Call.create "tank/data" "auto_daily_20240103" true,
          Call.delete "tank/data" "auto_daily_20240101" true]⟩) := by
  decide

/-- C11, at a failing input.  27 December 2023 lies in week 52 of 2023 and 3 January 2024
in week 1 of 2024, a later week.  The weekly labels are `auto_weekly_202352` and
`auto_weekly_20241`, and the trailing integer of the earlier week, 202352, is larger than
that of the later week, 20241. -/
theorem weekly_key_decreases_over_new_year :
    (⟨738880⟩ : Time).format20060102 = "20231227" ∧ (⟨738880⟩ : Time).ISOWeek = (2023, 52) ∧
    (⟨738887⟩ : Time).format20060102 = "20240103" ∧ (⟨738887⟩ : Time).ISOWeek = (2024, 1) ∧
    (getSnapshotNamesForFilesystem ⟨738880⟩).2.1 = "auto_weekly_202352" ∧
    (getSnapshotNamesForFilesystem ⟨738887⟩).2.1 = "auto_weekly_20241" ∧
    periodKey ("tank@" ++ (getSnapshotNamesForFilesystem ⟨738880⟩).2.1) = some 202352 ∧
    periodKey ("tank@" ++ (getSnapshotNamesForFilesystem ⟨738887⟩).2.1) = some 20241 ∧
    ¬ (202352 < 20241) := by
  decide

theorem matchesHere_head (t : List Char) (h : matchesHere t = true) : ∃ rest, t = '@' :: rest := by
  unfold matchesHere at h
  rw [List.any_eq_true] at h
  obtain ⟨tier, _, ht⟩ := h
  simp only [Bool.and_eq_true] at ht
  have hp := List.isPrefixOf_iff_prefix.1 ht.1.1
  obtain ⟨r, hr⟩ := hp
  exact ⟨['a', 'u', 't', 'o', '_'] ++ tier.data ++ ['_'] ++ r, by rw [← hr]; rfl⟩

theorem pattern_has_at (s : String) (h : snapshotNamePatternMatchString s = true) :
    1 ≤ s.data.count '@' := by
  unfold snapshotNamePatternMatchString at h
  rw [List.any_eq_true] at h
  obtain ⟨t, ht, hm⟩ := h
  obtain ⟨rest, rfl⟩ := matchesHere_head t hm
  have hsub : ('@' :: rest) <:+ s.data := (List.mem_tails _ _).1 ht
  exact List.count_pos_iff.2 (hsub.subset (List.mem_cons_self _ _))

theorem stringsSplit_parts (name : String) (h : 1 ≤ name.data.count '@') :
    ∃ n0 n1, (stringsSplit name '@')[0]? = some n0 ∧ (stringsSplit name '@')[1]? = some n1 := by
  have hlen : 2 ≤ (stringsSplit name '@').length := by
    unfold stringsSplit
    rw [List.length_map, splitChars_length]
    omega
  exact ⟨_, _, List.getElem?_eq_getElem (by omega), List.getElem?_eq_getElem (by omega)⟩

/-- The loop does not panic on a listing each of whose names contains `@`. -/
theorem cleanupLoop_no_panic (tier : String) (number : Int) (fuel : Nat) (n : Int)
    (l : List Filesystem) (w : World) (hfuel : l.length < fuel)
    (hat : ∀ s ∈ l, 1 ≤ s.Name.data.count '@') :
    ∃ out, cleanupLoop tier number fuel n l w = some out ∧ out.1 ≠ .panic := by
  have key := cleanupLoop_induction tier number
    (fun _ l _ out => (∀ s ∈ l, 1 ≤ s.Name.data.count '@') → out.1 ≠ .panic)
    ?_ ?_ ?_ ?_ ?_ fuel n l w hfuel
  · obtain ⟨out, ho, hP⟩ := key
    exact ⟨out, ho, hP hat⟩
  · intro n l w _ _; simp
  · intro n l w _ _ _; simp
  · intro n l w j s k _ hp hsplit hat
    exfalso
    obtain ⟨n0, n1, h0, h1⟩ := stringsSplit_parts s.Name (hat s hp.mem)
    rcases hsplit with h | h
    · rw [h0] at h; cases h
    · rw [h1] at h; cases h
  · intro n l w j s k n0 n1 e w1 _ _ _ _ _ _; simp
  · intro n l w j s k n0 n1 w1 out _ _ _ _ _ hP hat
    exact hP (fun x hx => hat x (List.mem_of_mem_eraseIdx hx))

theorem cleanupSnapshotForFilesystem_no_panic (tier : String) (number : Int) (name : String)
    (w : World) :
    ∃ out, cleanupSnapshotForFilesystem tier number name w = some out ∧ out.1 ≠ .panic := by
  rw [cleanupSnapshotForFilesystem_eq]
  by_cases h : w.command.1 = true
  · rw [if_pos h]
    exact ⟨_, rfl, by simp⟩
  · rw [if_neg h]
    exact cleanupLoop_no_panic tier number _ _ _ _ (Nat.lt_succ_self _)
      (fun s hs => pattern_has_at s.Name (keepSnapshot_pattern name s (List.mem_filter.1 hs).2))

/-- C20.  The inner loop of a cleanup function returns its three variables for every
listing, so `parts[len(parts)-1]` is always in bounds; and each cleanup function, which
works on the listing `ListSnapshotsForFilesystem` returns, returns without a panic:
`n[0]`, `n[1]` and the two slices of the listing are in bounds in every iteration. -/
theorem cleanup_index_safety :
    (∀ (tier : String) (l : List Filesystem) (i : Int) (o : Oldest),
      ∃ o', scanOldest tier l i o = .ok o') ∧
    (∀ (T : Tier) (cfg : FilesystemSnapshotConfig) (w : World),
      ∃ out, cleanupForTier T cfg w = some out ∧ out.1 ≠ .panic) := by
  constructor
  · intro tier l i o
    obtain ⟨o', ho', _⟩ := scanOldest_spec tier l i o
    exact ⟨o', ho'⟩
  · intro T cfg w
    rw [cleanupForTier_eq]
    exact cleanupSnapshotForFilesystem_no_panic T.substring (T.number cfg) cfg.Name w

/-- One iteration of the loop, spelled out: the loop condition fails; or nothing can be
selected and the loop returns nil; or the first snapshot with the smallest key is
selected, `DeleteSnapshot` is called for the two parts of its name, and on success the
loop goes on with that snapshot removed from the working listing. -/
theorem cleanupLoop_iteration (tier : String) (number : Int) (n : Int) (l : List Filesystem)
    (w : World) :
    ∃ o, scanOldest tier l 0 ⟨"", 18446744073709551615, -1⟩ = .ok o ∧
      ((¬ n > number ∧ ∀ fuel, cleanupLoop tier number fuel n l w = some (.ok (), w)) ∨
       (n > number ∧ o.oldestIdx = -1 ∧
          (∀ s ∈ l, ∀ k, Candidate tier s k → 18446744073709551615 ≤ k) ∧
          ∀ fuel, cleanupLoop tier number (fuel + 1) n l w = some (.ok (), w)) ∨
       (n > number ∧ ∃ (j : Nat) (s : Filesystem), Picked tier l j s o.oldestDate ∧
          o.oldestIdx = (j : Int) ∧ o.oldestName = s.Name ∧
          ∀ fuel, cleanupLoop tier number (fuel + 1) n l w =
            match (stringsSplit s.Name '@')[0]?, (stringsSplit s.Name '@')[1]? with
            | some n0, some n1 =>
              andThen (DeleteSnapshot n0 n1 w)
                (fun w1 => cleanupLoop tier number fuel (n - 1) (l.eraseIdx j) w1)
            | _, _ => some (.panic, w))) := by
  obtain ⟨o', ho', hcase⟩ := scanOldest_spec tier l 0 ⟨"", 18446744073709551615, -1⟩
  refine ⟨o', ho', ?_⟩
  by_cases hn : n > number
  · right
    rcases hcase with ⟨rfl, hall⟩ | ⟨j, hj, hidx, hname, hcand, hlt, hmin, hfirst⟩
    · left
      refine ⟨hn, rfl, hall, ?_⟩
      intro fuel
      unfold cleanupLoop
      rw [if_pos hn, ho']
      simp
    · right
      have hpick : Picked tier l j (l.get ⟨j, hj⟩) o'.oldestDate := by
        refine ⟨by simp [List.getElem?_eq_getElem hj], hcand, hlt, hmin, ?_⟩
        intro j' s' k' hjj hs' hk'
        have hj' : j' < l.length := lt_trans hjj hj
        rw [List.getElem?_eq_getElem hj'] at hs'
        simp only [Option.some.injEq] at hs'
        subst hs'
        exact hfirst j' hj' hjj k' hk'
      refine ⟨hn, j, l.get ⟨j, hj⟩, hpick, by simpa using hidx, hname, ?_⟩
      intro fuel
      have hne : ¬ o'.oldestIdx = -1 := by rw [hidx]; omega
      have hbound : 0 ≤ o'.oldestIdx ∧ o'.oldestIdx + 1 ≤ (l.length : Int) := by
        rw [hidx]; omega
      have htoNat : o'.oldestIdx.toNat = j := by rw [hidx]; simp
      rw [cleanupLoop, if_pos hn, ho']
      simp only [hne, if_false]
      rw [hname]
      cases h0 : (stringsSplit (l.get ⟨j, hj⟩).Name '@')[0]? with
      | none => simp
      | some n0 =>
        cases h1 : (stringsSplit (l.get ⟨j, hj⟩).Name '@')[1]? with
        | none => simp
        | some n1 =>
          simp only
          cases hd : DeleteSnapshot n0 n1 w with
          | mk r w1 =>
            cases r with
            | panic => simp [andThen]
            | error e => simp [andThen]
            | ok u =>
              cases u
              simp only [hbound, and_self, if_true, htoNat, andThen]
              rw [← List.eraseIdx_eq_take_drop_succ]
  · left
    refine ⟨hn, ?_⟩
    intro fuel
    cases fuel with
    | zero => unfold cleanupLoop; rw [if_neg hn]
    | succ f => unfold cleanupLoop; rw [if_neg hn]

/-- First encountered, among the snapshots the code takes for the tier (those whose full
name contains the substring).  In an iteration of a cleanup loop (the loop condition
`n > number` holds), either no snapshot of the listing has the substring and a trailing
segment that parses below the starting value of `oldestDate`, the inner loop selects
nothing and the loop returns nil; or the inner loop selects a snapshot with the substring
whose period key is the smallest in the current listing, every such snapshot at a smaller
index has a strictly larger key (so among those sharing the smallest key it is the first
in listing order), and the iteration calls `DeleteSnapshot` for the two parts of its name
and, on success, goes on with the listing without that index. -/
theorem first_smallest_selected (tier : String) (number : Int) (fuel : Nat) (n : Int)
    (l : List Filesystem) (w : World) (hn : n > number) :
    ∃ o, scanOldest tier l 0 ⟨"", 18446744073709551615, -1⟩ = .ok o ∧
      ((o.oldestIdx = -1 ∧
          (∀ s ∈ l, ∀ k, Candidate tier s k → 18446744073709551615 ≤ k) ∧
          cleanupLoop tier number (fuel + 1) n l w = some (.ok (), w)) ∨
       ∃ (j : Nat) (s : Filesystem), o.oldestIdx = (j : Int) ∧ l[j]? = some s ∧
          o.oldestName = s.Name ∧ Candidate tier s o.oldestDate ∧
          (∀ s' ∈ l, ∀ k', Candidate tier s' k' → o.oldestDate ≤ k') ∧
          (∀ (j' : Nat) (s' : Filesystem) (k' : Nat),
            j' < j → l[j']? = some s' → Candidate tier s' k' → o.oldestDate < k') ∧
          cleanupLoop tier number (fuel + 1) n l w =
            match (stringsSplit s.Name '@')[0]?, (stringsSplit s.Name '@')[1]? with
            | some n0, some n1 =>
              andThen (DeleteSnapshot n0 n1 w)
                (fun w1 => cleanupLoop tier number fuel (n - 1) (l.eraseIdx j) w1)
            | _, _ => some (.panic, w)) := by
  obtain ⟨o, ho, hcase⟩ := cleanupLoop_iteration tier number n l w
  refine ⟨o, ho, ?_⟩
  rcases hcase with ⟨h, _⟩ | ⟨_, hidx, hall, hloop⟩ | ⟨_, j, s, hp, hidx, hname, hloop⟩
  · exact absurd hn h
  · exact Or.inl ⟨hidx, hall, hloop fuel⟩
  · exact Or.inr ⟨j, s, hidx, hp.1, hname, hp.2.1, hp.2.2.2.1, hp.2.2.2.2, hloop fuel⟩

/-- The keys 20240105, 20240103, 20240103 with retention 2: the second snapshot, the first
of the two with the smallest key, is the one selected. -/
theorem first_smallest_selected_example :
    (∃ o, scanOldest "_daily_" [newSnapshot "tank@auto_daily_20240105",
          ⟨"tank@auto_daily_20240103", "a", "", "", "", ""⟩,
          ⟨"tank@auto_daily_20240103", "b", "", "", "", ""⟩] 0 ⟨"", 18446744073709551615, -1⟩ = .ok o ∧
      ((o.oldestIdx = -1 ∧
          (∀ s ∈ [newSnapshot "tank@auto_daily_20240105",
          ⟨"tank@auto_daily_20240103", "a", "", "", "", ""⟩,
          ⟨"tank@auto_daily_20240103", "b", "", "", "", ""⟩],
            ∀ k, Candidate "_daily_" s k → 18446744073709551615 ≤ k) ∧
          cleanupLoop "_daily_" 2 (3 + 1) 3 [newSnapshot "tank@auto_daily_20240105",
          ⟨"tank@auto_daily_20240103", "a", "", "", "", ""⟩,
          ⟨"tank@auto_daily_20240103", "b", "", "", "", ""⟩]
          ⟨[newSnapshot "tank"], [newSnapshot "tank@auto_daily_20240105",
          ⟨"tank@auto_daily_20240103", "a", "", "", "", ""⟩,
          ⟨"tank@auto_daily_20240103", "b", "", "", "", ""⟩], [], []⟩ =
          some (.ok (), ⟨[newSnapshot "tank"], [newSnapshot "tank@auto_daily_20240105",
          ⟨"tank@auto_daily_20240103", "a", "", "", "", ""⟩,
          ⟨"tank@auto_daily_20240103", "b", "", "", "", ""⟩], [], []⟩)) ∨
       ∃ (j : Nat) (s : Filesystem), o.oldestIdx = (j : Int) ∧
          ([newSnapshot "tank@auto_daily_20240105",
          ⟨"tank@auto_daily_20240103", "a", "", "", "", ""⟩,
          ⟨"tank@auto_daily_20240103", "b", "", "", "", ""⟩])[j]? = some s ∧
          o.oldestName = s.Name ∧ Candidate "_daily_" s o.oldestDate ∧
          (∀ s' ∈ [newSnapshot "tank@auto_daily_20240105",
          ⟨"tank@auto_daily_20240103", "a", "", "", "", ""⟩,
          ⟨"tank@auto_daily_20240103", "b", "", "", "", ""⟩],
            ∀ k', Candidate "_daily_" s' k' → o.oldestDate ≤ k') ∧
          (∀ (j' : Nat) (s' : Filesystem) (k' : Nat),
            j' < j → ([newSnapshot "tank@auto_daily_20240105",
          ⟨"tank@auto_daily_20240103", "a", "", "", "", ""⟩,
          ⟨"tank@auto_daily_20240103", "b", "", "", "", ""⟩])[j']? = some s' →
              Candidate "_daily_" s' k' → o.oldestDate < k') ∧
          cleanupLoop "_daily_" 2 (3 + 1) 3 [newSnapshot "tank@auto_daily_20240105",
          ⟨"tank@auto_daily_20240103", "a", "", "", "", ""⟩,
          ⟨"tank@auto_daily_20240103", "b", "", "", "", ""⟩]
              ⟨[newSnapshot "tank"], [newSnapshot "tank@auto_daily_20240105",
          ⟨"tank@auto_daily_20240103", "a", "", "", "", ""⟩,
          ⟨"tank@auto_daily_20240103", "b", "", "", "", ""⟩], [], []⟩ =
            match (stringsSplit s.Name '@')[0]?, (stringsSplit s.Name '@')[1]? with
            | some n0, some n1 =>
              andThen (DeleteSnapshot n0 n1
                ⟨[newSnapshot "tank"], [newSnapshot "tank@auto_daily_20240105",
          ⟨"tank@auto_daily_20240103", "a", "", "", "", ""⟩,
          ⟨"tank@auto_daily_20240103", "b", "", "", "", ""⟩], [], []⟩)
                (fun w1 => cleanupLoop "_daily_" 2 3 (3 - 1)
                  (([newSnapshot "tank@auto_daily_20240105",
          ⟨"tank@auto_daily_20240103", "a", "", "", "", ""⟩,
          ⟨"tank@auto_daily_20240103", "b", "", "", "", ""⟩]).eraseIdx j) w1)
            | _, _ => some (.panic, ⟨[newSnapshot "tank"], [newSnapshot "tank@auto_daily_20240105",
          ⟨"tank@auto_daily_20240103", "a", "", "", "", ""⟩,
          ⟨"tank@auto_daily_20240103", "b", "", "", "", ""⟩], [], []⟩))) ∧
    scanOldest "_daily_" [newSnapshot "tank@auto_daily_20240105",
          ⟨"tank@auto_daily_20240103", "a", "", "", "", ""⟩,
          ⟨"tank@auto_daily_20240103", "b", "", "", "", ""⟩] 0 ⟨"", 18446744073709551615, -1⟩ =
      .ok ⟨"tank@auto_daily_20240103", 20240103, 1⟩ :=
  ⟨first_smallest_selected "_daily_" 2 3 3 [newSnapshot "tank@auto_daily_20240105",
          ⟨"tank@auto_daily_20240103", "a", "", "", "", ""⟩,
          ⟨"tank@auto_daily_20240103", "b", "", "", "", ""⟩]
      ⟨[newSnapshot "tank"], [newSnapshot "tank@auto_daily_20240105",
          ⟨"tank@auto_daily_20240103", "a", "", "", "", ""⟩,
          ⟨"tank@auto_daily_20240103", "b", "", "", "", ""⟩], [], []⟩ (by decide),
    by decide⟩

/-- An iteration of the loop either returns, with the same result whatever fuel is left,
or goes on with one snapshot of the tier removed from the working listing. -/
theorem cleanupLoop_step (tier : String) (number : Int) (n : Int) (l : List Filesystem)
    (w : World) :
    (∃ out, (∀ fuel, cleanupLoop tier number (fuel + 1) n l w = some out) ∧
        (¬ n > number → cleanupLoop tier number 0 n l w = some out)) ∨
      (n > number ∧ ∃ (j : Nat) (s : Filesystem) (k : Nat) (w1 : World), Picked tier l j s k ∧
        ∀ fuel, cleanupLoop tier number (fuel + 1) n l w =
          cleanupLoop tier number fuel (n - 1) (l.eraseIdx j) w1) := by
  obtain ⟨o, _, hcase⟩ := cleanupLoop_iteration tier number n l w
  rcases hcase with ⟨hn, hloop⟩ | ⟨hn, _, _, hloop⟩ | ⟨hn, j, s, hp, _, _, hloop⟩
  · exact Or.inl ⟨_, fun fuel => hloop (fuel + 1), fun _ => hloop 0⟩
  · exact Or.inl ⟨_, hloop, fun h => absurd hn h⟩
  · cases h0 : (stringsSplit s.Name '@')[0]? with
    | none =>
      refine Or.inl ⟨(.panic, w), fun fuel => ?_, fun h => absurd hn h⟩
      rw [hloop fuel, h0]
    | some n0 =>
      cases h1 : (stringsSplit s.Name '@')[1]? with
      | none =>
        refine Or.inl ⟨(.panic, w), fun fuel => ?_, fun h => absurd hn h⟩
        rw [hloop fuel, h0, h1]
      | some n1 =>
        rcases hd : DeleteSnapshot n0 n1 w with ⟨r, w1⟩
        cases r with
        | panic =>
          refine Or.inl ⟨(.panic, w1), fun fuel => ?_, fun h => absurd hn h⟩
          rw [hloop fuel, h0, h1]
          simp only [hd, andThen]
        | error e =>
          refine Or.inl ⟨(.error e, w1), fun fuel => ?_, fun h => absurd hn h⟩
          rw [hloop fuel, h0, h1]
          simp only [hd, andThen]
        | ok u =>
          cases u
          refine Or.inr ⟨hn, j, s, _, w1, hp, fun fuel => ?_⟩
          rw [hloop fuel, h0, h1]
          simp only [hd, andThen]

theorem cleanupLoop_returns_of_count (tier : String) (number : Int) (fuel : Nat) :
    ∀ (n : Int) (l : List Filesystem) (w : World),
      l.countP (fun s => stringsContains s.Name tier) < fuel →
      ∃ out, cleanupLoop tier number fuel n l w = some out := by
  induction fuel with
  | zero => intro n l w h; simp at h
  | succ fuel ih =>
    intro n l w h
    rcases cleanupLoop_step tier number n l w with ⟨out, ho, _⟩ | ⟨_, j, s, k, w1, hp, hloop⟩
    · exact ⟨out, ho fuel⟩
    · rw [hloop fuel]
      apply ih
      have := countP_eraseIdx_of_pos (fun s => stringsContains s.Name tier) l j s hp.1 hp.2.1.1
      omega

theorem cleanupLoop_returns_of_excess (tier : String) (number : Int) (fuel : Nat) :
    ∀ (n : Int) (l : List Filesystem) (w : World), n - number ≤ (fuel : Int) →
      ∃ out, cleanupLoop tier number fuel n l w = some out := by
  induction fuel with
  | zero =>
    intro n l w h
    rcases cleanupLoop_step tier number n l w with ⟨out, _, ho⟩ | ⟨hn, _⟩
    · exact ⟨out, ho (by simp at h; omega)⟩
    · simp at h; omega
  | succ fuel ih =>
    intro n l w h
    rcases cleanupLoop_step tier number n l w with ⟨out, ho, _⟩ | ⟨_, j, s, k, w1, hp, hloop⟩
    · exact ⟨out, ho fuel⟩
    · rw [hloop fuel]
      apply ih
      push_cast at h
      omega

/-- C19, as the claim states it, fails.  With retention count -1 and a listing of one
daily snapshot, one iteration of the loop is not enough: the first iteration destroys the
snapshot, the count 0 is still above -1, and a second iteration finds nothing to select
and returns. -/
theorem two_iterations_for_one_snapshot :
    [newSnapshot "tank@auto_daily_20240101"].countP
        (fun s => stringsContains s.Name "_daily_") = 1 ∧
    cleanupLoop "_daily_" (-1) 1 1 [newSnapshot "tank@auto_daily_20240101"]
        ⟨[newSnapshot "tank"], [newSnapshot "tank@auto_daily_20240101"], [], []⟩ = none ∧
    cleanupLoop "_daily_" (-1) 2 1 [newSnapshot "tank@auto_daily_20240101"]
        ⟨[newSnapshot "tank"], [newSnapshot "tank@auto_daily_20240101"], [], []⟩ =
      some (.ok (), ⟨[newSnapshot "tank"], [], [],
        [Call.delete "tank" "auto_daily_20240101" true]⟩) := by
  decide

/-- C19, amended.  For every listing, every retention count (negative ones included),
every count `n` and every state of the provider (so every pattern of `DeleteSnapshot`
successes and failures): an iteration of the loop either returns or goes on with a
working listing that is one shorter and has one snapshot of the tier fewer; the loop
returns within one iteration more than there are snapshots of the tier in the listing,
and within `max 0 (n - number)` iterations; so, started as the cleanup functions start
it, with `n` the number of snapshots of the tier, it returns within that number of
iterations when the retention count is not negative.  The cleanup functions
themselves always return. -/
theorem cleanup_loop_terminates (tier : String) (number : Int) (n : Int) (l : List Filesystem)
    (w : World) :
    ((∃ out, ∀ fuel, cleanupLoop tier number (fuel + 1) n l w = some out) ∨
      ∃ (l' : List Filesystem) (w1 : World),
        (∀ fuel, cleanupLoop tier number (fuel + 1) n l w =
          cleanupLoop tier number fuel (n - 1) l' w1) ∧
        l'.length + 1 = l.length ∧
        l'.countP (fun s => stringsContains s.Name tier) + 1 =
          l.countP (fun s => stringsContains s.Name tier)) ∧
    (∃ out, cleanupLoop tier number (l.countP (fun s => stringsContains s.Name tier) + 1)
      n l w = some out) ∧
    (∃ out, cleanupLoop tier number (n - number).toNat n l w = some out) ∧
    (0 ≤ number →
      ∃ out, cleanupLoop tier number (l.countP (fun s => stringsContains s.Name tier))
        ((l.countP (fun s => stringsContains s.Name tier) : Nat) : Int) l w = some out) ∧
    (∀ (T : Tier) (cfg : FilesystemSnapshotConfig) (w' : World),
      ∃ out, cleanupForTier T cfg w' = some out) := by
  refine ⟨?_, ?_, ?_, ?_, ?_⟩
  · rcases cleanupLoop_step tier number n l w with ⟨out, ho, _⟩ | ⟨_, j, s, k, w1, hp, hloop⟩
    · exact Or.inl ⟨out, ho⟩
    · refine Or.inr ⟨l.eraseIdx j, w1, hloop, ?_,
        countP_eraseIdx_of_pos (fun s => stringsContains s.Name tier) l j s hp.1 hp.2.1.1⟩
      have hj : j < l.length := by
        by_contra hge
        have := hp.1
        rw [List.getElem?_eq_none_iff.2 (by omega)] at this
        cases this
      rw [List.length_eraseIdx, if_pos hj]
      omega
  · exact cleanupLoop_returns_of_count tier number _ n l w (Nat.lt_succ_self _)
  · exact cleanupLoop_returns_of_excess tier number _ n l w (by omega)
  · intro hnum
    exact cleanupLoop_returns_of_excess tier number _ _ l w (by omega)
  · intro T cfg w'
    obtain ⟨out, ho, _⟩ := cleanupSnapshotForFilesystem_no_panic T.substring (T.number cfg)
      cfg.Name w'
    rw [cleanupForTier_eq]
    exact ⟨out, ho⟩

theorem selectable_iff (tier : String) (s : Filesystem) :
    selectable tier s = true ↔ ∃ k, Candidate tier s k ∧ k < 18446744073709551615 := by
  unfold selectable Candidate
  cases h : periodKey s.Name with
  | none => simp
  | some k =>
    simp only [Bool.and_eq_true, decide_eq_true_eq, Option.some.injEq]
    constructor
    · rintro ⟨h1, h2⟩
      exact ⟨k, ⟨h1, rfl⟩, h2⟩
    · rintro ⟨k', ⟨h1, rfl⟩, h2⟩
      exact ⟨h1, h2⟩

/-- The number of `DeleteSnapshot` calls of a run of the loop in which no call fails: one
for each selectable snapshot, until the count is down to the retention count. -/
theorem cleanupLoop_calls_count (tier : String) (number : Int) (fuel : Nat) (n : Int)
    (l : List Filesystem) (w : World) (hfuel : l.length < fuel) :
    ∃ out, cleanupLoop tier number fuel n l w = some out ∧
      ∃ calls, out.2.trace = w.trace ++ calls ∧
        (out.1 = .ok () →
          calls.length = min (l.countP (selectable tier)) (n - number).toNat) := by
  refine cleanupLoop_induction tier number
    (fun n l w out => ∃ calls, out.2.trace = w.trace ++ calls ∧
        (out.1 = .ok () →
          calls.length = min (l.countP (selectable tier)) (n - number).toNat))
    ?_ ?_ ?_ ?_ ?_ fuel n l w hfuel
  · intro n l w hn
    refine ⟨[], by simp, fun _ => ?_⟩
    have : (n - number).toNat = 0 := by omega
    simp [this]
  · intro n l w _ hall
    refine ⟨[], by simp, fun _ => ?_⟩
    have : l.countP (selectable tier) = 0 := by
      rw [List.countP_eq_zero]
      intro s hs hsel
      obtain ⟨k, hk, hlt⟩ := (selectable_iff tier s).1 hsel
      have := hall s hs k hk
      omega
    simp [this]
  · intro n l w j s k _ _ _
    exact ⟨[], by simp, fun h => by simp at h⟩
  · intro n l w j s k n0 n1 e w1 _ _ _ _ hd
    obtain ⟨_, _, ht, _⟩ := DeleteSnapshot_error n0 n1 e w w1 hd
    exact ⟨_, ht, fun h => by simp at h⟩
  · intro n l w j s k n0 n1 w1 out hn hp _ _ hd hP
    obtain ⟨_, _, ht, _, _⟩ := DeleteSnapshot_ok n0 n1 w w1 hd
    obtain ⟨calls, htr, hlen⟩ := hP
    refine ⟨Call.delete n0 n1 true :: calls, by rw [htr, ht]; simp, fun hok => ?_⟩
    have hsel : selectable tier s = true := (selectable_iff tier s).2 ⟨k, hp.2.1, hp.2.2.1⟩
    have hc := countP_eraseIdx_of_pos (selectable tier) l j s hp.1 hsel
    have := hlen hok
    simp only [List.length_cons, this]
    omega

/-- With well-formed names every `DeleteSnapshot` call of the loop is for a snapshot of
the working listing whose period key parses; and a snapshot no call is for stays. -/
theorem cleanupLoop_targets_key (tier : String) (number : Int) (fuel : Nat) (n : Int)
    (l : List Filesystem) (w : World) (hfuel : l.length < fuel)
    (hat : ∀ s ∈ l, s.Name.data.count '@' = 1) :
    ∃ out, cleanupLoop tier number fuel n l w = some out ∧
      ∃ calls, out.2.trace = w.trace ++ calls ∧
        (∀ c ∈ calls, ∃ s ∈ l, ∃ k, c.target = s.Name ∧ Candidate tier s k ∧
          k < 18446744073709551615) ∧
        (∀ x ∈ w.snapshots, (∀ c ∈ calls, c.target ≠ x.Name) → x ∈ out.2.snapshots) := by
  have key := cleanupLoop_induction tier number
    (fun _ l w out => (∀ s ∈ l, s.Name.data.count '@' = 1) →
      ∃ calls, out.2.trace = w.trace ++ calls ∧
        (∀ c ∈ calls, ∃ s ∈ l, ∃ k, c.target = s.Name ∧ Candidate tier s k ∧
          k < 18446744073709551615) ∧
        (∀ x ∈ w.snapshots, (∀ c ∈ calls, c.target ≠ x.Name) → x ∈ out.2.snapshots))
    ?_ ?_ ?_ ?_ ?_ fuel n l w hfuel
  · obtain ⟨out, ho, hP⟩ := key
    exact ⟨out, ho, hP hat⟩
  · intro n l w _ _
    exact ⟨[], by simp, by simp, fun x hx _ => hx⟩
  · intro n l w _ _ _
    exact ⟨[], by simp, by simp, fun x hx _ => hx⟩
  · intro n l w j s k _ _ _ _
    exact ⟨[], by simp, by simp, fun x hx _ => hx⟩
  · intro n l w j s k n0 n1 e w1 _ hp h0 h1 hd hat
    obtain ⟨hs, _, ht, _⟩ := DeleteSnapshot_error n0 n1 e w w1 hd
    have hname := stringsSplit_two s.Name n0 n1 (hat s hp.mem) h0 h1
    refine ⟨_, ht, ?_, fun x hx _ => by rw [hs]; exact hx⟩
    intro c hc
    simp only [List.mem_singleton] at hc
    subst hc
    exact ⟨s, hp.mem, k, hname, hp.2.1, hp.2.2.1⟩
  · intro n l w j s k n0 n1 w1 out _ hp h0 h1 hd hP hat
    obtain ⟨hs, _, ht, _, _⟩ := DeleteSnapshot_ok n0 n1 w w1 hd
    have hname := stringsSplit_two s.Name n0 n1 (hat s hp.mem) h0 h1
    obtain ⟨calls, htr, hcalls, hstay⟩ := hP (fun x hx => hat x (List.mem_of_mem_eraseIdx hx))
    refine ⟨Call.delete n0 n1 true :: calls, by rw [htr, ht]; simp, ?_, ?_⟩
    · intro c hc
      rcases List.mem_cons.1 hc with rfl | hc
      · exact ⟨s, hp.mem, k, hname, hp.2.1, hp.2.2.1⟩
      · obtain ⟨x, hx, k', h1', h2', h3'⟩ := hcalls c hc
        exact ⟨x, List.mem_of_mem_eraseIdx hx, k', h1', h2', h3'⟩
    · intro x hx hno
      apply hstay x
      · rw [hs, List.mem_filter]
        refine ⟨hx, ?_⟩
        have := hno (Call.delete n0 n1 true) (List.mem_cons_self _ _)
        simpa [Call.target] using fun h => this h.symm
      · intro c hc
        exact hno c (List.mem_cons_of_mem _ hc)

theorem cleanupLoop_nothing_selectable (tier : String) (number : Int) (fuel : Nat) (n : Int)
    (l : List Filesystem) (w : World) (hno : ∀ s ∈ l, ∀ k, ¬ Candidate tier s k) :
    cleanupLoop tier number (fuel + 1) n l w = some (.ok (), w) := by
  obtain ⟨o, _, hcase⟩ := cleanupLoop_iteration tier number n l w
  rcases hcase with ⟨_, hloop⟩ | ⟨_, _, _, hloop⟩ | ⟨_, j, s, hp, _⟩
  · exact hloop (fuel + 1)
  · exact hloop fuel
  · exact absurd hp.2.1 (hno s hp.mem _)

/-- C15.  In a cleanup pass of any tier over a well-named provider state: every name
passed to `DeleteSnapshot` has a trailing segment that parses, and a listed snapshot of
the tier whose trailing segment does not parse is still there after the pass; when the
pass returns nil it has issued one call for each snapshot it can select, until the total
is down to the retention count, where the total is the number of listed snapshots of the
tier, parseable or not; and when the listing succeeds and no listed snapshot of the tier
has a trailing segment that parses, the pass returns nil without a call, whatever the
total and the retention count. -/
theorem unparseable_skipped (T : Tier) (cfg : FilesystemSnapshotConfig) (w : World)
    (hw : w.wellNamed) :
    ∃ out, cleanupForTier T cfg w = some out ∧
      (∀ c ∈ callsSince w out.2, ∃ k, periodKey c.target = some k) ∧
      (∀ s ∈ tierSnapshots T.substring cfg.Name w, periodKey s.Name = none →
        s ∈ out.2.snapshots) ∧
      (out.1 = .ok () →
        (callsSince w out.2).length =
          min ((w.snapshots.filter (keepSnapshot cfg.Name)).countP (selectable T.substring))
            (((tierSnapshots T.substring cfg.Name w).length : Int) - T.number cfg).toNat) ∧
      (w.command.1 = false →
        (∀ s ∈ tierSnapshots T.substring cfg.Name w, periodKey s.Name = none) →
        out = (.ok (), w.command.2)) := by
  obtain ⟨hs, _, ht, _⟩ := command_fields w
  rw [cleanupForTier_eq, cleanupSnapshotForFilesystem_eq, tierSnapshots_length]
  by_cases h : w.command.1 = true
  · rw [if_pos h]
    refine ⟨_, rfl, ?_, fun s hx _ => ?_, fun hok => by simp at hok,
      fun hf => by rw [h] at hf; cases hf⟩
    · simp only
      rw [command_trace]
      simp
    · simp only
      rw [hs]
      unfold tierSnapshots at hx
      exact (List.mem_filter.1 (List.mem_filter.1 hx).1).1
  · rw [if_neg h]
    obtain ⟨out, ho, calls, h1, h2, h3⟩ :=
      cleanupLoop_targets_key T.substring (T.number cfg)
        ((w.snapshots.filter (keepSnapshot cfg.Name)).length + 1)
        (((w.snapshots.filter (keepSnapshot cfg.Name)).countP
          (fun snapshot => stringsContains snapshot.Name T.substring) : Nat) : Int)
        (w.snapshots.filter (keepSnapshot cfg.Name)) w.command.2 (Nat.lt_succ_self _)
        (fun s hx => hw.1 s (List.mem_filter.1 hx).1)
    obtain ⟨out', ho', calls', h1', h2'⟩ :=
      cleanupLoop_calls_count T.substring (T.number cfg)
        ((w.snapshots.filter (keepSnapshot cfg.Name)).length + 1)
        (((w.snapshots.filter (keepSnapshot cfg.Name)).countP
          (fun snapshot => stringsContains snapshot.Name T.substring) : Nat) : Int)
        (w.snapshots.filter (keepSnapshot cfg.Name)) w.command.2 (Nat.lt_succ_self _)
    rw [ho] at ho'
    cases ho'
    have hcalls : callsSince w out.2 = calls := callsSince_append w out.2 calls (by rw [h1, ht])
    have hcalls' : calls' = calls := List.append_cancel_left (h1'.symm.trans h1)
    refine ⟨out, ho, ?_, ?_, ?_, ?_⟩
    · rw [hcalls]
      intro c hc
      obtain ⟨s, _, k, hct, hcand, _⟩ := h2 c hc
      exact ⟨k, by rw [hct]; exact hcand.2⟩
    · intro s hx hnone
      unfold tierSnapshots at hx
      apply h3 s (by rw [hs]; exact (List.mem_filter.1 (List.mem_filter.1 hx).1).1)
      intro c hc heq
      obtain ⟨s', _, k, hct, hcand, _⟩ := h2 c hc
      rw [← heq, hct, hcand.2] at hnone
      cases hnone
    · intro hok
      rw [hcalls, ← hcalls']
      exact h2' hok
    · intro _ hall
      have := cleanupLoop_nothing_selectable T.substring (T.number cfg)
        (w.snapshots.filter (keepSnapshot cfg.Name)).length
        (((w.snapshots.filter (keepSnapshot cfg.Name)).countP
          (fun snapshot => stringsContains snapshot.Name T.substring) : Nat) : Int)
        (w.snapshots.filter (keepSnapshot cfg.Name)) w.command.2
        (by
          intro s hx k hcand
          have := hall s (by
            unfold tierSnapshots
            exact List.mem_filter.2 ⟨hx, hcand.1⟩)
          rw [hcand.2] at this
          cases this)
      rw [this] at ho
      cases ho
      rfl

/-- C15 on the volume `tank` with the daily snapshots `auto_daily_20240101` and
`auto_daily_18446744073709551616`, whose trailing segment is not an unsigned 64-bit
integer, and daily retention 0: the total is 2, the pass destroys the snapshot of 1
January and returns nil with the other one left. -/
theorem unparseable_skipped_witness :
    (∃ out, cleanupForTier .daily ⟨"tank", 0, 0, 0⟩
        ⟨[newSnapshot "tank"],
          [newSnapshot "tank@auto_daily_20240101",
            newSnapshot "tank@auto_daily_18446744073709551616"], [], []⟩ = some out ∧
      (∀ c ∈ callsSince ⟨[newSnapshot "tank"],
          [newSnapshot "tank@auto_daily_20240101",
            newSnapshot "tank@auto_daily_18446744073709551616"], [], []⟩ out.2, ∃ k, periodKey c.target = some k) ∧
      (∀ s ∈ tierSnapshots Tier.daily.substring "tank"
          ⟨[newSnapshot "tank"],
          [newSnapshot "tank@auto_daily_20240101",
            newSnapshot "tank@auto_daily_18446744073709551616"], [], []⟩,
        periodKey s.Name = none → s ∈ out.2.snapshots) ∧
      (out.1 = .ok () →
        (callsSince ⟨[newSnapshot "tank"],
          [newSnapshot "tank@auto_daily_20240101",
            newSnapshot "tank@auto_daily_18446744073709551616"], [], []⟩ out.2).length =
          min (([newSnapshot "tank@auto_daily_20240101",
              newSnapshot "tank@auto_daily_18446744073709551616"].filter
                (keepSnapshot "tank")).countP (selectable Tier.daily.substring))
            (((tierSnapshots Tier.daily.substring "tank"
              ⟨[newSnapshot "tank"],
          [newSnapshot "tank@auto_daily_20240101",
            newSnapshot "tank@auto_daily_18446744073709551616"], [], []⟩).length : Int) - Tier.number ⟨"tank", 0, 0, 0⟩ .daily).toNat) ∧
      ((World.command ⟨[newSnapshot "tank"],
          [newSnapshot "tank@auto_daily_20240101",
            newSnapshot "tank@auto_daily_18446744073709551616"], [], []⟩).1 = false →
        (∀ s ∈ tierSnapshots Tier.daily.substring "tank"
          ⟨[newSnapshot "tank"],
          [newSnapshot "tank@auto_daily_20240101",
            newSnapshot "tank@auto_daily_18446744073709551616"], [], []⟩,
          periodKey s.Name = none) →
        out = (.ok (), (World.command ⟨[newSnapshot "tank"],
          [newSnapshot "tank@auto_daily_20240101",
            newSnapshot "tank@auto_daily_18446744073709551616"], [], []⟩).2))) ∧
    cleanupForTier .daily ⟨"tank", 0, 0, 0⟩
        ⟨[newSnapshot "tank"],
          [newSnapshot "tank@auto_daily_20240101",
            newSnapshot "tank@auto_daily_18446744073709551616"], [], []⟩ =
      some (.ok (), ⟨[newSnapshot "tank"],
        [newSnapshot "tank@auto_daily_18446744073709551616"], [],
        [Call.delete "tank" "auto_daily_20240101" true]⟩) ∧
    (tierSnapshots Tier.daily.substring "tank"
        ⟨[newSnapshot "tank"],
          [newSnapshot "tank@auto_daily_20240101",
            newSnapshot "tank@auto_daily_18446744073709551616"], [], []⟩).length = 2 :=
  ⟨unparseable_skipped .daily ⟨"tank", 0, 0, 0⟩
      ⟨[newSnapshot "tank"],
          [newSnapshot "tank@auto_daily_20240101",
            newSnapshot "tank@auto_daily_18446744073709551616"], [], []⟩ (by decide),
    by decide, by decide⟩

theorem mem_dropLast_append {α : Type} (u1 u2 : List α) (x : α)
    (h : x ∈ (u1 ++ u2).dropLast) : x ∈ u1 ∨ x ∈ u2.dropLast := by
  cases u2 with
  | nil =>
    rw [List.append_nil] at h
    exact Or.inl (List.mem_of_mem_dropLast h)
  | cons y ys =>
    rw [List.dropLast_append_of_ne_nil _ (by simp)] at h
    exact List.mem_append.1 h

theorem FailFast.comp {ok : Bool} {a b c : World} (h1 : FailFast true a b)
    (h2 : FailFast ok b c) : FailFast ok a c := by
  obtain ⟨u1, c1, f1, t1, _, _, g1⟩ := h1
  obtain ⟨u2, c2, f2, t2, d2, e2, g2⟩ := h2
  obtain ⟨gu, gc⟩ := g1 rfl
  refine ⟨u1 ++ u2, c1 ++ c2, by rw [f1, f2, List.append_assoc],
    by rw [t2, t1, List.append_assoc], ?_, ?_, ?_⟩
  · intro x hx
    rcases mem_dropLast_append u1 u2 x hx with h | h
    · exact gu x h
    · exact d2 x h
  · intro x hx
    rcases mem_dropLast_append c1 c2 x hx with h | h
    · exact gc x h
    · exact e2 x h
  · intro hok
    obtain ⟨hu, hc⟩ := g2 hok
    constructor
    · intro x hx
      rcases List.mem_append.1 hx with h | h
      · exact gu x h
      · exact hu x h
    · intro x hx
      rcases List.mem_append.1 hx with h | h
      · exact gc x h
      · exact hc x h

theorem FailFast.refl (ok : Bool) (a : World) : FailFast ok a a :=
  ⟨[], [], by simp, by simp, by simp, by simp, fun _ => by simp⟩

/-- One command: it consumes at most one outcome, which is the flag it returns. -/
theorem FailFast.command (ok : Bool) (w : World) (h : ok = true → w.command.1 = false) :
    FailFast ok w w.command.2 := by
  obtain ⟨_, _, ht, _⟩ := command_fields w
  unfold World.command at h ⊢
  cases hf : w.faults with
  | nil =>
    simp only [hf]
    exact ⟨[], [], by simp [hf], by simp, by simp, by simp, fun _ => by simp⟩
  | cons x xs =>
    simp only [hf] at h ⊢
    exact ⟨[x], [], by simp [hf], by simp, by simp, by simp,
      fun hok => ⟨by simpa using h hok, by simp⟩⟩

/-- Logging one call at the end of a part of a run that logged none. -/
theorem FailFast.log (ok : Bool) (a b : World) (c : Call) (h : FailFast ok a b)
    (ht : b.trace = a.trace) (hc : ok = true → c.succeeded = true) :
    FailFast ok a (b.log c) := by
  obtain ⟨u, cs, f, _, d, _, g⟩ := h
  refine ⟨u, [c], by simpa [World.log] using f, by simp [World.log, ht], d, by simp, ?_⟩
  intro hok
  exact ⟨(g hok).1, by simpa using hc hok⟩

theorem DeleteSnapshot_failFast (fsName ssName : String) (w : World) :
    FailFast (DeleteSnapshot fsName ssName w).1.isOk w (DeleteSnapshot fsName ssName w).2 := by
  obtain ⟨_, _, ht, _⟩ := command_fields w
  unfold DeleteSnapshot
  simp only
  apply FailFast.log
  · unfold deleteSnapshotBody
    cases hc : w.command with
    | mk b w0 =>
      cases b with
      | true =>
        have := FailFast.command false w (by simp)
        rw [hc] at this
        simpa [Result.isOk] using this
      | false =>
        simp only
        have h0 : ∀ ok, FailFast ok w w0 := fun ok => by
          have := FailFast.command ok w (by rw [hc]; simp)
          rw [hc] at this
          exact this
        split
        · obtain ⟨u, cs, f, t, d, e, g⟩ := h0 true
          exact ⟨u, cs, f, t, d, e, g⟩
        · simpa [Result.isOk] using h0 false
  · unfold deleteSnapshotBody
    cases hc : w.command with
    | mk b w0 =>
      rw [hc] at ht
      cases b with
      | true => exact ht
      | false =>
        simp only
        split
        · exact ht
        · exact ht
  · intro h
    simpa [Call.succeeded] using h

theorem FailFast.weaken {a b : World} (h : FailFast true a b) : FailFast false a b := by
  obtain ⟨u, cs, f, t, d, e, _⟩ := h
  exact ⟨u, cs, f, t, d, e, fun h => by cases h⟩

theorem FailFast.congr {ok : Bool} {a b b' : World} (h : FailFast ok a b)
    (hf : b'.faults = b.faults) (ht : b'.trace = b.trace) : FailFast ok a b' := by
  obtain ⟨u, cs, f, t, d, e, g⟩ := h
  exact ⟨u, cs, by rw [hf]; exact f, by rw [ht]; exact t, d, e, g⟩

theorem createSnapshotBody_failFast (fsName ssName : String) (w : World) :
    FailFast (createSnapshotBody fsName ssName w).1.isOk w (createSnapshotBody fsName ssName w).2 ∧
      (createSnapshotBody fsName ssName w).2.trace = w.trace := by
  obtain ⟨_, _, a3, _⟩ := command_fields w
  obtain ⟨_, _, b3, _⟩ := command_fields w.command.2
  obtain ⟨_, _, c3, _⟩ := command_fields w.command.2.command.2
  have k1 : ∀ ok, (ok = true → w.command.1 = false) → FailFast ok w w.command.2 :=
    fun ok h => FailFast.command ok w h
  have k2 : ∀ ok, (ok = true → w.command.2.command.1 = false) →
      FailFast ok w.command.2 w.command.2.command.2 :=
    fun ok h => FailFast.command ok w.command.2 h
  have k3 : ∀ ok, (ok = true → w.command.2.command.2.command.1 = false) →
      FailFast ok w.command.2.command.2 w.command.2.command.2.command.2 :=
    fun ok h => FailFast.command ok w.command.2.command.2 h
  unfold createSnapshotBody ListFilesystems ListSnapshots
  rw [zfsList_filesystem]
  by_cases h1 : w.command.1 = true
  · rw [if_pos h1]
    exact ⟨by simpa [Result.isOk] using k1 false (by simp), a3⟩
  · rw [if_neg h1]
    simp only
    rw [zfsList_snapshot]
    have g1 : FailFast true w w.command.2 := k1 true (fun _ => by simpa using h1)
    by_cases h2 : w.command.2.command.1 = true
    · rw [if_pos h2]
      exact ⟨by simpa [Result.isOk] using g1.comp (k2 false (by simp)), by rw [b3, a3]⟩
    · rw [if_neg h2]
      simp only
      have g2 : FailFast true w w.command.2.command.2 :=
        g1.comp (k2 true (fun _ => by simpa using h2))
      split
      · exact ⟨by simpa [Result.isOk] using g2.weaken, by rw [b3, a3]⟩
      · split
        · exact ⟨by simpa [Result.isOk] using g2.weaken, by rw [b3, a3]⟩
        · cases h5 : w.command.2.command.2.command with
          | mk b w3 =>
            rw [h5] at c3
            simp only at c3
            cases b with
            | true =>
              have := g2.comp (k3 false (by simp))
              rw [h5] at this
              exact ⟨by simpa [Result.isOk] using this, by rw [c3, b3, a3]⟩
            | false =>
              have := g2.comp (k3 true (fun _ => by rw [h5]))
              rw [h5] at this
              simp only at this
              exact ⟨by simpa [Result.isOk] using this.congr rfl rfl, by simp [c3, b3, a3]⟩

theorem CreateSnapshot_failFast (fsName ssName : String) (w : World) :
    FailFast (CreateSnapshot fsName ssName w).1.isOk w (CreateSnapshot fsName ssName w).2 := by
  obtain ⟨h, ht⟩ := createSnapshotBody_failFast fsName ssName w
  unfold CreateSnapshot
  simp only
  exact FailFast.log _ _ _ _ h ht (fun h => by simpa [Call.succeeded] using h)

/-- The loop is fail-fast. -/
theorem cleanupLoop_failFast (tier : String) (number : Int) (fuel : Nat) (n : Int)
    (l : List Filesystem) (w : World) (hfuel : l.length < fuel) :
    ∃ out, cleanupLoop tier number fuel n l w = some out ∧ FailFast out.1.isOk w out.2 := by
  refine cleanupLoop_induction tier number (fun _ _ w out => FailFast out.1.isOk w out.2)
    ?_ ?_ ?_ ?_ ?_ fuel n l w hfuel
  · intro n l w _
    exact FailFast.refl _ _
  · intro n l w _ _
    exact FailFast.refl _ _
  · intro n l w j s k _ _ _
    exact FailFast.refl _ _
  · intro n l w j s k n0 n1 e w1 _ _ _ _ hd
    have := DeleteSnapshot_failFast n0 n1 w
    rw [hd] at this
    exact this
  · intro n l w j s k n0 n1 w1 out _ _ _ _ hd hP
    have := DeleteSnapshot_failFast n0 n1 w
    rw [hd] at this
    exact FailFast.comp this hP

theorem cleanupSnapshotForFilesystem_failFast (tier : String) (number : Int) (name : String)
    (w : World) :
    ∃ out, cleanupSnapshotForFilesystem tier number name w = some out ∧
      FailFast out.1.isOk w out.2 := by
  rw [cleanupSnapshotForFilesystem_eq]
  by_cases h : w.command.1 = true
  · rw [if_pos h]
    exact ⟨_, rfl, FailFast.command false w (by simp)⟩
  · rw [if_neg h]
    obtain ⟨out, ho, hP⟩ := cleanupLoop_failFast tier number
      ((w.snapshots.filter (keepSnapshot name)).length + 1)
      (((w.snapshots.filter (keepSnapshot name)).countP
        (fun snapshot => stringsContains snapshot.Name tier) : Nat) : Int)
      (w.snapshots.filter (keepSnapshot name)) w.command.2 (Nat.lt_succ_self _)
    exact ⟨out, ho, (FailFast.command true w (fun _ => by simpa using h)).comp hP⟩

/-- A relation between the worlds before and after that depends on whether the part of
the run returned nil, composes after a part that did, and holds for every cleanup
function, holds across the three cleanup calls at the end of `processFilesystem`. -/
theorem cleanupAll_lift_result (cfg : FilesystemSnapshotConfig)
    (R : Bool → World → World → Prop)
    (hcomp : ∀ ok a b c, R true a b → R ok b c → R ok a c)
    (h : ∀ tier number w,
      ∃ out, cleanupSnapshotForFilesystem tier number cfg.Name w = some out ∧
        out.1 ≠ .panic ∧ R out.1.isOk w out.2) :
    ∀ w, ∃ out, cleanupAll cfg w = some out ∧ out.1 ≠ .panic ∧ R out.1.isOk w out.2 := by
  intro w
  unfold cleanupAll cleanupDailySnapshotForFilesystem cleanupWeeklySnapshotForFilesystem
    cleanupMonthlySnapshotForFilesystem
  obtain ⟨⟨r1, w1⟩, ho1, hp1, hR1⟩ := h "_daily_" cfg.NumberDaily w
  rw [ho1]
  cases r1 with
  | panic => exact absurd rfl hp1
  | error e => exact ⟨_, rfl, by simp [wrapError], hR1⟩
  | ok u =>
    cases u
    simp only
    obtain ⟨⟨r2, w2⟩, ho2, hp2, hR2⟩ := h "_weekly_" cfg.NumberWeekly w1
    rw [ho2]
    cases r2 with
    | panic => exact absurd rfl hp2
    | error e => exact ⟨_, rfl, by simp [wrapError], hcomp _ _ _ _ hR1 hR2⟩
    | ok u =>
      cases u
      simp only
      obtain ⟨⟨r3, w3⟩, ho3, hp3, hR3⟩ := h "_monthly_" cfg.NumberMonthly w2
      rw [ho3]
      cases r3 with
      | panic => exact absurd rfl hp3
      | error e =>
        exact ⟨_, rfl, by simp [wrapError], hcomp _ _ _ _ hR1 (hcomp _ _ _ _ hR2 hR3)⟩
      | ok u =>
        cases u
        exact ⟨_, rfl, by simp, hcomp _ _ _ _ hR1 (hcomp _ _ _ _ hR2 hR3)⟩

theorem cleanupAll_failFast (cfg : FilesystemSnapshotConfig) (w : World) :
    ∃ out, cleanupAll cfg w = some out ∧ out.1 ≠ .panic ∧ FailFast out.1.isOk w out.2 :=
  cleanupAll_lift_result cfg FailFast (fun _ _ _ _ h1 h2 => h1.comp h2)
    (fun tier number w => by
      obtain ⟨out, ho, hF⟩ := cleanupSnapshotForFilesystem_failFast tier number cfg.Name w
      obtain ⟨out', ho', hp⟩ := cleanupSnapshotForFilesystem_no_panic tier number cfg.Name w
      rw [ho] at ho'
      cases ho'
      exact ⟨out, ho, hp, hF⟩) w

theorem createStages_failFast (fsName : String) (k : World → Option (Result Unit × World))
    (hk : ∀ w, ∃ out, k w = some out ∧ out.1 ≠ .panic ∧ FailFast out.1.isOk w out.2)
    (stages : List (Bool × String)) (w : World) :
    ∃ out, createStages fsName stages w k = some out ∧ out.1 ≠ .panic ∧
      FailFast out.1.isOk w out.2 := by
  refine createStages_induction fsName k (fun _ => True) (fun _ => True)
    (fun _ w out => out.1 ≠ .panic ∧ FailFast out.1.isOk w out.2)
    ?_ ?_ ?_ ?_ stages w trivial (fun _ _ => trivial)
  · intro w _
    exact hk w
  · intro ss rest w out hQ
    exact hQ
  · intro ss rest w e w1 _ _ hc
    have := CreateSnapshot_failFast fsName ss w
    rw [hc] at this
    exact ⟨by simp, this⟩
  · intro ss rest w w1 _ _ hc
    have := CreateSnapshot_failFast fsName ss w
    rw [hc] at this
    exact ⟨trivial, fun out hQ => ⟨hQ.1, FailFast.comp this hQ.2⟩⟩

theorem processFilesystem_failFast (now : Time) (cfg : FilesystemSnapshotConfig) (w : World) :
    ∃ out, processFilesystem now cfg w = some out ∧ out.1 ≠ .panic ∧
      FailFast out.1.isOk w out.2 := by
  rw [processFilesystem_eq]
  by_cases h1 : w.command.1 = true
  · rw [if_pos h1]
    exact ⟨_, rfl, by simp, FailFast.command false w (by simp)⟩
  · rw [if_neg h1]
    have g1 : FailFast true w w.command.2 :=
      FailFast.command true w (fun _ => by simpa using h1)
    by_cases h2 : (w.filesystems.any fun filesystem => filesystem.Name == cfg.Name) = false
    · rw [if_pos h2]
      exact ⟨_, rfl, by simp, g1.weaken⟩
    · rw [if_neg h2]
      by_cases h3 : w.command.2.command.1 = true
      · rw [if_pos h3]
        exact ⟨_, rfl, by simp, g1.comp (FailFast.command false w.command.2 (by simp))⟩
      · rw [if_neg h3]
        obtain ⟨out, ho, hp, hF⟩ := createStages_failFast cfg.Name (cleanupAll cfg)
          (cleanupAll_failFast cfg) (stagesOf now cfg w) w.command.2.command.2
        exact ⟨out, ho, hp,
          (g1.comp (FailFast.command true w.command.2 (fun _ => by simpa using h3))).comp hF⟩

theorem deletedNames_append (c1 c2 : List Call) :
    deletedNames (c1 ++ c2) = deletedNames c1 ++ deletedNames c2 := by
  simp [deletedNames]

theorem NotUndone.same (a b : World) (ht : b.trace = a.trace)
    (hs : b.snapshots = a.snapshots) : NotUndone a b :=
  ⟨[], by simp [ht], by simp, fun s h => by rwa [hs] at h, by simp [deletedNames]⟩

theorem NotUndone.chain {a b c : World} (h1 : NotUndone a b) (h2 : NotUndone b c) :
    NotUndone a c := by
  obtain ⟨c1, t1, d1, s1, n1⟩ := h1
  obtain ⟨c2, t2, d2, s2, n2⟩ := h2
  refine ⟨c1 ++ c2, by rw [t2, t1, List.append_assoc], ?_, fun s hs => s1 s (s2 s hs), ?_⟩
  · intro x hx
    rcases List.mem_append.1 hx with hx | hx
    · exact d1 x hx
    · exact d2 x hx
  · intro name hn s hs
    rw [deletedNames_append] at hn
    rcases List.mem_append.1 hn with hn | hn
    · exact n1 name hn s (s2 s hs)
    · exact n2 name hn s hs

theorem cleanupLoop_notUndone (tier : String) (number : Int) (fuel : Nat) (n : Int)
    (l : List Filesystem) (w : World) (hfuel : l.length < fuel) :
    ∃ out, cleanupLoop tier number fuel n l w = some out ∧ NotUndone w out.2 := by
  refine cleanupLoop_induction tier number (fun _ _ w out => NotUndone w out.2)
    ?_ ?_ ?_ ?_ ?_ fuel n l w hfuel
  · intro n l w _
    exact NotUndone.same _ _ rfl rfl
  · intro n l w _ _
    exact NotUndone.same _ _ rfl rfl
  · intro n l w j s k _ _ _
    exact NotUndone.same _ _ rfl rfl
  · intro n l w j s k n0 n1 e w1 _ _ _ _ hd
    obtain ⟨hs, _, ht, _⟩ := DeleteSnapshot_error n0 n1 e w w1 hd
    exact ⟨_, ht, by simp [Call.isDelete], fun s h => by rwa [hs] at h,
      by simp [deletedNames, Call.isDelete, Call.succeeded]⟩
  · intro n l w j s k n0 n1 w1 out _ _ _ _ hd hP
    obtain ⟨hs, _, ht, _, _⟩ := DeleteSnapshot_ok n0 n1 w w1 hd
    have hstep : NotUndone w w1 := by
      refine ⟨_, ht, by simp [Call.isDelete], fun s h => ?_, ?_⟩
      · rw [hs] at h
        exact (List.mem_filter.1 h).1
      · intro name hn s h
        simp only [deletedNames, Call.isDelete, Call.succeeded, Bool.and_self, List.filter_cons,
          if_true, List.filter_nil, List.map_cons, List.map_nil, List.mem_singleton,
          Call.target] at hn
        subst hn
        rw [hs] at h
        simpa using (List.mem_filter.1 h).2
    exact hstep.chain hP

theorem cleanupAll_notUndone (cfg : FilesystemSnapshotConfig) (w : World) :
    ∃ out, cleanupAll cfg w = some out ∧ NotUndone w out.2 := by
  obtain ⟨out, ho, _, h⟩ := cleanupAll_lift cfg (fun _ => True) NotUndone
    (fun _ _ _ h1 h2 => h1.chain h2)
    (fun tier number w _ => by
      obtain ⟨hs, _, ht, _⟩ := command_fields w
      rw [cleanupSnapshotForFilesystem_eq]
      by_cases h : w.command.1 = true
      · rw [if_pos h]
        exact ⟨_, rfl, trivial, NotUndone.same _ _ ht hs⟩
      · rw [if_neg h]
        obtain ⟨out, ho, hN⟩ := cleanupLoop_notUndone tier number
          ((w.snapshots.filter (keepSnapshot cfg.Name)).length + 1)
          (((w.snapshots.filter (keepSnapshot cfg.Name)).countP
            (fun snapshot => stringsContains snapshot.Name tier) : Nat) : Int)
          (w.snapshots.filter (keepSnapshot cfg.Name)) w.command.2 (Nat.lt_succ_self _)
        exact ⟨out, ho, trivial, (NotUndone.same w w.command.2 ht hs).chain hN⟩)
    w trivial
  exact ⟨out, ho, h⟩

theorem createStages_notUndone (fsName : String) (k : World → Option (Result Unit × World))
    (hk : ∀ w, ∃ out, k w = some out ∧ NotUndone w out.2)
    (stages : List (Bool × String)) (w : World) :
    ∃ out, createStages fsName stages w k = some out ∧
      ∃ calls, out.2.trace = w.trace ++ calls ∧
        ∀ name ∈ deletedNames calls, ∀ s ∈ out.2.snapshots, s.Name ≠ name := by
  refine createStages_induction fsName k (fun _ => True) (fun _ => True)
    (fun _ w out => ∃ calls, out.2.trace = w.trace ++ calls ∧
        ∀ name ∈ deletedNames calls, ∀ s ∈ out.2.snapshots, s.Name ≠ name)
    ?_ ?_ ?_ ?_ stages w trivial (fun _ _ => trivial)
  · intro w _
    obtain ⟨out, ho, calls, ht, _, _, hn⟩ := hk w
    exact ⟨out, ho, calls, ht, hn⟩
  · intro ss rest w out hQ
    exact hQ
  · intro ss rest w e w1 _ _ hc
    obtain ⟨r, w1', hc', _, _, ht, _⟩ := CreateSnapshot_spec fsName ss w
    rw [hc] at hc'
    simp only [Prod.mk.injEq] at hc'
    obtain ⟨rfl, rfl⟩ := hc'
    exact ⟨_, ht, by simp [deletedNames, Call.isDelete]⟩
  · intro ss rest w w1 _ _ hc
    refine ⟨trivial, ?_⟩
    rintro out ⟨calls, h1, h2⟩
    obtain ⟨r, w1', hc', _, _, ht, _⟩ := CreateSnapshot_spec fsName ss w
    rw [hc] at hc'
    simp only [Prod.mk.injEq] at hc'
    obtain ⟨rfl, rfl⟩ := hc'
    refine ⟨Call.create fsName ss true :: calls, by rw [h1, ht]; simp [Result.isOk], ?_⟩
    intro name hn
    apply h2 name
    simpa [deletedNames, Call.isDelete] using hn

/-- C14.  Every run of `processFilesystem` returns, and not by a panic.  Of the `zfs`
commands it runs (listings included) only the last one can have failed, and of the
`CreateSnapshot` and `DeleteSnapshot` calls it issues only the last one can have failed:
nothing is run or issued after a failure.  When a command or a call failed the run does
not return nil.  No snapshot left at the end has the name of a successful
`DeleteSnapshot` call of the run.  And a listing that fails ends the function it is in at
once: `processFilesystem` for its two listings, a cleanup function for its own. -/
theorem fail_fast (now : Time) (cfg : FilesystemSnapshotConfig) (w : World) :
    ∃ out, processFilesystem now cfg w = some out ∧ out.1 ≠ .panic ∧
      (∃ used : List Bool, w.faults = used ++ out.2.faults ∧
        (∀ x ∈ used.dropLast, x = false) ∧ (true ∈ used → ∃ e, out.1 = .error e)) ∧
      (∀ c ∈ (callsSince w out.2).dropLast, c.succeeded = true) ∧
      ((∃ c ∈ callsSince w out.2, c.succeeded = false) → ∃ e, out.1 = .error e) ∧
      (∀ name ∈ deletedNames (callsSince w out.2), ∀ s ∈ out.2.snapshots, s.Name ≠ name) ∧
      (w.command.1 = true → out = (.error "zfs: list failed", w.command.2)) ∧
      (w.command.1 = false → (∃ f ∈ w.filesystems, f.Name = cfg.Name) →
        w.command.2.command.1 = true →
        out = (.error "zfs: list failed", w.command.2.command.2)) ∧
      (∀ (T : Tier) (w' : World), w'.command.1 = true →
        cleanupForTier T cfg w' = some (.error "zfs: list failed", w'.command.2)) := by
  obtain ⟨out, ho, hp, used, calls, hf, ht, hd, he, hg⟩ := processFilesystem_failFast now cfg w
  have hcalls := callsSince_append w out.2 calls ht
  have herr : out.1.isOk = false → ∃ e, out.1 = .error e := by
    intro h
    rcases hr : out.1 with u | e | _
    · rw [hr] at h; simp [Result.isOk] at h
    · exact ⟨e, rfl⟩
    · exact absurd hr hp
  have hnu : ∀ name ∈ deletedNames (callsSince w out.2), ∀ s ∈ out.2.snapshots,
      s.Name ≠ name := by
    obtain ⟨a1, _, a3, _⟩ := command_fields w
    obtain ⟨b1, _, b3, _⟩ := command_fields w.command.2
    have hempty : ∀ (v : World), v.trace = w.trace →
        ∀ name ∈ deletedNames (callsSince w v), ∀ s ∈ v.snapshots, s.Name ≠ name := by
      intro v hv name hn
      rw [callsSince_append w v [] (by simp [hv])] at hn
      simp [deletedNames] at hn
    rw [processFilesystem_eq] at ho
    by_cases h1 : w.command.1 = true
    · rw [if_pos h1] at ho
      cases ho
      exact hempty _ a3
    · rw [if_neg h1] at ho
      by_cases h2 : (w.filesystems.any fun filesystem => filesystem.Name == cfg.Name) = false
      · rw [if_pos h2] at ho
        cases ho
        exact hempty _ a3
      · rw [if_neg h2] at ho
        by_cases h3 : w.command.2.command.1 = true
        · rw [if_pos h3] at ho
          cases ho
          exact hempty _ (by rw [b3, a3])
        · rw [if_neg h3] at ho
          obtain ⟨out', ho', calls', ht', hn'⟩ := createStages_notUndone cfg.Name (cleanupAll cfg)
            (cleanupAll_notUndone cfg) (stagesOf now cfg w) w.command.2.command.2
          rw [ho] at ho'
          cases ho'
          rw [b3, a3] at ht'
          rw [callsSince_append w out.2 calls' ht']
          exact hn'
  refine ⟨out, ho, hp, ⟨used, hf, hd, ?_⟩, by rw [hcalls]; exact he, ?_, hnu, ?_, ?_, ?_⟩
  · intro hmem
    apply herr
    by_contra hok
    have hok' : out.1.isOk = true := by simpa using hok
    have := (hg hok').1 true hmem
    cases this
  · rintro ⟨c, hc, hfail⟩
    apply herr
    by_contra hok
    have hok' : out.1.isOk = true := by simpa using hok
    rw [hcalls] at hc
    have := (hg hok').2 c hc
    rw [hfail] at this
    cases this
  · intro h1
    rw [processFilesystem_eq, if_pos h1] at ho
    cases ho
    rfl
  · intro h1 hfound h3
    have h2 : ¬ (w.filesystems.any fun filesystem => filesystem.Name == cfg.Name) = false := by
      obtain ⟨f, hf', he'⟩ := hfound
      rw [List.any_eq_false]
      intro hall
      exact hall f hf' (by simpa using he')
    rw [processFilesystem_eq, if_neg (by simp [h1]), if_neg h2, if_pos h3] at ho
    cases ho
    rfl
  · intro T w' h1
    rw [cleanupForTier_eq, cleanupSnapshotForFilesystem_eq, if_pos h1]

/-- A run in which the second `zfs destroy` fails: the volume `tank` keeps no daily
snapshot and has three; the first destruction succeeds, the second fails, the run
returns the error of the daily cleanup, the third snapshot is not touched and the first
stays destroyed. -/
theorem second_destroy_fails_example :
    processFilesystem ⟨738887⟩ ⟨"tank", 0, 0, 0⟩
        ⟨[newSnapshot "tank"],
          [newSnapshot "tank@auto_daily_20240101", newSnapshot "tank@auto_daily_20240102",
            newSnapshot "tank@auto_daily_20240103"],
          [false, false, false, false, true, false], []⟩ =
      some (.error "cleanup daily: zfs: destroy failed", ⟨[newSnapshot "tank"],
        [newSnapshot "tank@auto_daily_20240102", newSnapshot "tank@auto_daily_20240103"],
        [false],
        [Call.delete "tank" "auto_daily_20240101" true,
          Call.delete "tank" "auto_daily_20240102" false]⟩) := by
  decide

theorem cleanupLoop_sublist (tier : String) (number : Int) (fuel : Nat) (n : Int)
    (l : List Filesystem) (w : World) (hfuel : l.length < fuel) :
    ∃ out, cleanupLoop tier number fuel n l w = some out ∧
      List.Sublist out.2.snapshots w.snapshots := by
  refine cleanupLoop_induction tier number
    (fun _ _ w out => List.Sublist out.2.snapshots w.snapshots) ?_ ?_ ?_ ?_ ?_ fuel n l w hfuel
  · intro n l w _
    exact List.Sublist.refl _
  · intro n l w _ _
    exact List.Sublist.refl _
  · intro n l w j s k _ _ _
    exact List.Sublist.refl _
  · intro n l w j s k n0 n1 e w1 _ _ _ _ hd
    obtain ⟨hs, _, _, _⟩ := DeleteSnapshot_error n0 n1 e w w1 hd
    simp only
    rw [hs]
  · intro n l w j s k n0 n1 w1 out _ _ _ _ hd hP
    obtain ⟨hs, _, _, _, _⟩ := DeleteSnapshot_ok n0 n1 w w1 hd
    refine hP.trans ?_
    rw [hs]
    exact List.filter_sublist _

theorem cleanupAll_sublist (cfg : FilesystemSnapshotConfig) (w : World) :
    ∃ out, cleanupAll cfg w = some out ∧ List.Sublist out.2.snapshots w.snapshots := by
  obtain ⟨out, ho, _, h⟩ := cleanupAll_lift cfg (fun _ => True)
    (fun a b => List.Sublist b.snapshots a.snapshots)
    (fun _ _ _ h1 h2 => h2.trans h1)
    (fun tier number w _ => by
      obtain ⟨hs, _, _, _⟩ := command_fields w
      rw [cleanupSnapshotForFilesystem_eq]
      by_cases h : w.command.1 = true
      · rw [if_pos h]
        exact ⟨_, rfl, trivial, by simp only; rw [hs]⟩
      · rw [if_neg h]
        obtain ⟨out, ho, hN⟩ := cleanupLoop_sublist tier number
          ((w.snapshots.filter (keepSnapshot cfg.Name)).length + 1)
          (((w.snapshots.filter (keepSnapshot cfg.Name)).countP
            (fun snapshot => stringsContains snapshot.Name tier) : Nat) : Int)
          (w.snapshots.filter (keepSnapshot cfg.Name)) w.command.2 (Nat.lt_succ_self _)
        exact ⟨out, ho, trivial, by rw [hs] at hN; exact hN⟩)
    w trivial
  exact ⟨out, ho, h⟩

/-- Snapshot names stay pairwise distinct through a run of `processFilesystem`. -/
theorem processFilesystem_nodup (now : Time) (cfg : FilesystemSnapshotConfig) (w : World)
    (hw : (w.snapshots.map (·.Name)).Nodup) :
    ∃ out, processFilesystem now cfg w = some out ∧ (out.2.snapshots.map (·.Name)).Nodup := by
  obtain ⟨a1, _, _, _⟩ := command_fields w
  obtain ⟨b1, _, _, _⟩ := command_fields w.command.2
  rw [processFilesystem_eq]
  by_cases h1 : w.command.1 = true
  · rw [if_pos h1]
    exact ⟨_, rfl, by simp only; rw [a1]; exact hw⟩
  · rw [if_neg h1]
    by_cases h2 : (w.filesystems.any fun filesystem => filesystem.Name == cfg.Name) = false
    · rw [if_pos h2]
      exact ⟨_, rfl, by simp only; rw [a1]; exact hw⟩
    · rw [if_neg h2]
      by_cases h3 : w.command.2.command.1 = true
      · rw [if_pos h3]
        exact ⟨_, rfl, by simp only; rw [b1, a1]; exact hw⟩
      · rw [if_neg h3]
        refine createStages_induction cfg.Name (cleanupAll cfg)
          (fun v => (v.snapshots.map (·.Name)).Nodup) (fun _ => True)
          (fun _ _ out => (out.2.snapshots.map (·.Name)).Nodup)
          ?_ ?_ ?_ ?_ (stagesOf now cfg w) w.command.2.command.2
          (by show (w.command.2.command.2.snapshots.map (·.Name)).Nodup
              rw [b1, a1]; exact hw) (fun _ _ => trivial)
        · intro v hv
          obtain ⟨out, ho, hsub⟩ := cleanupAll_sublist cfg v
          exact ⟨out, ho, hv.sublist (hsub.map _)⟩
        · intro ss rest v out hQ
          exact hQ
        · intro ss rest v e v1 hv _ hc
          obtain ⟨r, v1', hc', _, _, _, hcase⟩ := CreateSnapshot_spec cfg.Name ss v
          rw [hc] at hc'
          simp only [Prod.mk.injEq] at hc'
          obtain ⟨rfl, rfl⟩ := hc'
          rcases hcase with ⟨h, _⟩ | ⟨_, hs⟩
          · cases h
          · simp only
            rw [hs]
            exact hv
        · intro ss rest v v1 hv _ hc
          obtain ⟨r, v1', hc', _, _, _, hcase⟩ := CreateSnapshot_spec cfg.Name ss v
          rw [hc] at hc'
          simp only [Prod.mk.injEq] at hc'
          obtain ⟨rfl, rfl⟩ := hc'
          rcases hcase with ⟨_, hs, _, hnew⟩ | ⟨h, _⟩
          · refine ⟨?_, fun out hQ => hQ⟩
            show (v1.snapshots.map (·.Name)).Nodup
            rw [hs, List.map_append, List.nodup_append]
            refine ⟨hv, by simp, ?_⟩
            intro a ha hb
            simp only [List.map_cons, List.map_nil, List.mem_singleton, newSnapshot] at hb
            rw [List.mem_map] at ha
            obtain ⟨s, hs', rfl⟩ := ha
            exact hnew s hs' hb
          · simp [Result.isOk] at h

theorem nodup_filter_name_le_one (l : List Filesystem) (name : String)
    (h : (l.map (·.Name)).Nodup) : (l.filter (fun s => s.Name == name)).length ≤ 1 := by
  induction l with
  | nil => simp
  | cons x xs ih =>
    rw [List.map_cons, List.nodup_cons] at h
    by_cases hx : x.Name = name
    · have hnone : xs.filter (fun s => s.Name == name) = [] := by
        rw [List.filter_eq_nil_iff]
        intro s hs hsn
        apply h.1
        rw [List.mem_map]
        exact ⟨s, hs, by rw [hx]; simpa using hsn⟩
      simp [List.filter_cons, hx, hnone]
    · have := ih h.2
      simpa [List.filter_cons, hx] using this

/-- C16.  When `fsName` is the name of no listed filesystem, or a listed snapshot is
already named `fsName@ssName`, `CreateSnapshot` returns an error, logs the failed call,
leaves the provider's filesystems and snapshots as they are, and runs at most the two
listing commands, not the `zfs snapshot` command.  And when the snapshot names are
pairwise distinct before a run of `processFilesystem` they are after it, so that at most
one snapshot has the canonical name of a tier for the volume. -/
theorem createSnapshot_precheck (fsName ssName : String) (w : World)
    (h : (∀ f ∈ w.filesystems, f.Name ≠ fsName) ∨
      ∃ s ∈ w.snapshots, s.Name = fsName ++ "@" ++ ssName) :
    (∃ e w1, CreateSnapshot fsName ssName w = (.error e, w1) ∧
      w1.snapshots = w.snapshots ∧ w1.filesystems = w.filesystems ∧
      w1.trace = w.trace ++ [Call.create fsName ssName false] ∧
      (w1.faults = w.faults.tail ∨ w1.faults = w.faults.tail.tail)) ∧
    (∀ (now : Time) (cfg : FilesystemSnapshotConfig) (w0 : World),
      (w0.snapshots.map (·.Name)).Nodup →
      ∃ out, processFilesystem now cfg w0 = some out ∧
        (out.2.snapshots.map (·.Name)).Nodup ∧
        ∀ T : Tier, (out.2.snapshots.filter
          (fun s => s.Name == cfg.Name ++ "@" ++ T.label now)).length ≤ 1) := by
  constructor
  · obtain ⟨r, w1, hc, hnp, hf, ht, hcase⟩ := CreateSnapshot_spec fsName ssName w
    have hfaults : w1.faults = w.faults.tail ∨ w1.faults = w.faults.tail.tail := by
      obtain ⟨a1, _, _, a4⟩ := command_fields w
      obtain ⟨_, _, _, b4⟩ := command_fields w.command.2
      have hw1 : w1 = (CreateSnapshot fsName ssName w).2 := by rw [hc]
      rw [hw1]
      unfold CreateSnapshot createSnapshotBody ListFilesystems ListSnapshots
      rw [zfsList_filesystem]
      by_cases h1 : w.command.1 = true
      · rw [if_pos h1]
        exact Or.inl (by simp [World.log, a4])
      · rw [if_neg h1]
        simp only
        rw [zfsList_snapshot]
        by_cases h2 : w.command.2.command.1 = true
        · rw [if_pos h2]
          exact Or.inr (by simp [World.log, a4, b4])
        · rw [if_neg h2]
          simp only
          by_cases h3 : (w.filesystems.any fun filesystem => filesystem.Name == fsName) = true
          · simp only [h3, Bool.not_true, Bool.false_eq_true, if_false]
            have h4 : (w.command.2.snapshots.any
                fun snapshot => snapshot.Name == fsName ++ "@" ++ ssName) = true := by
              rcases h with h | ⟨s, hs, he⟩
              · exfalso
                rw [List.any_eq_true] at h3
                obtain ⟨f, hf', he'⟩ := h3
                exact h f hf' (by simpa using he')
              · rw [List.any_eq_true]
                exact ⟨s, by rw [a1]; exact hs, by simpa using he⟩
            rw [if_pos h4]
            exact Or.inr (by simp [World.log, a4, b4])
          · simp only [h3, Bool.not_false, if_true]
            exact Or.inr (by simp [World.log, a4, b4])
    rcases hcase with ⟨_, _, ⟨f, hfm, hfn⟩, hnew⟩ | ⟨hok, hs⟩
    · exfalso
      rcases h with h | ⟨s, hs, he⟩
      · exact h f hfm hfn
      · exact hnew s hs he
    · cases r with
      | ok u => simp [Result.isOk] at hok
      | panic => exact absurd rfl hnp
      | error e => exact ⟨e, w1, hc, hs, hf, by simpa [Result.isOk] using ht, hfaults⟩
  · intro now cfg w0 hnd
    obtain ⟨out, ho, hout⟩ := processFilesystem_nodup now cfg w0 hnd
    exact ⟨out, ho, hout, fun T => nodup_filter_name_le_one _ _ hout⟩

/-- C16 on the volume `tank`, which already has the snapshot `auto_daily_20240103`:
`CreateSnapshot` returns the error of the pre-check and changes nothing but the log. -/
theorem createSnapshot_precheck_witness :
    ((∃ e w1, CreateSnapshot "tank" "auto_daily_20240103"
        ⟨[newSnapshot "tank"], [newSnapshot "tank@auto_daily_20240103"], [], []⟩ = (.error e, w1) ∧
      w1.snapshots = [newSnapshot "tank@auto_daily_20240103"] ∧
      w1.filesystems = [newSnapshot "tank"] ∧
      w1.trace = [] ++ [Call.create "tank" "auto_daily_20240103" false] ∧
      (w1.faults = ([] : List Bool).tail ∨ w1.faults = ([] : List Bool).tail.tail)) ∧
    (∀ (now : Time) (cfg : FilesystemSnapshotConfig) (w0 : World),
      (w0.snapshots.map (·.Name)).Nodup →
      ∃ out, processFilesystem now cfg w0 = some out ∧
        (out.2.snapshots.map (·.Name)).Nodup ∧
        ∀ T : Tier, (out.2.snapshots.filter
          (fun s => s.Name == cfg.Name ++ "@" ++ T.label now)).length ≤ 1)) ∧
    CreateSnapshot "tank" "auto_daily_20240103"
        ⟨[newSnapshot "tank"], [newSnapshot "tank@auto_daily_20240103"], [], []⟩ =
      (.error "zfs: snapshot already exists tank@auto_daily_20240103",
        ⟨[newSnapshot "tank"], [newSnapshot "tank@auto_daily_20240103"], [],
          [Call.create "tank" "auto_daily_20240103" false]⟩) ∧
    CreateSnapshot "pool" "auto_daily_20240103"
        ⟨[newSnapshot "tank"], [newSnapshot "tank@auto_daily_20240103"], [], []⟩ =
      (.error "zfs: no filesystem with name pool",
        ⟨[newSnapshot "tank"], [newSnapshot "tank@auto_daily_20240103"], [],
          [Call.create "pool" "auto_daily_20240103" false]⟩) :=
  ⟨createSnapshot_precheck "tank" "auto_daily_20240103"
      ⟨[newSnapshot "tank"], [newSnapshot "tank@auto_daily_20240103"], [], []⟩ (by decide),
    by decide, by decide⟩

theorem yearDay_le (d : Nat) : (yearDay d).2 ≤ 365 := by
  unfold yearDay
  simp only
  omega

theorem yearDay_leap (d : Nat) (h : (yearDay d).2 = 365) : isLeap (yearDay d).1 = true := by
  unfold yearDay at h ⊢
  unfold isLeap
  simp only [Bool.and_eq_true, Bool.or_eq_true, beq_iff_eq, bne_iff_ne, ne_eq] at h ⊢
  have e1 : d - 146097 * (d / 146097) = d % 146097 := by omega
  rw [e1] at h ⊢
  have hd1 : d % 146097 < 146097 := Nat.mod_lt _ (by decide)
  generalize d % 146097 = d1 at h hd1 ⊢
  generalize d / 146097 = n400 at h ⊢
  have hc : d1 / 36524 ≤ 4 := by omega
  generalize hc100 : d1 / 36524 = c100 at h hc ⊢
  have hn100 : c100 - c100 / 4 ≤ 3 := by omega
  have hcase : c100 - c100 / 4 = 3 ∨ c100 - c100 / 4 ≤ 2 := by omega
  have hd2a : c100 ≤ 3 → d1 - 36524 * (c100 - c100 / 4) < 36524 := by omega
  have hd2b : c100 = 4 → d1 - 36524 * (c100 - c100 / 4) = 36524 := by omega
  have hrel : c100 = 4 → c100 - c100 / 4 = 3 := by omega
  generalize c100 - c100 / 4 = n100 at h hn100 hcase hd2a hd2b hrel ⊢
  have hd2 : d1 - 36524 * n100 ≤ 36524 := by omega
  generalize d1 - 36524 * n100 = d2 at h hd2 hd2a hd2b ⊢
  have hn4 : d2 / 1461 ≤ 24 := by omega
  have hn4' : d2 < 36524 → d2 / 1461 = 24 → d2 - 1461 * (d2 / 1461) < 1460 := by omega
  generalize hn4e : d2 / 1461 = n4 at h hn4 hn4' ⊢
  have hd3 : d2 - 1461 * n4 < 1461 := by omega
  generalize d2 - 1461 * n4 = d3 at h hd3 hn4' ⊢
  have hc1 : d3 / 365 = 4 := by omega
  rw [hc1] at h ⊢
  have hd3' : d3 = 1460 := by omega
  constructor
  · omega
  · by_cases h24 : n4 = 24
    · right
      have : c100 = 4 := by
        by_contra hne
        have := hd2a (by omega)
        have := hn4' this h24
        omega
      have hn : n100 = 3 := hrel this
      subst hn h24
      omega
    · left
      omega

theorem toDigitsCore_acc (fuel : Nat) :
    ∀ (n : Nat) (acc : List Char),
      Nat.toDigitsCore 10 fuel n acc = Nat.toDigitsCore 10 fuel n [] ++ acc := by
  induction fuel with
  | zero => intro n acc; simp [Nat.toDigitsCore]
  | succ fuel ih =>
    intro n acc
    simp only [Nat.toDigitsCore]
    split
    · simp
    · rw [ih (n / 10) (Nat.digitChar (n % 10) :: acc), ih (n / 10) [Nat.digitChar (n % 10)]]
      simp

theorem toDigitsCore_fuel (fuel : Nat) :
    ∀ n, n < fuel → Nat.toDigitsCore 10 fuel n [] = Nat.toDigitsCore 10 (n + 1) n [] := by
  induction fuel using Nat.strong_induction_on with
  | _ fuel ih =>
    intro n hn
    cases fuel with
    | zero => omega
    | succ fuel =>
      simp only [Nat.toDigitsCore]
      by_cases h0 : n / 10 = 0
      · simp [h0]
      · simp only [h0, if_false]
        have hlt : n / 10 < n := by omega
        rw [toDigitsCore_acc fuel, toDigitsCore_acc n]
        rw [ih fuel (Nat.lt_succ_self _) (n / 10) (by omega), ih n hn (n / 10) hlt]

theorem toDigits_step (n : Nat) :
    Nat.toDigits 10 n =
      if n < 10 then [Nat.digitChar n] else Nat.toDigits 10 (n / 10) ++ [Nat.digitChar (n % 10)] := by
  have e : Nat.toDigits 10 n =
      if n / 10 = 0 then [Nat.digitChar (n % 10)]
      else Nat.toDigitsCore 10 n (n / 10) [Nat.digitChar (n % 10)] := rfl
  rw [e]
  by_cases h : n < 10
  · have h0 : n / 10 = 0 := by omega
    have hm : n % 10 = n := by omega
    simp [h, h0, hm]
  · have h0 : ¬ n / 10 = 0 := by omega
    simp only [h, h0, if_false]
    rw [toDigitsCore_acc n, toDigitsCore_fuel n (n / 10) (by omega)]
    rfl

theorem specDigitList_zero (width : Nat) : specDigitList width 0 = List.replicate width '0' := by
  induction width with
  | zero => rfl
  | succ w ih =>
    simp only [specDigitList, Nat.zero_div, ih, Nat.zero_mod]
    rw [List.replicate_succ']
    rfl

/-- The decimal digits of `x` padded to `width` are the last `width` digits of `x`, when
`x` has at most `width` digits. -/
theorem appendInt_data (w : Nat) :
    ∀ x, x < 10 ^ (w + 1) →
      List.replicate (w + 1 - (Nat.toDigits 10 x).length) '0' ++ Nat.toDigits 10 x =
        specDigitList (w + 1) x := by
  induction w with
  | zero =>
    intro x hx
    have h : x < 10 := by simpa using hx
    have h0 : x / 10 = 0 := by omega
    have hm : x % 10 = x := by omega
    rw [toDigits_step x]
    simp [h, specDigitList, hm]
  | succ w ih =>
    intro x hx
    rw [toDigits_step x]
    by_cases h : x < 10
    · have h0 : x / 10 = 0 := by omega
      have hm : x % 10 = x := by omega
      simp only [h, if_true, specDigitList, h0, hm, specDigitList_zero, List.length_singleton,
        Nat.add_sub_cancel, Nat.zero_div, Nat.zero_mod]
      rw [List.replicate_succ']
      rfl
    · simp only [h, if_false, List.length_append, List.length_singleton]
      have hx' : x / 10 < 10 ^ (w + 1) := by
        rw [pow_succ] at hx
        omega
      rw [specDigitList, ← ih (x / 10) hx', Nat.add_sub_add_right, List.append_assoc]

theorem appendInt_eq (x w : Nat) (h : x < 10 ^ (w + 1)) :
    appendInt x (w + 1) = String.mk (specDigitList (w + 1) x) := by
  unfold appendInt
  apply String.ext
  simp only [String.data_append]
  have := appendInt_data w x h
  simpa [Nat.repr, List.asString] using this

theorem monthDay_rep (year yday : Nat) :
    monthDay year yday = monthDay (if isLeap year = true then 4 else 1) yday := by
  have h4 : isLeap 4 = true := by decide
  have h1 : isLeap 1 = false := by decide
  unfold monthDay
  cases h : isLeap year <;> simp [h4, h1]

set_option maxRecDepth 100000 in
theorem monthDay_leap_bound : ∀ yday, yday < 366 →
    1 ≤ (monthDay 4 yday).1 ∧ (monthDay 4 yday).1 ≤ 12 ∧
      1 ≤ (monthDay 4 yday).2 ∧ (monthDay 4 yday).2 ≤ 31 := by
  decide

set_option maxRecDepth 100000 in
theorem monthDay_common_bound : ∀ yday, yday < 365 →
    1 ≤ (monthDay 1 yday).1 ∧ (monthDay 1 yday).1 ≤ 12 ∧
      1 ≤ (monthDay 1 yday).2 ∧ (monthDay 1 yday).2 ≤ 31 := by
  decide

/-- The month and the day of the month of an instant are those of a calendar date. -/
theorem month_day_bound (now : Time) :
    1 ≤ now.month ∧ now.month ≤ 12 ∧ 1 ≤ now.day ∧ now.day ≤ 31 := by
  unfold Time.month Time.day
  rw [monthDay_rep]
  have hle := yearDay_le now.absDay
  by_cases hl : isLeap (yearDay now.absDay).1 = true
  · rw [if_pos hl]
    exact monthDay_leap_bound _ (by omega)
  · rw [if_neg hl]
    have : (yearDay now.absDay).2 ≠ 365 := fun h => hl (yearDay_leap now.absDay h)
    exact monthDay_common_bound _ (by omega)

theorem week_bound (now : Time) : 1 ≤ now.ISOWeek.2 ∧ now.ISOWeek.2 ≤ 53 := by
  unfold Time.ISOWeek
  simp only
  split
  · have := yearDay_le (now.absDay - 3)
    omega
  · have := yearDay_le (now.absDay + 4 - (now.absDay + 1) % 7)
    omega

theorem repr_ne_nil (n : Nat) : (Nat.repr n).data ≠ [] := by
  unfold Nat.repr
  simp only [List.asString]
  rw [toDigits_step]
  split <;> simp

theorem matchesHere_of (tier : String) (ht : tier ∈ tierWords) (digits : List Char)
    (hne : digits ≠ []) (hall : ∀ c ∈ digits, c.isDigit = true) :
    matchesHere ("@auto_".data ++ tier.data ++ "_".data ++ digits) = true := by
  unfold matchesHere
  rw [List.any_eq_true]
  refine ⟨tier, ht, ?_⟩
  simp only [Bool.and_eq_true, Bool.not_eq_true', List.all_eq_true]
  refine ⟨⟨?_, ?_⟩, ?_⟩
  · rw [List.isPrefixOf_iff_prefix]
    exact List.prefix_append _ _
  · rw [List.drop_left]
    cases digits with
    | nil => exact absurd rfl hne
    | cons c cs => rfl
  · rw [List.drop_left]
    exact hall

theorem pattern_of (v tier : String) (ht : tier ∈ tierWords) (digits : List Char)
    (hne : digits ≠ []) (hall : ∀ c ∈ digits, c.isDigit = true) (s : String)
    (hs : s.data = v.data ++ ("@auto_".data ++ tier.data ++ "_".data ++ digits)) :
    snapshotNamePatternMatchString s = true := by
  unfold snapshotNamePatternMatchString
  rw [List.any_eq_true, hs]
  refine ⟨_, ?_, matchesHere_of tier ht digits hne hall⟩
  rw [List.mem_tails]
  exact List.suffix_append _ _

theorem label_matches (now : Time) (v : String) (T : Tier) :
    snapshotNamePatternMatchString (v ++ "@" ++ T.label now) = true := by
  have hy := appendInt_isDigit now.year 4
  have hm := appendInt_isDigit now.month 2
  have hd := appendInt_isDigit now.day 2
  have hw := repr_isDigit now.ISOWeek.2
  have hyne : (appendInt now.year 4).data ≠ [] := by
    unfold appendInt
    simp only [String.data_append, ne_eq, List.append_eq_nil, not_and]
    exact fun _ => repr_ne_nil now.year
  cases T
  · refine pattern_of v "daily" (by decide)
      ((appendInt now.year 4).data ++ (appendInt now.month 2).data ++ (appendInt now.day 2).data)
      (by simp [hyne]) ?_ _ ?_
    · intro c hc
      simp only [List.mem_append] at hc
      rcases hc with (hc | hc) | hc
      · exact hy c hc
      · exact hm c hc
      · exact hd c hc
    · simp [Tier.label, getSnapshotNamesForFilesystem, Time.format20060102, String.data_append]
  · refine pattern_of v "weekly" (by decide)
      ((appendInt now.year 4).data ++ (Nat.repr now.ISOWeek.2).data)
      (by simp [hyne]) ?_ _ ?_
    · intro c hc
      simp only [List.mem_append] at hc
      rcases hc with hc | hc
      · exact hy c hc
      · exact hw c hc
    · simp [Tier.label, getSnapshotNamesForFilesystem, Time.format2006, String.data_append]
  · refine pattern_of v "monthly" (by decide)
      ((appendInt now.year 4).data ++ (appendInt now.month 2).data)
      (by simp [hyne]) ?_ _ ?_
    · intro c hc
      simp only [List.mem_append] at hc
      rcases hc with hc | hc
      · exact hy c hc
      · exact hm c hc
    · simp [Tier.label, getSnapshotNamesForFilesystem, Time.format200601, String.data_append]

/-- C12.  For every instant whose year has four digits, `getSnapshotNamesForFilesystem`
returns the labels in the words of the specification: `auto_daily_` and the year on four
digits, the month on two and the day on two; `auto_weekly_`, the year on four digits and
the ISO week number in decimal without padding; `auto_monthly_`, the year on four digits
and the month on two.  The month is between 1 and 12, the day between 1 and 31 and the
week number between 1 and 53.  And for every volume name each of the three labels, put
after the volume name and `@`, matches the pattern. -/
theorem canonical_labels (now : Time) (hlo : 1000 ≤ now.year) (hhi : now.year ≤ 9999) :
    getSnapshotNamesForFilesystem now =
        specLabels now.year now.month now.day now.ISOWeek.2 ∧
      String.mk (specDigitList 4 now.year) = Nat.repr now.year ∧
      (1 ≤ now.month ∧ now.month ≤ 12 ∧ 1 ≤ now.day ∧ now.day ≤ 31) ∧
      (1 ≤ now.ISOWeek.2 ∧ now.ISOWeek.2 ≤ 53) ∧
      ∀ (v : String) (T : Tier),
        snapshotNamePatternMatchString (v ++ "@" ++ T.label now) = true := by
  obtain ⟨hm1, hm2, hd1, hd2⟩ := month_day_bound now
  have ey := appendInt_eq now.year 3 (by omega)
  have em := appendInt_eq now.month 1 (by omega)
  have ed := appendInt_eq now.day 1 (by omega)
  refine ⟨?_, ?_, ⟨hm1, hm2, hd1, hd2⟩, week_bound now, label_matches now⟩
  · unfold getSnapshotNamesForFilesystem specLabels Time.format20060102 Time.format2006
      Time.format200601
    simp only [ey, em, ed, String.append_assoc]
  · rw [← ey]
    unfold appendInt
    have hlen : 4 ≤ (Nat.repr now.year).length := by
      by_contra hlt
      have h3 : (Nat.repr now.year).length ≤ 3 := by omega
      have := appendInt_data 3 now.year (by omega)
      have hl := congrArg List.length this
      have hspec : ∀ w x, (specDigitList w x).length = w := by
        intro w
        induction w with
        | zero => intro x; rfl
        | succ w ih => intro x; simp [specDigitList, ih]
      rw [hspec] at hl
      have hdig : ∀ n, 1000 ≤ n → 4 ≤ (Nat.toDigits 10 n).length := by
        intro n hn
        rw [toDigits_step n, if_neg (by omega), toDigits_step (n / 10), if_neg (by omega),
          toDigits_step (n / 10 / 10), if_neg (by omega)]
        have : (Nat.toDigits 10 (n / 10 / 10 / 10)).length ≥ 1 := by
          rw [toDigits_step]
          split <;> simp
        simp only [List.length_append, List.length_singleton]
        omega
      have := hdig now.year hlo
      simp only [Nat.repr, List.asString, String.length] at h3
      omega
    have hz : 4 - (Nat.repr now.year).length = 0 := by omega
    rw [hz]
    apply String.ext
    simp

theorem canonical_labels_witness :
    (1000 ≤ (Time.mk 738901).year ∧ (Time.mk 738901).year ≤ 9999) ∧
      getSnapshotNamesForFilesystem (Time.mk 738901) =
        ("auto_daily_20240117", "auto_weekly_20243", "auto_monthly_202401") ∧
      (getSnapshotNamesForFilesystem (Time.mk 738901) =
          specLabels (Time.mk 738901).year (Time.mk 738901).month (Time.mk 738901).day
            (Time.mk 738901).ISOWeek.2 ∧
        String.mk (specDigitList 4 (Time.mk 738901).year) = Nat.repr (Time.mk 738901).year ∧
        (1 ≤ (Time.mk 738901).month ∧ (Time.mk 738901).month ≤ 12 ∧
          1 ≤ (Time.mk 738901).day ∧ (Time.mk 738901).day ≤ 31) ∧
        (1 ≤ (Time.mk 738901).ISOWeek.2 ∧ (Time.mk 738901).ISOWeek.2 ≤ 53) ∧
        ∀ (v : String) (T : Tier),
          snapshotNamePatternMatchString (v ++ "@" ++ T.label (Time.mk 738901)) = true) :=
  ⟨⟨by decide, by decide⟩, by decide,
    canonical_labels (Time.mk 738901) (by decide) (by decide)⟩

theorem StepOrder.stop (cfg : FilesystemSnapshotConfig) (labels : List String) (w : World)
    (out : Result Unit × World) (h : out.2.trace = w.trace) : StepOrder cfg labels w out :=
  ⟨[], [], [], [], out.2, out.2, out.2, by simp [h], by simp, by simp, by simp, by simp,
    by simp [createCalls], by simp, by simp, by simp, by simp⟩

theorem cleanupAll_order (cfg : FilesystemSnapshotConfig) (labels : List String) (w : World) :
    ∃ out, cleanupAll cfg w = some out ∧ StepOrder cfg labels w out := by
  unfold cleanupAll
  obtain ⟨⟨r1, w1⟩, ho1, dD, ht1, _, hd1, _⟩ :=
    cleanupSnapshotForFilesystem_frame "_daily_" cfg.NumberDaily cfg.Name w
  obtain ⟨⟨r2, w2⟩, ho2, dW, ht2, _, hd2, _⟩ :=
    cleanupSnapshotForFilesystem_frame "_weekly_" cfg.NumberWeekly cfg.Name w1
  obtain ⟨⟨r3, w3⟩, ho3, dM, ht3, _, hd3, _⟩ :=
    cleanupSnapshotForFilesystem_frame "_monthly_" cfg.NumberMonthly cfg.Name w2
  simp only at ht1 ht2 ht3
  have e1 : cleanupDailySnapshotForFilesystem cfg w = some (r1, w1) := ho1
  have e2 : cleanupWeeklySnapshotForFilesystem cfg w1 = some (r2, w2) := ho2
  have e3 : cleanupMonthlySnapshotForFilesystem cfg w2 = some (r3, w3) := ho3
  have stopD : ∀ r, StepOrder cfg labels w (r, w1) := fun r =>
    ⟨[], dD, [], [], w, w1, w1, by simp, ht1, by simp, by simp, by simp, by simp [createCalls],
      by simpa using hd1, fun _ => ⟨r1, e1⟩, by simp, by simp⟩
  have stopW : ∀ r, StepOrder cfg labels w (r, w2) := fun r =>
    ⟨[], dD, dW, [], w, w1, w2, by simp, ht1, ht2, by simp, by simp, by simp [createCalls],
      by
        intro c hc
        rcases List.mem_append.1 hc with hc | hc
        · exact hd1 c hc
        · exact hd2 c (by simpa using hc),
      fun _ => ⟨r1, e1⟩, fun _ => ⟨r2, e2⟩, by simp⟩
  have stopM : ∀ r, StepOrder cfg labels w (r, w3) := fun r =>
    ⟨[], dD, dW, dM, w, w1, w2, by simp, ht1, ht2, ht3, by simp, by simp [createCalls],
      by
        intro c hc
        rcases List.mem_append.1 hc with hc | hc
        · exact hd1 c hc
        · rcases List.mem_append.1 hc with hc | hc
          · exact hd2 c hc
          · exact hd3 c hc,
      fun _ => ⟨r1, e1⟩, fun _ => ⟨r2, e2⟩, fun _ => ⟨r3, e3⟩⟩
  rw [e1]
  cases r1 with
  | error e => exact ⟨_, rfl, stopD _⟩
  | panic => exact ⟨_, rfl, stopD _⟩
  | ok u =>
    cases u
    simp only
    rw [e2]
    cases r2 with
    | error e => exact ⟨_, rfl, stopW _⟩
    | panic => exact ⟨_, rfl, stopW _⟩
    | ok u =>
      cases u
      simp only
      rw [e3]
      cases r3 with
      | error e => exact ⟨_, rfl, stopM _⟩
      | panic => exact ⟨_, rfl, stopM _⟩
      | ok u => cases u; exact ⟨_, rfl, stopM _⟩

theorem StepOrder.skip (cfg : FilesystemSnapshotConfig) (l : String) (labels : List String)
    (w : World) (out : Result Unit × World) (h : StepOrder cfg labels w out) :
    StepOrder cfg (l :: labels) w out := by
  obtain ⟨creates, dD, dW, dM, w0, w1, w2, h1, h2, h3, h4, h5, h6, h7⟩ := h
  exact ⟨creates, dD, dW, dM, w0, w1, w2, h1, h2, h3, h4, h5,
    by simpa using List.Sublist.cons _ h6, h7⟩

theorem StepOrder.create (cfg : FilesystemSnapshotConfig) (l : String) (labels : List String)
    (ok : Bool) (w wc : World) (out : Result Unit × World)
    (hc : wc.trace = w.trace ++ [Call.create cfg.Name l ok])
    (h : StepOrder cfg labels wc out) : StepOrder cfg (l :: labels) w out := by
  obtain ⟨creates, dD, dW, dM, w0, w1, w2, h1, h2, h3, h4, h5, h6, h7⟩ := h
  refine ⟨Call.create cfg.Name l ok :: creates, dD, dW, dM, w0, w1, w2, ?_, h2, h3, h4, ?_, ?_,
    h7⟩
  · rw [h1, hc]; simp
  · intro c hc'
    rcases List.mem_cons.1 hc' with rfl | hc'
    · rfl
    · exact h5 c hc'
  · have : createCalls (Call.create cfg.Name l ok :: creates) =
        (cfg.Name, l) :: createCalls creates := by
      simp [createCalls]
    rw [this, List.map_cons]
    exact List.Sublist.cons₂ _ h6

theorem createStages_order (cfg : FilesystemSnapshotConfig) (stages : List (Bool × String))
    (w : World) :
    ∃ out, createStages cfg.Name stages w (cleanupAll cfg) = some out ∧
      StepOrder cfg (stages.map Prod.snd) w out :=
  createStages_induction cfg.Name (cleanupAll cfg) (fun _ => True) (fun _ => True)
    (fun stages w out => StepOrder cfg (stages.map Prod.snd) w out)
    (fun w _ => cleanupAll_order cfg [] w)
    (fun ss rest w out h => StepOrder.skip cfg ss _ w out h)
    (fun ss rest w e w1 _ _ hc => by
      obtain ⟨r, w1', hc', _, _, ht, _⟩ := CreateSnapshot_spec cfg.Name ss w
      rw [hc] at hc'
      cases hc'
      exact StepOrder.create cfg ss _ _ w w1 _ ht
        (StepOrder.stop cfg _ w1 (Result.error e, w1) rfl))
    (fun ss rest w w1 _ _ hc => by
      obtain ⟨r, w1', hc', _, _, ht, _⟩ := CreateSnapshot_spec cfg.Name ss w
      rw [hc] at hc'
      cases hc'
      exact ⟨trivial, fun out h => StepOrder.create cfg ss _ _ w w1 out ht h⟩)
    stages w trivial (fun _ _ => trivial)

/-- The step order of a run.  Every run of `processFilesystem` returns, and its log grows
by `CreateSnapshot` calls first, for labels in the order daily, weekly, monthly, then by
the `DeleteSnapshot` calls of the daily cleanup, then those of the weekly cleanup, then
those of the monthly cleanup; each cleanup that issues a call starts, and so fetches its
listings, after all the `CreateSnapshot` calls of the run. -/
theorem processFilesystem_step_order (now : Time) (cfg : FilesystemSnapshotConfig) (w : World) :
    ∃ out, processFilesystem now cfg w = some out ∧
      StepOrder cfg [Tier.daily.label now, Tier.weekly.label now, Tier.monthly.label now]
        w out := by
  obtain ⟨_, _, a3, _⟩ := command_fields w
  obtain ⟨_, _, b3, _⟩ := command_fields w.command.2
  rw [processFilesystem_eq]
  split
  · exact ⟨_, rfl, StepOrder.stop cfg _ w _ a3⟩
  · split
    · exact ⟨_, rfl, StepOrder.stop cfg _ w _ a3⟩
    · split
      · exact ⟨_, rfl, StepOrder.stop cfg _ w _ (by rw [b3, a3])⟩
      · obtain ⟨out, ho, hS⟩ := createStages_order cfg (stagesOf now cfg w) w.command.2.command.2
        refine ⟨out, ho, ?_⟩
        rw [stagesOf_eq] at hS
        obtain ⟨creates, dD, dW, dM, w0, w1, w2, h1, h⟩ := hS
        exact ⟨creates, dD, dW, dM, w0, w1, w2, by rw [h1, b3, a3], by simpa using h⟩

/-- C17, at a failing input.  On the volume `tank/my_daily_vol` with policy 0 daily,
1 weekly, 0 monthly and no snapshot, on 3 January 2024, the run returns nil after two
calls: it creates `tank/my_daily_vol@auto_weekly_20241` and then destroys it.  The
destruction is the work of the daily cleanup: started in the state reached after the
creation, it counts the weekly snapshot, whose full name has `_daily_` in the volume part,
and destroys it.  The weekly cleanup, started next, counts no snapshot and issues no
call: the snapshot just created is not counted by the cleanup of its tier, and the run
ends without it although one weekly snapshot is to be retained. -/
theorem created_weekly_destroyed_by_daily_cleanup :
    processFilesystem ⟨738887⟩ ⟨"tank/my_daily_vol", 0, 1, 0⟩
        ⟨[newSnapshot "tank/my_daily_vol"], [], [], []⟩ =
      some (.ok (), ⟨[newSnapshot "tank/my_daily_vol"], [], [],
        [Call.create "tank/my_daily_vol" "auto_weekly_20241" true,
          Call.delete "tank/my_daily_vol" "auto_weekly_20241" true]⟩) ∧
    CreateSnapshot "tank/my_daily_vol" "auto_weekly_20241"
        ⟨[newSnapshot "tank/my_daily_vol"], [], [], []⟩ =
      (.ok (), ⟨[newSnapshot "tank/my_daily_vol"],
        [newSnapshot "tank/my_daily_vol@auto_weekly_20241"], [],
        [Call.create "tank/my_daily_vol" "auto_weekly_20241" true]⟩) ∧
    tierSnapshots "_daily_" "tank/my_daily_vol"
        ⟨[newSnapshot "tank/my_daily_vol"],
          [newSnapshot "tank/my_daily_vol@auto_weekly_20241"], [],
          [Call.create "tank/my_daily_vol" "auto_weekly_20241" true]⟩ =
      [newSnapshot "tank/my_daily_vol@auto_weekly_20241"] ∧
    cleanupDailySnapshotForFilesystem ⟨"tank/my_daily_vol", 0, 1, 0⟩
        ⟨[newSnapshot "tank/my_daily_vol"],
          [newSnapshot "tank/my_daily_vol@auto_weekly_20241"], [],
          [Call.create "tank/my_daily_vol" "auto_weekly_20241" true]⟩ =
      some (.ok (), ⟨[newSnapshot "tank/my_daily_vol"], [], [],
        [Call.create "tank/my_daily_vol" "auto_weekly_20241" true,
          Call.delete "tank/my_daily_vol" "auto_weekly_20241" true]⟩) ∧
    tierSnapshots "_weekly_" "tank/my_daily_vol"
        ⟨[newSnapshot "tank/my_daily_vol"], [], [],
          [Call.create "tank/my_daily_vol" "auto_weekly_20241" true,
            Call.delete "tank/my_daily_vol" "auto_weekly_20241" true]⟩ = [] ∧
    cleanupWeeklySnapshotForFilesystem ⟨"tank/my_daily_vol", 0, 1, 0⟩
        ⟨[newSnapshot "tank/my_daily_vol"], [], [],
          [Call.create "tank/my_daily_vol" "auto_weekly_20241" true,
            Call.delete "tank/my_daily_vol" "auto_weekly_20241" true]⟩ =
      some (.ok (), ⟨[newSnapshot "tank/my_daily_vol"], [], [],
        [Call.create "tank/my_daily_vol" "auto_weekly_20241" true,
          Call.delete "tank/my_daily_vol" "auto_weekly_20241" true]⟩) := by
  decide

/-- C19, amended, for the retention count -1 and a listing of one daily snapshot: the loop
returns within two iterations, one more than there are snapshots of the tier, which is
also `max 0 (n - number)` for `n = 1`. -/
theorem cleanup_loop_terminates_witness :
    (∃ out, cleanupLoop "_daily_" (-1)
      ([newSnapshot "tank@auto_daily_20240101"].countP
        (fun s => stringsContains s.Name "_daily_") + 1)
      1 [newSnapshot "tank@auto_daily_20240101"]
      ⟨[newSnapshot "tank"], [newSnapshot "tank@auto_daily_20240101"], [], []⟩ = some out) ∧
    (∃ out, cleanupLoop "_daily_" (-1) ((1 : Int) - (-1)).toNat
      1 [newSnapshot "tank@auto_daily_20240101"]
      ⟨[newSnapshot "tank"], [newSnapshot "tank@auto_daily_20240101"], [], []⟩ = some out) :=
  ⟨(cleanup_loop_terminates "_daily_" (-1) 1 [newSnapshot "tank@auto_daily_20240101"]
      ⟨[newSnapshot "tank"], [newSnapshot "tank@auto_daily_20240101"], [], []⟩).2.1,
    (cleanup_loop_terminates "_daily_" (-1) 1 [newSnapshot "tank@auto_daily_20240101"]
      ⟨[newSnapshot "tank"], [newSnapshot "tank@auto_daily_20240101"], [], []⟩).2.2.1⟩

/-- C6, at a failing input.  The volume `tank/my_daily_vol` keeps 1 daily snapshot and has
one daily and one weekly snapshot.  Both are in the listing of the volume, and one of
them belongs to the daily tier, the one whose label has `_daily_`: with `n = 1` and
`r = 1` the bound `max 0 (n - r)` is 0 and `n ≤ r`.  The daily cleanup nevertheless issues
one `DeleteSnapshot` call and does not leave the listing unchanged: it counts the weekly
snapshot too, whose name has `_daily_` in the volume part, and destroys it. -/
theorem cleanupDaily_deletes_within_retention :
    ListSnapshotsForFilesystem "tank/my_daily_vol"
        ⟨[newSnapshot "tank/my_daily_vol"],
          [newSnapshot "tank/my_daily_vol@auto_daily_20240115",
            newSnapshot "tank/my_daily_vol@auto_weekly_20243"], [], []⟩ =
      (.ok [newSnapshot "tank/my_daily_vol@auto_daily_20240115",
          newSnapshot "tank/my_daily_vol@auto_weekly_20243"],
        ⟨[newSnapshot "tank/my_daily_vol"],
          [newSnapshot "tank/my_daily_vol@auto_daily_20240115",
            newSnapshot "tank/my_daily_vol@auto_weekly_20243"], [], []⟩) ∧
    [newSnapshot "tank/my_daily_vol@auto_daily_20240115",
        newSnapshot "tank/my_daily_vol@auto_weekly_20243"].filter
        (specBelongsToTier Tier.daily) =
      [newSnapshot "tank/my_daily_vol@auto_daily_20240115"] ∧
    max 0 ((([newSnapshot "tank/my_daily_vol@auto_daily_20240115",
        newSnapshot "tank/my_daily_vol@auto_weekly_20243"].filter
        (specBelongsToTier Tier.daily)).length : Int) -
      Tier.daily.number ⟨"tank/my_daily_vol", 1, 4, 0⟩) = 0 ∧
    (tierSnapshots "_daily_" "tank/my_daily_vol"
        ⟨[newSnapshot "tank/my_daily_vol"],
          [newSnapshot "tank/my_daily_vol@auto_daily_20240115",
            newSnapshot "tank/my_daily_vol@auto_weekly_20243"], [], []⟩).length = 2 ∧
    cleanupForTier Tier.daily ⟨"tank/my_daily_vol", 1, 4, 0⟩
        ⟨[newSnapshot "tank/my_daily_vol"],
          [newSnapshot "tank/my_daily_vol@auto_daily_20240115",
            newSnapshot "tank/my_daily_vol@auto_weekly_20243"], [], []⟩ =
      some (.ok (), ⟨[newSnapshot "tank/my_daily_vol"],
        [newSnapshot "tank/my_daily_vol@auto_daily_20240115"], [],
        [Call.delete "tank/my_daily_vol" "auto_weekly_20243" true]⟩) := by
  decide

/-- C18, at a failing input.  The volume `tank/my_daily_vol` keeps 1 daily snapshot; its
listing is `auto_daily_20240103`, `auto_daily_020240103`, `auto_weekly_20241`, in this
order.  The first two belong to the daily tier and share the smallest period key,
20240103.  The first iteration of the daily cleanup selects neither: its inner loop also
takes the weekly snapshot, whose name has `_daily_` in the volume part, and returns
index 2 with the key 20241.  The first call of the pass is therefore the destruction of
`auto_weekly_20241`, not of the snapshot at index 0, which is destroyed by the second
iteration. -/
theorem daily_scan_selects_weekly_over_tied_dailies :
    [newSnapshot "tank/my_daily_vol@auto_daily_20240103",
        newSnapshot "tank/my_daily_vol@auto_daily_020240103",
        newSnapshot "tank/my_daily_vol@auto_weekly_20241"].filter
        (specBelongsToTier Tier.daily) =
      [newSnapshot "tank/my_daily_vol@auto_daily_20240103",
        newSnapshot "tank/my_daily_vol@auto_daily_020240103"] ∧
    periodKey "tank/my_daily_vol@auto_daily_20240103" = some 20240103 ∧
    periodKey "tank/my_daily_vol@auto_daily_020240103" = some 20240103 ∧
    scanOldest "_daily_"
        [newSnapshot "tank/my_daily_vol@auto_daily_20240103",
          newSnapshot "tank/my_daily_vol@auto_daily_020240103",
          newSnapshot "tank/my_daily_vol@auto_weekly_20241"] 0
        ⟨"", 18446744073709551615, -1⟩ =
      .ok ⟨"tank/my_daily_vol@auto_weekly_20241", 20241, 2⟩ ∧
    cleanupDailySnapshotForFilesystem ⟨"tank/my_daily_vol", 1, 4, 0⟩
        ⟨[newSnapshot "tank/my_daily_vol"],
          [newSnapshot "tank/my_daily_vol@auto_daily_20240103",
            newSnapshot "tank/my_daily_vol@auto_daily_020240103",
            newSnapshot "tank/my_daily_vol@auto_weekly_20241"], [], []⟩ =
      some (.ok (), ⟨[newSnapshot "tank/my_daily_vol"],
        [newSnapshot "tank/my_daily_vol@auto_daily_020240103"], [],
        [Call.delete "tank/my_daily_vol" "auto_weekly_20241" true,
          Call.delete "tank/my_daily_vol" "auto_daily_20240103" true]⟩) := by
  decide

end Zfssnap
